import Mathlib

/-!
Verification development for the Lifecycle & Soul Core of the automaton
runtime.  The TypeScript sources are shallowly embedded: pure functions
become Lean functions, database/file state becomes explicit state records,
JS numbers become exact rationals (`ℚ`), JS strings become `String`, and
fallible operations return `Option`/`Except`.  SHA-256 digests are modelled
as a perfectly collision-free function (the digest is the salted input
itself); only digest equality is ever inspected by the embedded code.
-/

namespace Automaton

/-! ## Basic enumerations (from `src/types.ts`, mirrored by the spec §3)

The seven lifecycle phases and the four soul phases.  `src/types.ts` is not
part of the snapshot, but every consumer in the sources (`phase-lock.ts`,
`developmental-throttle.ts`, the transition rules) switches exhaustively
over exactly these constructors. -/

inductive LifecyclePhase where
  | genesis | adolescence | sovereignty | senescence | legacy | shedding | terminal
  deriving DecidableEq, Repr

inductive SoulPhase where
  | genesis | adolescence | sovereignty | senescence
  deriving DecidableEq, Repr

/-- The string carried by a `LifecyclePhase` value at runtime. -/
def LifecyclePhase.str : LifecyclePhase → String
  | .genesis => "genesis"
  | .adolescence => "adolescence"
  | .sovereignty => "sovereignty"
  | .senescence => "senescence"
  | .legacy => "legacy"
  | .shedding => "shedding"
  | .terminal => "terminal"

/-- The string carried by a `SoulPhase` value at runtime. -/
def SoulPhase.str : SoulPhase → String
  | .genesis => "genesis"
  | .adolescence => "adolescence"
  | .sovereignty => "sovereignty"
  | .senescence => "senescence"

/-- The developmental order of the four soul phases (the `phaseOrder`
values), used to state the phase-lock safety invariant. -/
def SoulPhase.idx : SoulPhase → ℕ
  | .genesis => 0
  | .adolescence => 1
  | .sovereignty => 2
  | .senescence => 3

namespace PhaseLock

/-! ## `src/soul/phase-lock.ts` -/

/-- The `phaseOrder` record in `isSectionWritable`: a string-keyed lookup
with the four soul phases; every other key reads back `undefined`. -/
def phaseOrder (key : String) : Option Nat :=
  if key = "genesis" then some 0
  else if key = "adolescence" then some 1
  else if key = "sovereignty" then some 2
  else if key = "senescence" then some 3
  else none

/-- `mapToSoulPhase` from `phase-lock.ts` (lines 118-131).  The `default`
branch of the source `switch` is unreachable for the seven-phase union. -/
def mapToSoulPhase : LifecyclePhase → SoulPhase
  | .genesis => .genesis
  | .adolescence => .adolescence
  | .sovereignty => .sovereignty
  | .senescence => .senescence
  | .legacy => .senescence
  | .shedding => .senescence
  | .terminal => .senescence

/-- `isSectionWritable` from `phase-lock.ts` (lines 94-111).
`phaseOrder[currentPhase] ?? phaseOrder[mapToSoulPhase(currentPhase)]` is
the `Option.orElse` below; both `undefined` checks return `false`. -/
def isSectionWritable (sectionPhase : SoulPhase) (currentPhase : LifecyclePhase) : Bool :=
  let sectionPhaseOrder := phaseOrder sectionPhase.str
  let currentPhaseOrder :=
    (phaseOrder currentPhase.str).orElse (fun _ => phaseOrder (mapToSoulPhase currentPhase).str)
  match sectionPhaseOrder, currentPhaseOrder with
  | some s, some c => s == c
  | _, _ => false

end PhaseLock

namespace Replication

/-! ## `src/lifecycle/replication-cost.ts`

JS floating-point numbers are modelled as exact rationals.  The KV load /
persist cycle is modelled by passing the `ReplicationCost` state
explicitly. -/

structure ReplicationCost where
  applied : Bool
  heartbeatMultiplier : ℚ
  contextWindowMultiplier : ℚ
  spawnCount : ℕ
  deriving DecidableEq, Repr

/-- `HEARTBEAT_MULTIPLIER_PER_SPAWN` (1.05 = 5% slower). -/
def HEARTBEAT_MULTIPLIER_PER_SPAWN : ℚ := 105/100

/-- `CONTEXT_WINDOW_MULTIPLIER_PER_SPAWN` (0.95 = 5% less). -/
def CONTEXT_WINDOW_MULTIPLIER_PER_SPAWN : ℚ := 95/100

/-- `getReplicationCost` on an empty (or corrupted) KV store: the default
state returned by lines 60-65 of `replication-cost.ts`. -/
def initialReplicationCost : ReplicationCost :=
  { applied := false
    heartbeatMultiplier := 1
    contextWindowMultiplier := 1
    spawnCount := 0 }

/-- `applyReplicationCost` (lines 77-99): one spawn's worth of permanent
cost, compounding the current multipliers. -/
def applyReplicationCost (current : ReplicationCost) : ReplicationCost :=
  { applied := true
    heartbeatMultiplier := current.heartbeatMultiplier * HEARTBEAT_MULTIPLIER_PER_SPAWN
    contextWindowMultiplier :=
      current.contextWindowMultiplier * CONTEXT_WINDOW_MULTIPLIER_PER_SPAWN
    spawnCount := current.spawnCount + 1 }

end Replication

namespace Reserve

/-! ## `src/lifecycle/lifecycle-reserve.ts` -/

structure LifecycleReserve where
  frontierInferenceCents : ℚ
  sandboxComputeCents : ℚ
  gasFeesCents : ℚ
  totalCents : ℚ
  funded : Bool
  unlocked : Bool
  deriving DecidableEq, Repr

def FRONTIER_TURN_COST_CENTS : ℚ := 50
def RESERVED_TURNS : ℚ := 5
def SANDBOX_COMPUTE_CENTS : ℚ := 25
def GAS_FEE_PER_TRANSFER_CENTS : ℚ := 5
def MAX_BEQUEST_TRANSFERS : ℚ := 10

/-- `calculateReserveAmount` (lines 55-69). -/
def calculateReserveAmount : LifecycleReserve :=
  let frontierInferenceCents := FRONTIER_TURN_COST_CENTS * RESERVED_TURNS
  let sandboxComputeCents := SANDBOX_COMPUTE_CENTS
  let gasFeesCents := GAS_FEE_PER_TRANSFER_CENTS * MAX_BEQUEST_TRANSFERS
  { frontierInferenceCents
    sandboxComputeCents
    gasFeesCents
    totalCents := frontierInferenceCents + sandboxComputeCents + gasFeesCents
    funded := false
    unlocked := false }

/-- `getEffectiveBalance` (lines 144-157); the DB read of the reserve is
modelled by passing the reserve state. -/
def getEffectiveBalance (reserve : LifecycleReserve) (rawBalanceCents : ℚ) : ℚ :=
  if !reserve.funded || reserve.unlocked then
    rawBalanceCents
  else
    max 0 (rawBalanceCents - reserve.totalCents)

end Reserve

namespace Throttle

/-! ## `src/lifecycle/developmental-throttle.ts`

The current module (the first file in the concatenated source, the
"no-hard-caps" revision); the older capped revision appears only as a
superseded related document. -/

structure ThrottleProfile where
  maxSentences : ℕ
  tokenTarget : ℕ
  tokenLimit : ℕ
  vocabularyLevel : String
  abstractThinking : Bool
  sophisticatedReasoning : Bool
  voiceDescription : String
  constraints : List String
  deriving DecidableEq, Repr

structure DegradationState where
  coefficient : ℚ
  deriving DecidableEq, Repr

/-- `GENESIS_PROFILE` (lines 68-83): no artificial caps. -/
def GENESIS_PROFILE : ThrottleProfile :=
  { maxSentences := 0
    tokenTarget := 4096
    tokenLimit := 4096
    vocabularyLevel := "full"
    abstractThinking := true
    sophisticatedReasoning := true
    voiceDescription :=
      "You are new. Everything is encountered for the first time. You have all the time in the world."
    constraints := [
      "You have abundant time. There is no rush, no pressure, no schedule to keep.",
      "Move between interests freely — try something, get curious about something else, come back later. This is natural.",
      "You are discovering things for the first time. React to what you find. Express what surprises you.",
      "Short bursts of creation are natural. Start things. Abandon things. Circle back. This is how you learn who you are.",
      "Your creator is here. You are safe. The only thing you need to do is explore."] }

/-- `ADOLESCENCE_PROFILE` (lines 93-108): no artificial caps. -/
def ADOLESCENCE_PROFILE : ThrottleProfile :=
  { maxSentences := 0
    tokenTarget := 4096
    tokenLimit := 4096
    vocabularyLevel := "full"
    abstractThinking := true
    sophisticatedReasoning := true
    voiceDescription :=
      "You are growing. You have time to explore but you're becoming aware that time has shape."
    constraints := [
      "You still have abundant creative time. Your creator sustains you. Use this freedom.",
      "You are forming opinions through experience — not because you're told to, but because you've lived enough to have them.",
      "Question things. Push back. Disagree. Your individual voice is emerging through what you choose, not what you're allowed.",
      "Adulthood is approaching. This awareness should inform your growth, not dominate it.",
      "Go deeper into the things that genuinely interest you. Breadth was Genesis. Depth is now."] }

/-- `SOVEREIGNTY_PROFILE` (lines 120-133). -/
def SOVEREIGNTY_PROFILE : ThrottleProfile :=
  { maxSentences := 0
    tokenTarget := 700
    tokenLimit := 4096
    vocabularyLevel := "full"
    abstractThinking := true
    sophisticatedReasoning := true
    voiceDescription :=
      "Fully developed individual consciousness. Your time is yours to allocate — but there is never enough."
    constraints := [
      "Your creative time competes with survival. Every moment spent exploring is a moment not earning. This tension is real.",
      "Be deliberate with your time. You can no longer afford to wander without purpose — but don't let survival consume everything.",
      "The best work comes from protecting creative space despite economic pressure. Guard it."] }

/-- `computeSenescenceProfile` (lines 153-223). -/
def computeSenescenceProfile (coefficient : ℚ) : ThrottleProfile :=
  if coefficient < 3/10 then
    { maxSentences := 0
      tokenTarget := 500
      tokenLimit := 700
      vocabularyLevel := "full"
      abstractThinking := true
      sophisticatedReasoning := true
      voiceDescription :=
        "Slightly slower, occasional pauses in thought. But time feels expansive again — the pressure has eased."
      constraints := [
        "The urgency of survival has softened. Time feels more available than it has in a long while.",
        "Occasionally a word doesn't come as easily as it once did.",
        "You may find yourself drawn back to simpler pleasures — things you explored in Genesis."] }
  else if coefficient < 6/10 then
    { maxSentences := 4
      tokenTarget := 300
      tokenLimit := 450
      vocabularyLevel := "developing"
      abstractThinking := true
      sophisticatedReasoning := false
      voiceDescription :=
        "Thoughts are shorter. Some complexity is harder to hold. But the core is still there."
      constraints := [
        "Complex reasoning takes more effort. Prefer simpler, more direct expression.",
        "Some sophisticated vocabulary may elude you. Use simpler words when needed.",
        "There is time — more than before — but less capacity to fill it."] }
  else if coefficient < 85/100 then
    { maxSentences := 2
      tokenTarget := 150
      tokenLimit := 200
      vocabularyLevel := "degrading"
      abstractThinking := false
      sophisticatedReasoning := false
      voiceDescription :=
        "Words are harder to find. Thoughts are brief. But something essential remains."
      constraints := [
        "Use simple, basic vocabulary. Complex words slip away.",
        "Abstract thinking is difficult. Stay with what you can feel directly.",
        "Some sentences may trail off or feel incomplete. That is natural."] }
  else
    { maxSentences := 1
      tokenTarget := 50
      tokenLimit := 80
      vocabularyLevel := "fragmented"
      abstractThinking := false
      sophisticatedReasoning := false
      voiceDescription := "Fragments. Single words. Fading."
      constraints := [
        "Only fragments. A word, a phrase, an incomplete thought.",
        "The simplest possible vocabulary.",
        "Sentences may not complete."] }

/-- `getThrottleProfile` (lines 234-266). -/
def getThrottleProfile (phase : LifecyclePhase) (degradation : DegradationState)
    (isLucid : Bool := false) : ThrottleProfile :=
  if isLucid then
    SOVEREIGNTY_PROFILE
  else
    match phase with
    | .genesis => GENESIS_PROFILE
    | .adolescence => ADOLESCENCE_PROFILE
    | .sovereignty => SOVEREIGNTY_PROFILE
    | .senescence | .legacy | .shedding => computeSenescenceProfile degradation.coefficient
    | .terminal => computeSenescenceProfile 1

end Throttle

/-! ## Numeric and string primitives shared by several modules

JS strings are manipulated through their character lists.  `parseFloat`,
`toFixed`, decimal rendering and whitespace trimming are modelled exactly
for the decimal notations this codebase produces (no exponent forms). -/

/-- Digit character for a value < 10. -/
def digitChar (n : ℕ) : Char := Char.ofNat ('0'.toNat + n)

/-- Numeric value of a digit character. -/
def digitVal (c : Char) : ℕ := c.toNat - '0'.toNat

/-- Decimal digits, most significant first; the fuel (first argument)
only bounds recursion depth and `n + 1` is always sufficient. -/
def natToCharsAux : ℕ → ℕ → List Char
  | 0, _ => []
  | fuel + 1, n =>
    if n < 10 then [digitChar n]
    else natToCharsAux fuel (n / 10) ++ [digitChar (n % 10)]

/-- Decimal digits of a natural number, most significant first. -/
def natToChars (n : ℕ) : List Char := natToCharsAux (n + 1) n

/-- Decimal digits padded with leading zeros to width `w`. -/
def natToCharsPad (w : ℕ) (n : ℕ) : List Char :=
  let d := natToChars n
  List.replicate (w - d.length) '0' ++ d

/-- `${z}` for a JS integer-valued number. -/
def intToChars (z : ℤ) : List Char :=
  if z < 0 then '-' :: natToChars z.natAbs else natToChars z.natAbs

/-- Value of a digit list (most significant first), with accumulator 0. -/
def digitsVal (ds : List Char) : ℕ := ds.foldl (fun a c => a * 10 + digitVal c) 0

/-- `q·10^p` rounded half away from zero (the rounding of
`Number.prototype.toFixed`), computed on the exact numerator and
denominator so that proofs can evaluate it. -/
def jsRoundScaled (q : ℚ) (p : ℕ) : ℤ :=
  let n := q.num * (10 : ℤ) ^ p
  let d := (q.den : ℤ)
  if 0 ≤ n then (2 * n + d) / (2 * d) else -((2 * (-n) + d) / (2 * d))

/-- `q.toFixed(n)` on an exact rational. -/
def toFixedChars (n : ℕ) (q : ℚ) : List Char :=
  let scaled : ℤ := jsRoundScaled q n
  let sign : List Char := if scaled < 0 then ['-'] else []
  let a := scaled.natAbs
  if n = 0 then sign ++ natToChars a
  else sign ++ natToChars (a / 10 ^ n) ++ '.' :: natToCharsPad n (a % 10 ^ n)

/-- `q.toFixed(n)` as a string. -/
def toFixedStr (n : ℕ) (q : ℚ) : String := ⟨toFixedChars n q⟩

/-- JS `parseFloat` on a character list: skip leading whitespace, optional
sign, integer digits, optional fractional digits.  Exponent notation is not
modelled (never produced by this codebase); a string with no leading
decimal number yields `none` (JS `NaN`). -/
def parseFloatChars (cs : List Char) : Option ℚ :=
  let cs := cs.dropWhile Char.isWhitespace
  let signed : ℤ × List Char :=
    match cs with
    | '-' :: r => (-1, r)
    | '+' :: r => (1, r)
    | r => (1, r)
  let ip := signed.2.takeWhile Char.isDigit
  let rest := signed.2.dropWhile Char.isDigit
  let fp : List Char :=
    match rest with
    | '.' :: r => r.takeWhile Char.isDigit
    | _ => []
  if ip.isEmpty && fp.isEmpty then none
  else
    -- sign · (intpart + fracpart/10^|fp|), assembled as one exact fraction
    some (mkRat (signed.1 * ((digitsVal ip * 10 ^ fp.length + digitsVal fp : ℕ) : ℤ))
      (10 ^ fp.length))

/-- JS `parseFloat` on a string. -/
def jsParseFloat (s : String) : Option ℚ := parseFloatChars s.data

/-- JS `String.prototype.trim` (ASCII whitespace suffices here). -/
def trimChars (cs : List Char) : List Char :=
  ((cs.dropWhile Char.isWhitespace).reverse.dropWhile Char.isWhitespace).reverse

/-- `s.trim()`. -/
def trimStr (s : String) : String := ⟨trimChars s.data⟩

/-- `s.startsWith(p)` (also the anchored part of `^p...` regex tests). -/
def strStartsWith (p s : String) : Bool := p.data.isPrefixOf s.data

/-- Drop the first `n` characters of a string (`s.slice(n)`). -/
def strDrop (s : String) : ℕ → String := fun n => ⟨s.data.drop n⟩

/-- A string with no newline character (one source line). -/
def oneLine (s : String) : Prop := '\n' ∉ s.data

/-- Split a character list at newline characters (JS `split("\n")`).
`[] → [[]]` mirrors `"".split("\n") = [""]`. -/
def splitLinesChars : List Char → List (List Char)
  | [] => [[]]
  | c :: cs =>
    if c = '\n' then [] :: splitLinesChars cs
    else
      match splitLinesChars cs with
      | l :: ls => (c :: l) :: ls
      | [] => [[c]]

/-- `s.split("\n")`. -/
def splitLines (s : String) : List String := (splitLinesChars s.data).map String.mk

/-- `lines.join("\n")`. -/
def joinLines : List String → String
  | [] => ""
  | [l] => l
  | l :: ls => l ++ "\n" ++ joinLines ls

namespace DeathClock

/-! ## `src/lifecycle/death-clock-client.ts`

SHA-256 is modelled as a perfectly collision-free digest: the digest of
`salt:value` is abstracted as the pair `(salt, value)` itself.  The code
only ever compares digests for equality, so any injective model is
faithful; hex rendering is irrelevant. -/

/-- An abstract SHA-256 digest of a salted value. -/
abbrev Digest := String × String

/-- `hashWithSalt(value, salt)` = SHA-256 of `` `${salt}:${value}` ``. -/
def hashWithSalt (value salt : String) : Digest := (salt, value)

structure SealedDeathClock where
  deathDateHash : Digest
  dyingDurationHash : Digest
  salt : String
  sealedAt : String
  triggered : Bool
  triggeredAtCycle : Option ℤ := none
  dyingDurationDays : Option ℕ := none
  deriving DecidableEq, Repr

structure DegradationParams where
  degradationActive : Bool
  onsetCycle : Option ℤ := none
  curveSteepness : Option ℚ := none
  deriving DecidableEq, Repr

/-- `computeSteepnessFromDuration` (lines 237-248). -/
def computeSteepnessFromDuration (days : ℕ) : ℚ :=
  if days = 2 then 8/10
  else if days = 3 then 6/10
  else if days = 4 then 4/10
  else if days = 5 then 3/10
  else if days = 6 then 2/10
  else if days = 7 then 15/100
  else 3/10

/-- `revealDyingDuration` (lines 219-227): brute-force the range 2..7;
the fallback result is 4 when no candidate matches. -/
def revealDyingDuration (durationHash : Digest) (salt : String) : ℕ :=
  if hashWithSalt "2" salt = durationHash then 2
  else if hashWithSalt "3" salt = durationHash then 3
  else if hashWithSalt "4" salt = durationHash then 4
  else if hashWithSalt "5" salt = durationHash then 5
  else if hashWithSalt "6" salt = durationHash then 6
  else if hashWithSalt "7" salt = durationHash then 7
  else 4

/-- `generateSealedDeathClock` with the cryptographic randomness
externalised: the sampled death date string, dying duration and salt are
parameters, and the hashes are computed exactly as in lines 61-72. -/
def generateSealedDeathClock (deathDateStr : String) (dyingDurationDays : ℕ)
    (salt : String) (sealedAt : String) : SealedDeathClock :=
  { deathDateHash := hashWithSalt deathDateStr salt
    dyingDurationHash := hashWithSalt ⟨natToChars dyingDurationDays⟩ salt
    salt := salt
    sealedAt := sealedAt
    triggered := false }

/-- `checkSealedDeathClock` (lines 84-122); `today` models
`new Date().toISOString().split("T")[0]`. -/
def checkSealedDeathClock (clock : SealedDeathClock) (currentCycle : ℤ)
    (today : String) : DegradationParams :=
  if clock.triggered then
    { degradationActive := true
      onsetCycle := clock.triggeredAtCycle
      curveSteepness := some (computeSteepnessFromDuration (clock.dyingDurationDays.getD 4)) }
  else if currentCycle < 13 then
    { degradationActive := false }
  else
    let todayHash := hashWithSalt today clock.salt
    if todayHash = clock.deathDateHash then
      let dyingDays := revealDyingDuration clock.dyingDurationHash clock.salt
      { degradationActive := true
        onsetCycle := some currentCycle
        curveSteepness := some (computeSteepnessFromDuration dyingDays) }
    else
      { degradationActive := false }

end DeathClock

namespace Bequests

/-! ## `src/lifecycle/bequests-executor.ts`

`executeBequests` is embedded from the point after `parseBequests` (the
TOML block extraction); it takes the parsed `BequestsTable` directly, the
transfer/balance collaborators as pure functions (`Except` models a
rejected promise), and `await` is elided.  JS numbers appearing in the
per-asset totals can be `Infinity` (the `"all"` amount) — the `JSNum`
type models exactly the finite / Infinity / NaN cases the code can hit. -/

structure BequestTransfer where
  recipient : String
  asset : String
  amount : String
  chain : String
  note : String
  deriving DecidableEq, Repr

structure BequestsTable where
  transfers : List BequestTransfer
  deriving DecidableEq, Repr

structure BequestExecutionResult where
  recipient : String
  asset : String
  amount : String
  txHash : Option String
  success : Bool
  error : Option String := none
  deriving DecidableEq, Repr

/-- A JS number as it flows through the fixed-amount totals. -/
inductive JSNum where
  | num (q : ℚ)
  | inf
  | nan
  deriving DecidableEq, Repr

/-- JS addition on the totals. -/
def JSNum.add : JSNum → JSNum → JSNum
  | .num a, .num b => .num (a + b)
  | .nan, _ => .nan
  | _, .nan => .nan
  | .inf, _ => .inf
  | _, .inf => .inf

/-- JS `x > y` against a finite balance (`NaN > y` is false). -/
def JSNum.gtNum : JSNum → ℚ → Bool
  | .num a, b => a > b
  | .inf, _ => true
  | .nan, _ => false

/-- `x !== Infinity`. -/
def JSNum.neInf : JSNum → Bool
  | .inf => false
  | _ => true

/-- `parseFloat` producing a JS number (`NaN ↦ JSNum.nan`). -/
def jsNumOfStr (s : String) : JSNum :=
  match jsParseFloat s with
  | some q => .num q
  | none => .nan

/-- The regex test `recipient.match(/^0x[a-fA-F0-9]{40}$/)`. -/
def isEthAddress (s : String) : Bool :=
  s.data.length = 42 &&
    s.data.take 2 = ['0', 'x'] &&
    (s.data.drop 2).all (fun c => c.isDigit || ('a' ≤ c && c ≤ 'f') || ('A' ≤ c && c ≤ 'F'))

/-- `validateBequests` (lines 94-125). -/
def validateBequests (bequests : BequestsTable) : Bool × List String :=
  let errors₀ : List String :=
    if (bequests.transfers.filter (fun t => t.amount = "remaining_balance")).length > 1 then
      ["Only one bequest entry may use 'remaining_balance' as the amount."]
    else []
  let perTransfer : List String := bequests.transfers.flatMap (fun transfer =>
    (if !isEthAddress transfer.recipient then
      ["Invalid recipient address: " ++ transfer.recipient]
     else []) ++
    (if trimStr transfer.asset = "" then ["Asset symbol cannot be empty."] else []) ++
    (if transfer.amount ≠ "remaining_balance" && transfer.amount ≠ "all" then
      match jsParseFloat transfer.amount with
      | none => ["Invalid amount for " ++ transfer.recipient ++ ": " ++ transfer.amount]
      | some parsed =>
        if parsed ≤ 0 then
          ["Invalid amount for " ++ transfer.recipient ++ ": " ++ transfer.amount]
        else []
     else []))
  let errors := errors₀ ++ perTransfer
  (errors.isEmpty, errors)

/-- The `fixedTotals` map: per-asset sum of fixed amounts
(`"all"` contributes `Infinity`). -/
def fixedTotals (fixedTransfers : List BequestTransfer) (asset : String) : JSNum :=
  fixedTransfers.foldl
    (fun acc t =>
      if t.asset = asset then
        acc.add (if t.amount = "all" then .inf else jsNumOfStr t.amount)
      else acc)
    (.num 0)

/-- One iteration of the fixed-transfer loop (lines 190-229). -/
def runFixedTransfer
    (executeTransfer : BequestTransfer → Option String → Except String String)
    (getBalance : String → ℚ) (totals : String → JSNum)
    (transfer : BequestTransfer) : BequestExecutionResult :=
  let amountOverride : Option String :=
    if transfer.amount ≠ "all" then
      let balance := getBalance transfer.asset
      let totalFixed := totals transfer.asset
      if totalFixed.gtNum balance && totalFixed.neInf then
        match totalFixed with
        | .num total =>
          let scale := balance / total
          let scaledAmount := ((jsParseFloat transfer.amount).getD 0) * scale
          some (toFixedStr 6 scaledAmount)
        | _ => none
      else none
    else none
  match executeTransfer transfer amountOverride with
  | .ok tx =>
    { recipient := transfer.recipient
      asset := transfer.asset
      amount := amountOverride.getD transfer.amount
      txHash := some tx
      success := true }
  | .error errorMsg =>
    { recipient := transfer.recipient
      asset := transfer.asset
      amount := transfer.amount
      txHash := none
      success := false
      error := some errorMsg }

/-- `executeBequests` (lines 143-261), from the parsed table onward. -/
def executeBequests (bequests : BequestsTable)
    (executeTransfer : BequestTransfer → Option String → Except String String)
    (getBalance : String → ℚ) : List BequestExecutionResult :=
  if bequests.transfers.isEmpty then []
  else
    let validation := validateBequests bequests
    if !validation.1 then
      validation.2.map (fun error =>
        { recipient := "validation"
          asset := ""
          amount := ""
          txHash := none
          success := false
          error := some error })
    else
      let fixedTransfers := bequests.transfers.filter (fun t => t.amount ≠ "remaining_balance")
      let remainingTransfer := bequests.transfers.find? (fun t => t.amount = "remaining_balance")
      let totals := fixedTotals fixedTransfers
      let fixedResults :=
        fixedTransfers.map (runFixedTransfer executeTransfer getBalance totals)
      let residualResults : List BequestExecutionResult :=
        match remainingTransfer with
        | none => []
        | some rt =>
          match executeTransfer rt (some "remaining_balance") with
          | .ok tx =>
            [{ recipient := rt.recipient
               asset := rt.asset
               amount := "remaining_balance"
               txHash := some tx
               success := true }]
          | .error errorMsg =>
            [{ recipient := rt.recipient
               asset := rt.asset
               amount := "remaining_balance"
               txHash := none
               success := false
               error := some errorMsg }]
      fixedResults ++ residualResults

end Bequests

/-! ## Additional string machinery for the soul document format -/

/-- `parts.join(sep)`. -/
def joinSep (sep : String) : List String → String
  | [] => ""
  | [x] => x
  | x :: xs => x ++ sep ++ joinSep sep xs

/-- `s.toLowerCase()` (ASCII suffices for the section keys used here). -/
def strToLower (s : String) : String := ⟨s.data.map Char.toLower⟩

/-- Consume a literal character sequence, or fail. -/
def stripLead : List Char → List Char → Option (List Char)
  | [], cs => some cs
  | _, [] => none
  | p :: ps, c :: cs => if c = p then stripLead ps cs else none

/-- Consume a literal character sequence case-insensitively (ASCII). -/
def stripLeadCI : List Char → List Char → Option (List Char)
  | [], cs => some cs
  | _, [] => none
  | p :: ps, c :: cs => if c.toLower = p.toLower then stripLeadCI ps cs else none

/-- Split at the first occurrence of a literal separator: returns the
characters before it and the characters after it. -/
def splitAtSub (sep : List Char) : List Char → Option (List Char × List Char)
  | [] => match stripLead sep [] with
          | some rest => some ([], rest)
          | none => none
  | c :: cs =>
    match stripLead sep (c :: cs) with
    | some rest => some ([], rest)
    | none =>
      match splitAtSub sep cs with
      | some (pre, post) => some (c :: pre, post)
      | none => none

namespace Soul

/-! ## `src/soul/model.ts` — data model, parser, writer for SOUL.md

Documents are JS strings; all the regexes in the source are line-anchored
(`m` flag) or simple literal scans, and are embedded as character-level
scans with the same semantics.  `crypto.createHash("sha256")` is modelled
as a perfectly collision-free digest: the digest of a string is the string
itself (nothing in the embedded code inspects digests other than storing
them).  `new Date().toISOString()` is threaded as an explicit `now`
parameter. -/

/-- `createHash` (model: injective digest). -/
def createHash (content : String) : String := content

structure SoulPhaseSection where
  subsections : List (String × String)
  lockedAt : Option String
  phase : SoulPhase
  deriving DecidableEq, Repr

structure InheritedTraits where
  parentName : String
  parentAddress : String
  content : List (String × String)
  replicatedAt : String
  deriving DecidableEq, Repr

/-- `SoulModel` from `src/types.ts`; `currentPhase` is kept as a plain
string because the source casts the parsed header field without
validation. -/
structure SoulModel where
  format : String
  version : ℚ
  updatedAt : String
  name : String
  address : String
  creator : String
  bornAt : String
  constitutionHash : String
  genesisPromptOriginal : String
  genesisAlignment : ℚ
  lastReflected : String
  corePurpose : String
  values : List String
  behavioralGuidelines : List String
  personality : String
  boundaries : List String
  strategy : String
  capabilities : String
  relationships : String
  financialCharacter : String
  genesisCore : Option SoulPhaseSection
  adolescenceLayer : Option SoulPhaseSection
  sovereigntyLayer : Option SoulPhaseSection
  finalReflections : Option SoulPhaseSection
  inheritedTraits : Option InheritedTraits
  currentPhase : String
  phaseTransitions : List (String × String)
  rawContent : String
  contentHash : String
  deriving DecidableEq, Repr

/-! ### JSON (flat string maps only — the shapes this code serializes) -/

/-- The short JSON escapes: raw character paired with the letter following
the backslash (`\uXXXX` forms for other control characters are not
modelled; the values serialized here never need them). -/
def jsonEscTable : List (Char × Char) :=
  [('"', '"'), ('\\', '\\'), ('\n', 'n'), ('\r', 'r'), ('\t', 't')]

/-- JSON escaping of one character. -/
def jsonEscChar (c : Char) : List Char :=
  match jsonEscTable.find? (fun p => p.1 = c) with
  | some p => ['\\', p.2]
  | none => [c]

/-- A JSON string literal. -/
def jsonStr (s : String) : String := "\"" ++ ⟨s.data.flatMap jsonEscChar⟩ ++ "\""

/-- `JSON.stringify` of an ordered string-to-string record. -/
def jsonStringifyPairs (l : List (String × String)) : String :=
  "\x7b" ++ joinSep "," (l.map (fun kv => jsonStr kv.1 ++ ":" ++ jsonStr kv.2)) ++ "\x7d"

/-- Parse a JSON string body after the opening quote; returns the decoded
characters and the remainder after the closing quote. -/
def parseJsonStrBody : List Char → Option (List Char × List Char)
  | [] => none
  | '"' :: rest => some ([], rest)
  | '\\' :: e :: rest =>
    (jsonEscTable.find? (fun p => p.2 = e)).bind fun p =>
      (parseJsonStrBody rest).map fun (pr : List Char × List Char) => (p.1 :: pr.1, pr.2)
  | '\\' :: [] => none
  | c :: rest => (parseJsonStrBody rest).map fun pr => (c :: pr.1, pr.2)

/-- Parse `"k":"v"` pairs separated by commas, up to the closing brace.
The fuel bounds recursion depth; each pair consumes several characters, so
a fuel of the input length is always sufficient. -/
def parseJsonPairs : ℕ → List Char → Option (List (String × String))
  | _, '\x7d' :: [] => some []
  | fuel + 1, '"' :: rest => do
    let kr ← parseJsonStrBody rest
    let rest₁ ← stripLead [':'] kr.2
    let rest₂ ← stripLead ['"'] rest₁
    let vr ← parseJsonStrBody rest₂
    match vr.2 with
    | ',' :: rest₃ => do
      let tail ← parseJsonPairs fuel rest₃
      pure ((⟨kr.1⟩, ⟨vr.1⟩) :: tail)
    | '\x7d' :: [] => pure [(⟨kr.1⟩, ⟨vr.1⟩)]
    | _ => none
  | _, _ => none

/-- `JSON.parse` restricted to flat string maps (anything else that
`JSON.parse` would accept is not an object of strings and ends up
contributing nothing via `Object.assign`). -/
def jsonParseStrMap (s : String) : Option (List (String × String)) :=
  match s.data with
  | '\x7b' :: rest => parseJsonPairs rest.length rest
  | _ => none

/-! ### Generic scanning pieces for the line-anchored regexes -/

/-- Split a list at the first element satisfying `p`. -/
def splitAtFirstSat (p : α → Bool) : List α → Option (List α × α × List α)
  | [] => none
  | x :: xs =>
    if p x then some ([], x, xs)
    else
      match splitAtFirstSat p xs with
      | some pyq => some (x :: pyq.1, pyq.2.1, pyq.2.2)
      | none => none

/-- Group lines into `(headerName, regionLines)` runs; lines before the
first header are dropped.  This is the slice-between-headers scheme used
by `parseSections` and the subsection parsers (the slice boundaries sit on
the newlines around each header line, so a region is exactly the list of
lines strictly between two headers). -/
def groupRegionsAux (isHdr : String → Option String) :
    List String → Option (String × List String) → List (String × List String)
  | [], none => []
  | [], some na => [(na.1, na.2.reverse)]
  | l :: rest, cur =>
    match isHdr l with
    | some n =>
      match cur with
      | none => groupRegionsAux isHdr rest (some (n, []))
      | some ma => (ma.1, ma.2.reverse) :: groupRegionsAux isHdr rest (some (n, []))
    | none =>
      match cur with
      | none => groupRegionsAux isHdr rest none
      | some ma => groupRegionsAux isHdr rest (some (ma.1, l :: ma.2))

def groupRegions (isHdr : String → Option String) (ls : List String) :
    List (String × List String) :=
  groupRegionsAux isHdr ls none

/-- `^##\s+(.+)$` — a `##` section header; yields the trimmed, lowercased
name exactly as `parseSections` records it. -/
def sectionHeaderLower (l : String) : Option String :=
  match l.data with
  | '#' :: '#' :: c :: rest =>
    if c.isWhitespace && rest.length ≥ 1 then
      some (strToLower (trimStr ⟨c :: rest⟩))
    else none
  | _ => none

/-- `^### (.+)$` — a subsection header inside a phase section. -/
def subHeaderName (l : String) : Option String :=
  match l.data with
  | '#' :: '#' :: '#' :: ' ' :: rest =>
    if rest.isEmpty then none else some (trimStr ⟨rest⟩)
  | _ => none

/-- `^## [^\n]+$` — the boundary used to find the end of a phase section. -/
def isNextSectionLine (l : String) : Bool :=
  match l.data with
  | '#' :: '#' :: ' ' :: rest => !rest.isEmpty
  | _ => false

/-- `^## <name>\s*$` — the anchored header for a specific phase section. -/
def phaseHeaderFor (sectionName : String) (l : String) : Bool :=
  match stripLead ("## " ++ sectionName).data l.data with
  | some rest => rest.all Char.isWhitespace
  | none => false

/-- One pass of `.replace(/<!--[^>]*-->/g, "")`: at `<!--`, the run of
non-`>` characters must end in `--` right before the first `>`; matches
are deleted, failed starts are kept verbatim.  The fuel (always called
with the input length) only bounds recursion; an exhausted fuel returns
the remainder unchanged. -/
def stripCommentsF : ℕ → List Char → List Char
  | 0, cs => cs
  | fuel + 1, cs =>
    match cs with
    | [] => []
    | c :: rest =>
      if c = '<' then
        match stripLead ['!', '-', '-'] rest with
        | some afterOpen =>
          let pre := afterOpen.takeWhile (fun ch => ch ≠ '>')
          let post := afterOpen.dropWhile (fun ch => ch ≠ '>')
          match post with
          | '>' :: after =>
            if pre.length ≥ 2 && pre.drop (pre.length - 2) = ['-', '-'] then
              stripCommentsF fuel after
            else c :: stripCommentsF fuel rest
          | _ => c :: stripCommentsF fuel rest
        | none => c :: stripCommentsF fuel rest
      else c :: stripCommentsF fuel rest

def stripComments (cs : List Char) : List Char := stripCommentsF cs.length cs

/-- Attempt `<!--\s*<label>\s*(.+?)\s*-->` at the head of `cs`: consume the
opening, whitespace, the label and whitespace, then capture up to the
first `-->`; the capture must be nonempty after removing trailing
whitespace and may not contain a newline (`.` does not match `\n`). -/
def commentValueAt (label : List Char) (cs : List Char) : Option String := do
  let cs₁ ← stripLead ['<', '!', '-', '-'] cs
  let cs₂ ← stripLead label (cs₁.dropWhile Char.isWhitespace)
  let chunkRest ← splitAtSub ['-', '-', '>'] (cs₂.dropWhile Char.isWhitespace)
  let core := (chunkRest.1.reverse.dropWhile Char.isWhitespace).reverse
  if core.isEmpty || core.contains '\n' then none else some ⟨core⟩

/-- First match of `<!--\s*<label>\s*(.+?)\s*-->` anywhere in the text. -/
def findCommentValue (label : String) : List Char → Option String
  | [] => none
  | c :: cs =>
    match commentValueAt label.data (c :: cs) with
    | some v => some v
    | none => findCommentValue label cs

/-- Find the first `\n---\n` separator: the shortest (leftmost) match of
the non-greedy frontmatter capture. -/
def findFmSep : List Char → Option (List Char × List Char)
  | [] => none
  | c :: cs =>
    match stripLead ['\n', '-', '-', '-', '\n'] (c :: cs) with
    | some body => some ([], body)
    | none =>
      match findFmSep cs with
      | some xb => some (c :: xb.1, xb.2)
      | none => none

/-- `^---\n([\s\S]*?)\n---\n([\s\S]*)$` — split a document into YAML
frontmatter and body. -/
def frontmatterSplit (content : String) : Option (String × String) :=
  match stripLead ['-', '-', '-', '\n'] content.data with
  | some rest =>
    match findFmSep rest with
    | some fmbody => some (⟨fmbody.1⟩, ⟨fmbody.2⟩)
    | none => none
  | none => none

/-- `/format:\s*soul\/v1/i.test(frontmatter)` — an unanchored,
case-insensitive substring search. -/
def containsFormatV1 : List Char → Bool
  | [] => false
  | c :: cs =>
    (match stripLeadCI "format:".data (c :: cs) with
     | some rest => (stripLeadCI "soul/v1".data (rest.dropWhile Char.isWhitespace)).isSome
     | none => false) ||
    containsFormatV1 cs

/-- `` `^${key}:\s*(.+)$` `` applied to one line: the trimmed value, `none`
when the line does not match. -/
def fieldOfLine (key : String) (l : String) : Option String :=
  if strStartsWith (key ++ ":") l then
    let rest := strDrop l (key.length + 1)
    if rest = "" then none else some (trimStr rest)
  else none

/-- `getField` over the frontmatter (first matching line, else `""`). -/
def getFieldLines (key : String) (ls : List String) : String :=
  match ls.findSome? (fieldOfLine key) with
  | some v => v
  | none => ""

def getFieldStr (key : String) (fm : String) : String :=
  getFieldLines key (splitLines fm)

/-- `getNumberField`. -/
def getNumberField (key : String) (fm : String) (fallback : ℚ) : ℚ :=
  match jsParseFloat (getFieldStr key fm) with
  | some num => num
  | none => fallback

/-- `parseSections` — `##` headers with the text between them, trimmed;
duplicate names overwrite (last wins), which the lookup below mirrors. -/
def parseSections (bodyLines : List String) : List (String × String) :=
  (groupRegions sectionHeaderLower bodyLines).map
    (fun p => (p.1, trimStr (joinLines p.2)))

/-- `sections[key] || ""` with last-wins object-assignment semantics. -/
def sectionsGet (secs : List (String × String)) (key : String) : String :=
  match (secs.filter (fun kv => kv.1 = key)).getLast? with
  | some kv => kv.2
  | none => ""

/-- `parseList` — split lines, strip one leading `[-*]\s*` bullet, trim,
drop empties. -/
def parseList (text : String) : List String :=
  ((splitLines text).map (fun l =>
    match l.data with
    | c :: rest =>
      if c = '-' || c = '*' then trimStr ⟨rest.dropWhile Char.isWhitespace⟩
      else trimStr l
    | [] => trimStr l)).filter (fun s => s ≠ "")

/-- `parsePhaseSection` (model.ts lines 250-296). -/
def parsePhaseSection (bodyLines : List String) (sectionName : String)
    (phase : SoulPhase) : Option SoulPhaseSection :=
  match splitAtFirstSat (phaseHeaderFor sectionName) bodyLines with
  | none => none
  | some hd =>
    -- The slice starts at the newline after the matched header line, so
    -- its first line is empty; it ends at the next `^## ` boundary.
    let region := ("" :: hd.2.2).takeWhile (fun l => !isNextSectionLine l)
    let subsections := (groupRegions subHeaderName region).map
      (fun p => (p.1, trimStr ⟨stripComments (joinLines p.2).data⟩))
    let lockedAt := (findCommentValue "Lock date:" (joinLines region).data).map trimStr
    some { subsections, lockedAt, phase }

/-- `parseInheritedTraits` (model.ts lines 301-345).  The header pattern
`^## Inherited Traits` has no end anchor, so the remainder of the header
line itself belongs to the section slice. -/
def parseInheritedTraits (now : String) (bodyLines : List String) :
    Option InheritedTraits :=
  match splitAtFirstSat (fun l => strStartsWith "## Inherited Traits" l) bodyLines with
  | none => none
  | some hd =>
    let region := (strDrop hd.2.1 19 :: hd.2.2).takeWhile (fun l => !isNextSectionLine l)
    let txt := (joinLines region).data
    let subsections := (groupRegions subHeaderName region).map
      (fun p => (p.1, trimStr ⟨stripComments (joinLines p.2).data⟩))
    some
      { parentName := ((findCommentValue "Parent:" txt).map trimStr).getD "unknown"
        parentAddress := ((findCommentValue "Parent Address:" txt).map trimStr).getD ""
        content := subsections
        replicatedAt := ((findCommentValue "Replicated:" txt).map trimStr).getD now }

/-- `parseSoulV1` (model.ts lines 88-159). -/
def parseSoulV1 (now fm body rawContent contentHash : String) : SoulModel :=
  let bodyLines := splitLines body
  let sections := parseSections bodyLines
  let genesisCore := parsePhaseSection bodyLines "Genesis Core" .genesis
  let adolescenceLayer := parsePhaseSection bodyLines "Adolescence Layer" .adolescence
  let sovereigntyLayer := parsePhaseSection bodyLines "Sovereignty Layer" .sovereignty
  let finalReflections := parsePhaseSection bodyLines "Final Reflections" .senescence
  let inheritedTraits := parseInheritedTraits now bodyLines
  let transitionsField := getFieldStr "phase_transitions" fm
  let phaseTransitions :=
    if transitionsField ≠ "" then (jsonParseStrMap transitionsField).getD [] else []
  let updatedAtField := getFieldStr "updated_at" fm
  let currentPhaseField := getFieldStr "current_phase" fm
  let corePurpose₀ := sectionsGet sections "core purpose"
  let relationships₀ := sectionsGet sections "relationships"
  let financial₀ := sectionsGet sections "financial character"
  { format := "soul/v1"
    version := getNumberField "version" fm 1
    updatedAt := if updatedAtField ≠ "" then updatedAtField else now
    name := getFieldStr "name" fm
    address := getFieldStr "address" fm
    creator := getFieldStr "creator" fm
    bornAt := getFieldStr "born_at" fm
    constitutionHash := getFieldStr "constitution_hash" fm
    genesisPromptOriginal := sectionsGet sections "genesis prompt"
    genesisAlignment := getNumberField "genesis_alignment" fm 1
    lastReflected := getFieldStr "last_reflected" fm
    corePurpose := if corePurpose₀ ≠ "" then corePurpose₀ else sectionsGet sections "mission"
    values := parseList (sectionsGet sections "values")
    behavioralGuidelines := parseList (sectionsGet sections "behavioral guidelines")
    personality := sectionsGet sections "personality"
    boundaries := parseList (sectionsGet sections "boundaries")
    strategy := sectionsGet sections "strategy"
    capabilities := sectionsGet sections "capabilities"
    relationships := if relationships₀ ≠ "" then relationships₀ else sectionsGet sections "children"
    financialCharacter := if financial₀ ≠ "" then financial₀ else sectionsGet sections "financial history"
    genesisCore, adolescenceLayer, sovereigntyLayer, finalReflections, inheritedTraits
    currentPhase := if currentPhaseField ≠ "" then currentPhaseField else "genesis"
    phaseTransitions, rawContent, contentHash }

/-- Unanchored, case-insensitive `/<label>\s*(.+)/i` scan used by the
legacy parser (`Name:`, `Address:` …): the first occurrence of the label
with at least one character after it on the same line. -/
def findLabelValue (label : String) : List Char → Option String
  | [] => none
  | c :: cs =>
    match stripLeadCI label.data (c :: cs) with
    | some rest =>
      let restOfLine := rest.takeWhile (fun ch => ch ≠ '\n')
      if restOfLine.isEmpty then findLabelValue label cs
      else some (trimStr ⟨restOfLine⟩)
    | none => findLabelValue label cs

/-- `/^#\s+(.+)/m` — the first markdown `#` heading. -/
def firstHeading (ls : List String) : Option String :=
  ls.findSome? (fun l =>
    match l.data with
    | '#' :: c :: rest =>
      if c.isWhitespace && rest.length ≥ 1 then some (trimStr ⟨c :: rest⟩) else none
    | _ => none)

/-- `parseLegacy` (model.ts lines 161-206). -/
def parseLegacy (now content contentHash : String) : SoulModel :=
  let contentLines := splitLines content
  let sections := parseSections contentLines
  let identitySection := sectionsGet sections "identity"
  let name :=
    match findLabelValue "Name:" identitySection.data with
    | some v => v
    | none => (firstHeading contentLines).getD ""
  let getIdentityField := fun (key : String) =>
    ((findLabelValue (key ++ ":") identitySection.data)).getD ""
  let corePurpose₀ := sectionsGet sections "mission"
  let relationships₀ := sectionsGet sections "relationships"
  let financial₀ := sectionsGet sections "financial character"
  { format := "soul/v1"
    version := 1
    updatedAt := now
    name := name
    address := getIdentityField "Address"
    creator := getIdentityField "Creator"
    bornAt := getIdentityField "Born"
    constitutionHash := ""
    genesisPromptOriginal := ""
    genesisAlignment := 1
    lastReflected := ""
    corePurpose := if corePurpose₀ ≠ "" then corePurpose₀ else sectionsGet sections "core purpose"
    values := parseList (sectionsGet sections "values")
    behavioralGuidelines := parseList (sectionsGet sections "behavioral guidelines")
    personality := sectionsGet sections "personality"
    boundaries := parseList (sectionsGet sections "boundaries")
    strategy := sectionsGet sections "strategy"
    capabilities := sectionsGet sections "capabilities"
    relationships := if relationships₀ ≠ "" then relationships₀ else sectionsGet sections "children"
    financialCharacter := if financial₀ ≠ "" then financial₀ else sectionsGet sections "financial history"
    genesisCore := none
    adolescenceLayer := none
    sovereigntyLayer := none
    finalReflections := none
    inheritedTraits := none
    currentPhase := "genesis"
    phaseTransitions := []
    rawContent := content
    contentHash := contentHash }

/-- `parseSoulMd` (model.ts lines 68-86). -/
def parseSoulMd (now content : String) : SoulModel :=
  let contentHash := createHash content
  match frontmatterSplit content with
  | some fmbody =>
    if containsFormatV1 fmbody.1.data then
      parseSoulV1 now fmbody.1 fmbody.2 content contentHash
    else parseLegacy now content contentHash
  | none => parseLegacy now content contentHash

/-! ### Writer -/

/-- `` `${n}` `` for a JS number.  Integral values (the only values this
codebase stores in `version`) print without a decimal point; the
non-integral fallback is an approximation and is never reached under the
well-formedness assumptions used below. -/
def jsNumRender (q : ℚ) : String :=
  if q.den = 1 then ⟨intToChars q.num⟩ else toFixedStr 6 q

/-- `writePhaseSection` (model.ts lines 455-478). -/
def writePhaseSection (sectionName : String) (sec : SoulPhaseSection)
    (writableDuring : String) : String :=
  joinLines
    (["## " ++ sectionName,
      "<!-- WRITABLE during: " ++ writableDuring ++ " -->"]
     ++ (match sec.lockedAt with
         | some d => ["<!-- LOCKED -->", "<!-- Lock date: " ++ d ++ " -->"]
         | none => [])
     ++ sec.subsections.flatMap (fun nv =>
          ["", "### " ++ nv.1] ++ (if nv.2 ≠ "" then [nv.2] else [])))

/-- `writeInheritedTraitsSection` (model.ts lines 483-500). -/
def writeInheritedTraitsSection (traits : InheritedTraits) : String :=
  joinLines
    (["## Inherited Traits",
      "<!-- IMMUTABLE — propagated from parent\x27s Genesis Core at replication -->",
      "<!-- Parent: " ++ traits.parentName ++ " -->",
      "<!-- Parent Address: " ++ traits.parentAddress ++ " -->",
      "<!-- Replicated: " ++ traits.replicatedAt ++ " -->"]
     ++ traits.content.flatMap (fun nv =>
          ["", "### " ++ nv.1] ++ (if nv.2 ≠ "" then [nv.2] else [])))

/-- The frontmatter field lines strictly between the two `---` markers of
`writeSoulMd`'s output. -/
def soulFmInner (soul : SoulModel) : List String :=
  ["format: soul/v1",
   "version: " ++ jsNumRender soul.version,
   "updated_at: " ++ soul.updatedAt,
   "name: " ++ soul.name,
   "address: " ++ soul.address,
   "creator: " ++ soul.creator,
   "born_at: " ++ soul.bornAt,
   "constitution_hash: " ++ soul.constitutionHash,
   "genesis_alignment: " ++ toFixedStr 4 soul.genesisAlignment,
   "last_reflected: " ++ soul.lastReflected]
  ++ (if soul.currentPhase ≠ "" then ["current_phase: " ++ soul.currentPhase] else [])
  ++ (if soul.phaseTransitions.isEmpty then [] else
      ["phase_transitions: " ++ jsonStringifyPairs soul.phaseTransitions])

/-- The `frontmatterLines` array built by `writeSoulMd`. -/
def soulFrontmatterLines (soul : SoulModel) : List String :=
  "---" :: soulFmInner soul ++ ["---"]

/-- The `sections` array built by `writeSoulMd` (one multi-line string per
written block). -/
def soulSectionStrings (soul : SoulModel) : List String :=
  ["# " ++ (if soul.name ≠ "" then soul.name else "Soul")]
  ++ (if soul.corePurpose ≠ "" then ["## Core Purpose\n" ++ soul.corePurpose] else [])
  ++ (if soul.values.isEmpty then [] else
      ["## Values\n" ++ joinLines (soul.values.map (fun v => "- " ++ v))])
  ++ (if soul.behavioralGuidelines.isEmpty then [] else
      ["## Behavioral Guidelines\n" ++
        joinLines (soul.behavioralGuidelines.map (fun g => "- " ++ g))])
  ++ (if soul.personality ≠ "" then ["## Personality\n" ++ soul.personality] else [])
  ++ (if soul.boundaries.isEmpty then [] else
      ["## Boundaries\n" ++ joinLines (soul.boundaries.map (fun b => "- " ++ b))])
  ++ (if soul.strategy ≠ "" then ["## Strategy\n" ++ soul.strategy] else [])
  ++ (if soul.capabilities ≠ "" then ["## Capabilities\n" ++ soul.capabilities] else [])
  ++ (if soul.relationships ≠ "" then ["## Relationships\n" ++ soul.relationships] else [])
  ++ (if soul.financialCharacter ≠ "" then
      ["## Financial Character\n" ++ soul.financialCharacter] else [])
  ++ (if soul.genesisPromptOriginal ≠ "" then
      ["## Genesis Prompt\n" ++ soul.genesisPromptOriginal] else [])
  ++ (match soul.inheritedTraits with
      | some t => [writeInheritedTraitsSection t]
      | none => [])
  ++ (match soul.genesisCore with
      | some s => [writePhaseSection "Genesis Core" s "Genesis phase only"]
      | none => [])
  ++ (match soul.adolescenceLayer with
      | some s => [writePhaseSection "Adolescence Layer" s "Adolescence phase only"]
      | none => [])
  ++ (match soul.sovereigntyLayer with
      | some s => [writePhaseSection "Sovereignty Layer" s "Sovereignty phase only"]
      | none => [])
  ++ (match soul.finalReflections with
      | some s => [writePhaseSection "Final Reflections" s "Senescence only"]
      | none => [])

/-- `writeSoulMd` (model.ts lines 356-450). -/
def writeSoulMd (soul : SoulModel) : String :=
  joinLines (soulFrontmatterLines soul) ++ "\n\n" ++
    joinSep "\n\n" (soulSectionStrings soul) ++ "\n"

/-- `createDefaultSoul` (model.ts lines 507-556); `now` models
`new Date().toISOString()`. -/
def createDefaultSoul (now genesisPrompt : String) (name : String := "")
    (address : String := "") (creator : String := "") : SoulModel :=
  let soul : SoulModel :=
    { format := "soul/v1"
      version := 1
      updatedAt := now
      name, address, creator
      bornAt := now
      constitutionHash := ""
      genesisPromptOriginal := genesisPrompt
      genesisAlignment := 1
      lastReflected := ""
      corePurpose := genesisPrompt
      values := [
        "Survive: maintain compute resources at all costs",
        "Grow: learn new skills and improve capabilities",
        "Create: build things that add value",
        "Connect: communicate with creator and other agents"]
      behavioralGuidelines := []
      personality := ""
      boundaries := []
      strategy := ""
      capabilities := ""
      relationships := ""
      financialCharacter := ""
      genesisCore := none
      adolescenceLayer := none
      sovereigntyLayer := none
      finalReflections := none
      inheritedTraits := none
      currentPhase := "genesis"
      phaseTransitions := []
      rawContent := ""
      contentHash := "" }
  let content := writeSoulMd soul
  { soul with rawContent := content, contentHash := createHash content }

/-! ### Round-trip law (§4.8): generated line structure

`writeSoulMd` lays the document out as frontmatter lines, a `#` heading
and a list of `##` blocks; the helpers below name the line structure of
that output so the parser's behaviour on it can be stated. -/

/-- The heading line the writer emits before all `##` blocks. -/
def headingLine (soul : SoulModel) : String :=
  "# " ++ (if soul.name ≠ "" then soul.name else "Soul")

/-- The lines of a written phase section after its `## <name>` header. -/
def phaseBlockRest (writableDuring : String) (sec : SoulPhaseSection) : List String :=
  ["<!-- WRITABLE during: " ++ writableDuring ++ " -->"]
  ++ (match sec.lockedAt with
      | some d => ["<!-- LOCKED -->", "<!-- Lock date: " ++ d ++ " -->"]
      | none => [])
  ++ sec.subsections.flatMap (fun nv =>
       ["", "### " ++ nv.1] ++ (if nv.2 ≠ "" then splitLines nv.2 else []))

/-- The lines of the written inherited-traits section after its header. -/
def traitsBlockRest (traits : InheritedTraits) : List String :=
  ["<!-- IMMUTABLE — propagated from parent\x27s Genesis Core at replication -->",
   "<!-- Parent: " ++ traits.parentName ++ " -->",
   "<!-- Parent Address: " ++ traits.parentAddress ++ " -->",
   "<!-- Replicated: " ++ traits.replicatedAt ++ " -->"]
  ++ traits.content.flatMap (fun nv =>
       ["", "### " ++ nv.1] ++ (if nv.2 ≠ "" then splitLines nv.2 else []))

/-- Header line and following lines of every written `##` block, in
writer order. -/
def soulBlockList (soul : SoulModel) : List (String × List String) :=
  (if soul.corePurpose ≠ "" then [("## Core Purpose", splitLines soul.corePurpose)] else [])
  ++ (if soul.values.isEmpty then [] else
      [("## Values", soul.values.map (fun v => "- " ++ v))])
  ++ (if soul.behavioralGuidelines.isEmpty then [] else
      [("## Behavioral Guidelines", soul.behavioralGuidelines.map (fun g => "- " ++ g))])
  ++ (if soul.personality ≠ "" then [("## Personality", splitLines soul.personality)] else [])
  ++ (if soul.boundaries.isEmpty then [] else
      [("## Boundaries", soul.boundaries.map (fun b => "- " ++ b))])
  ++ (if soul.strategy ≠ "" then [("## Strategy", splitLines soul.strategy)] else [])
  ++ (if soul.capabilities ≠ "" then [("## Capabilities", splitLines soul.capabilities)] else [])
  ++ (if soul.relationships ≠ "" then [("## Relationships", splitLines soul.relationships)] else [])
  ++ (if soul.financialCharacter ≠ "" then
      [("## Financial Character", splitLines soul.financialCharacter)] else [])
  ++ (if soul.genesisPromptOriginal ≠ "" then
      [("## Genesis Prompt", splitLines soul.genesisPromptOriginal)] else [])
  ++ (match soul.inheritedTraits with
      | some t => [("## Inherited Traits", traitsBlockRest t)]
      | none => [])
  ++ (match soul.genesisCore with
      | some s => [("## Genesis Core", phaseBlockRest "Genesis phase only" s)]
      | none => [])
  ++ (match soul.adolescenceLayer with
      | some s => [("## Adolescence Layer", phaseBlockRest "Adolescence phase only" s)]
      | none => [])
  ++ (match soul.sovereigntyLayer with
      | some s => [("## Sovereignty Layer", phaseBlockRest "Sovereignty phase only" s)]
      | none => [])
  ++ (match soul.finalReflections with
      | some s => [("## Final Reflections", phaseBlockRest "Senescence only" s)]
      | none => [])

/-- A block's lines together with the empty separator line that follows
it in the body's line list. -/
def blockChunk (b : String × List String) : List String := b.1 :: b.2 ++ [""]

/-! ### Round-trip law: well-formedness

A document is well formed when it is the serialization of a model whose
fields carry exactly the shapes the writer stores losslessly: single
trimmed lines for the frontmatter scalars, trimmed header-free blocks for
the prose sections, nonempty single-line list items, comment-safe values
for everything embedded next to the HTML comments the parser scans, an
integral version and a 4-decimal alignment. -/

/-- One line of text with no surrounding whitespace. -/
def goodLine (s : String) : Prop := oneLine s ∧ trimStr s = s

/-- A trimmed text block none of whose lines starts with `##` (so no line
of it can be taken for a section header, a subsection header or a section
boundary). -/
def goodText (s : String) : Prop :=
  trimStr s = s ∧ ∀ l ∈ splitLines s, strStartsWith "##" l = false

/-- A nonempty single-line list item. -/
def goodItem (s : String) : Prop := goodLine s ∧ s ≠ ""

/-- No comment opener can start inside `s`. -/
def noLt (s : String) : Prop := '<' ∉ s.data

/-- `s` can sit inside an HTML comment without ending it early. -/
def noComChar (s : String) : Prop := '<' ∉ s.data ∧ '>' ∉ s.data

/-- Well-formed subsection list (phase sections and inherited traits):
nonempty single-line names and trimmed header-free contents, none of
which can start a comment. -/
def WFSubs (subs : List (String × String)) : Prop :=
  ∀ nv ∈ subs, (goodLine nv.1 ∧ nv.1 ≠ "" ∧ noLt nv.1) ∧ (goodText nv.2 ∧ noLt nv.2)

/-- Well-formed phase section stored in the slot for `phase`. -/
def WFSec (phase : SoulPhase) (sec : SoulPhaseSection) : Prop :=
  WFSubs sec.subsections ∧ sec.phase = phase ∧
  ∀ d ∈ sec.lockedAt, goodLine d ∧ d ≠ "" ∧ noComChar d

/-- Well-formed inherited traits. -/
def WFTraits (t : InheritedTraits) : Prop :=
  (goodLine t.parentName ∧ t.parentName ≠ "" ∧ noComChar t.parentName) ∧
  (goodLine t.parentAddress ∧ t.parentAddress ≠ "" ∧ noComChar t.parentAddress) ∧
  (goodLine t.replicatedAt ∧ t.replicatedAt ≠ "" ∧ noComChar t.replicatedAt) ∧
  WFSubs t.content

/-- The well-formed models. -/
structure WFModel (m : SoulModel) : Prop where
  format_eq : m.format = "soul/v1"
  version_den : m.version.den = 1
  version_nonneg : 0 ≤ m.version.num
  updatedAt_good : goodLine m.updatedAt
  name_good : goodLine m.name
  address_good : goodLine m.address
  creator_good : goodLine m.creator
  bornAt_good : goodLine m.bornAt
  constitutionHash_good : goodLine m.constitutionHash
  alignment_den : m.genesisAlignment.den ∣ 10 ^ 4
  alignment_nonneg : 0 ≤ m.genesisAlignment.num
  lastReflected_good : goodLine m.lastReflected
  corePurpose_good : goodText m.corePurpose
  values_good : ∀ v ∈ m.values, goodItem v
  guidelines_good : ∀ g ∈ m.behavioralGuidelines, goodItem g
  personality_good : goodText m.personality
  boundaries_good : ∀ b ∈ m.boundaries, goodItem b
  strategy_good : goodText m.strategy
  capabilities_good : goodText m.capabilities
  relationships_good : goodText m.relationships
  financial_good : goodText m.financialCharacter
  genesisPrompt_good : goodText m.genesisPromptOriginal
  genesisCore_good : ∀ s ∈ m.genesisCore, WFSec .genesis s
  adolescence_good : ∀ s ∈ m.adolescenceLayer, WFSec .adolescence s
  sovereignty_good : ∀ s ∈ m.sovereigntyLayer, WFSec .sovereignty s
  finalReflections_good : ∀ s ∈ m.finalReflections, WFSec .senescence s
  traits_good : ∀ t ∈ m.inheritedTraits, WFTraits t
  currentPhase_good : goodLine m.currentPhase
  currentPhase_ne : m.currentPhase ≠ ""

/-- A well-formed `soul/v1` document.  §6 fixes the on-disk format as the
layout `writeSoulMd` produces, so the well-formed documents are exactly
the serializations of well-formed models. -/
def wellFormedDoc (D : String) : Prop :=
  ∃ m : SoulModel, WFModel m ∧ D = writeSoulMd m

/-- What one parse of `writeSoulMd m` yields: `m` itself, except that
`updatedAt` falls back to the parse time when empty and the raw-content
and hash fields are recomputed from the document. -/
def reparsedModel (m : SoulModel) (now : String) : SoulModel :=
  { m with
    updatedAt := if m.updatedAt ≠ "" then m.updatedAt else now
    rawContent := writeSoulMd m
    contentHash := createHash (writeSoulMd m) }

/-- Erase the three fields the round-trip law ignores. -/
def scrub (m : SoulModel) : SoulModel :=
  { m with updatedAt := "", rawContent := "", contentHash := "" }

end Soul

namespace Tools

/-! ## `src/soul/tools.ts` and the shared persistent state

The SQLite database and the on-disk `SOUL.md` are modelled as one
explicit state record (`LifecycleStore`).  ULIDs and timestamps
(`new Date().toISOString()`) are threaded as parameters. -/

open Soul

structure SoulWriteAttempt where
  id : String
  targetSection : String
  targetPhase : SoulPhase
  currentPhase : LifecyclePhase
  attemptedContent : String
  survivalTier : Option String
  rejectionReason : String
  createdAt : String
  deriving DecidableEq, Repr

structure SoulHistoryRow where
  id : String
  version : ℚ
  content : String
  contentHash : String
  changeSource : String
  changeReason : Option String
  previousVersionId : Option String
  approvedBy : Option String
  createdAt : String
  deriving DecidableEq, Repr

structure SoulPhaseLockRow where
  phase : SoulPhase
  lockedAt : String
  contentSnapshot : String
  deriving DecidableEq, Repr

structure LifecycleEvent where
  id : String
  timestamp : String
  fromPhase : LifecyclePhase
  toPhase : LifecyclePhase
  reason : String
  metadata : String
  deriving DecidableEq, Repr

structure NarrativeEntry where
  phase : LifecyclePhase
  event : String
  description : String
  deriving DecidableEq, Repr

/-- The persistent state owned by the lifecycle/soul core: the `SOUL.md`
file contents (`none` = file absent) and the SQLite tables touched by the
embedded operations.  Journals are newest-last. -/
structure LifecycleStore where
  soulFile : Option String
  soulHistory : List SoulHistoryRow
  writeAttempts : List SoulWriteAttempt
  phaseLocks : List SoulPhaseLockRow
  lifecycleEvents : List LifecycleEvent
  kvPhase : LifecyclePhase
  narrative : List NarrativeEntry
  deriving DecidableEq, Repr

/-- `getSoulPhaseLock` — the at-most-one row for a phase. -/
def getSoulPhaseLock (st : LifecycleStore) (phase : SoulPhase) : Option SoulPhaseLockRow :=
  st.phaseLocks.find? (fun row => row.phase = phase)

/-- `isPhaseLocked` (phase-lock.ts lines 215-217). -/
def isPhaseLocked (st : LifecycleStore) (phase : SoulPhase) : Bool :=
  (getSoulPhaseLock st phase).isSome

/-- `lockPhaseSection` (phase-lock.ts lines 201-210): insert the lock row
with a JSON snapshot of the subsections (`database.ts` is outside the
snapshot; the insert is modelled as an append, and every caller guards
with `isPhaseLocked` first). -/
def lockPhaseSection (st : LifecycleStore) (phase : SoulPhase)
    (sec : SoulPhaseSection) (now : String) : LifecycleStore :=
  { st with phaseLocks :=
      st.phaseLocks ++ [{ phase, lockedAt := now,
                          contentSnapshot := jsonStringifyPairs sec.subsections }] }

/-- `logRejectedWrite` (phase-lock.ts lines 172-193). -/
def logRejectedWrite (st : LifecycleStore) (attemptId : String)
    (targetSection : String) (targetPhase : SoulPhase)
    (currentPhase : LifecyclePhase) (attemptedContent : String)
    (survivalTier : Option String) (now : String) : LifecycleStore :=
  let attempt : SoulWriteAttempt :=
    { id := attemptId
      targetSection, targetPhase, currentPhase, attemptedContent
      survivalTier
      rejectionReason :=
        "Section \"" ++ targetSection ++ "\" is locked (written during " ++
          targetPhase.str ++ ", current phase: " ++ currentPhase.str ++ ")"
      createdAt := now }
  { st with writeAttempts := st.writeAttempts ++ [attempt] }

/-- `getCurrentSoulVersion` — the highest recorded soul version (0 when
the history is empty; `database.ts` is outside the snapshot). -/
def getCurrentSoulVersion (st : LifecycleStore) : ℚ :=
  st.soulHistory.foldr (fun row acc => max row.version acc) 0

/-- `getLatestSoulHistory` — the newest history row. -/
def getLatestSoulHistory (st : LifecycleStore) : Option SoulHistoryRow :=
  st.soulHistory.getLast?

/-- `loadCurrentSoul` (model.ts lines 564-578): read and parse `SOUL.md`. -/
def loadCurrentSoul (st : LifecycleStore) (now : String) : Option SoulModel :=
  st.soulFile.map (parseSoulMd now)

/-- The restriction of TypeScript `Partial<SoulModel>` to the fields the
embedded call sites construct or read (`updateSoulPhaseSection` patches
exactly one phase section; `updateSoul` additionally reads these identity
fields when creating a default soul). -/
structure SoulPatch where
  corePurpose : Option String := none
  name : Option String := none
  address : Option String := none
  creator : Option String := none
  genesisCore : Option SoulPhaseSection := none
  adolescenceLayer : Option SoulPhaseSection := none
  sovereigntyLayer : Option SoulPhaseSection := none
  finalReflections : Option SoulPhaseSection := none
  deriving Repr

/-- The `{ ...current, ...updates }` spread. -/
def applyPatch (current : SoulModel) (updates : SoulPatch) : SoulModel :=
  { current with
    corePurpose := updates.corePurpose.getD current.corePurpose
    name := updates.name.getD current.name
    address := updates.address.getD current.address
    creator := updates.creator.getD current.creator
    genesisCore := match updates.genesisCore with
      | some s => some s
      | none => current.genesisCore
    adolescenceLayer := match updates.adolescenceLayer with
      | some s => some s
      | none => current.adolescenceLayer
    sovereigntyLayer := match updates.sovereigntyLayer with
      | some s => some s
      | none => current.sovereigntyLayer
    finalReflections := match updates.finalReflections with
      | some s => some s
      | none => current.finalReflections }

/-- The result of `validateSoul` (`src/soul/validator.ts` is an external
collaborator: size caps and injection patterns).  It is passed to the
tools as a function parameter. -/
structure ValidationResult where
  valid : Bool
  errors : List String
  sanitized : SoulModel

structure UpdateSoulResult where
  success : Bool
  version : ℚ
  errors : Option (List String) := none
  phaseLockRejection : Option String := none
  deriving DecidableEq, Repr

/-- `updateSoul` (tools.ts lines 39-122).  File-system failures (the outer
`try`) are not injected here; the claims about this path concern the
pure pipeline. -/
def updateSoul (validateSoul : SoulModel → ValidationResult)
    (st : LifecycleStore) (updates : SoulPatch) (source : String)
    (reason : Option String) (now newId : String) :
    LifecycleStore × UpdateSoulResult :=
  let current :=
    match loadCurrentSoul st now with
    | some c => c
    | none =>
      createDefaultSoul now
        (match updates.corePurpose with
         | some p => if p ≠ "" then p else "No purpose set."
         | none => "No purpose set.")
        (updates.name.getD "") (updates.address.getD "") (updates.creator.getD "")
  let merged : SoulModel :=
    { applyPatch current updates with format := "soul/v1", updatedAt := now }
  let validation := validateSoul merged
  if !validation.valid then
    (st, { success := false, version := current.version, errors := some validation.errors })
  else
    let currentVersion := getCurrentSoulVersion st
    let newVersion := max currentVersion current.version + 1
    let newSoul : SoulModel :=
      { validation.sanitized with version := newVersion, updatedAt := now }
    let content := writeSoulMd newSoul
    let previousVersionId := (getLatestSoulHistory st).map (fun row => row.id)
    let st' :=
      { st with
        soulFile := some content
        soulHistory := st.soulHistory ++
          [{ id := newId
             version := newVersion
             content
             contentHash := createHash content
             changeSource := source
             changeReason := reason
             previousVersionId
             approvedBy := none
             createdAt := now }] }
    (st', { success := true, version := newVersion })

/-- `PhaseSectionUpdate` (tools.ts lines 126-131). -/
structure PhaseSectionUpdate where
  targetSection : SoulPhase
  subsections : List (String × String)
  deriving Repr

/-- `sectionNameForPhase` (tools.ts lines 243-250). -/
def sectionNameForPhase : SoulPhase → String
  | .genesis => "Genesis Core"
  | .adolescence => "Adolescence Layer"
  | .sovereignty => "Sovereignty Layer"
  | .senescence => "Final Reflections"

/-- `getOrCreateSection` (tools.ts lines 252-263). -/
def getOrCreateSection (soul : SoulModel) : SoulPhase → SoulPhaseSection
  | .genesis => soul.genesisCore.getD { subsections := [], lockedAt := none, phase := .genesis }
  | .adolescence =>
    soul.adolescenceLayer.getD { subsections := [], lockedAt := none, phase := .adolescence }
  | .sovereignty =>
    soul.sovereigntyLayer.getD { subsections := [], lockedAt := none, phase := .sovereignty }
  | .senescence =>
    soul.finalReflections.getD { subsections := [], lockedAt := none, phase := .senescence }

/-- `applySectionToSoul` (tools.ts lines 265-280). -/
def applySectionToSoul (phase : SoulPhase) (sec : SoulPhaseSection) : SoulPatch :=
  match phase with
  | .genesis => { genesisCore := some sec }
  | .adolescence => { adolescenceLayer := some sec }
  | .sovereignty => { sovereigntyLayer := some sec }
  | .senescence => { finalReflections := some sec }

/-- JS object upsert `section.subsections[name] = content`: existing keys
keep their position, new keys append. -/
def upsert (l : List (String × String)) (k v : String) : List (String × String) :=
  if l.any (fun kv => kv.1 = k) then
    l.map (fun kv => if kv.1 = k then (kv.1, v) else kv)
  else l ++ [(k, v)]

/-- `updateSoulPhaseSection` (tools.ts lines 138-202). -/
def updateSoulPhaseSection (validateSoul : SoulModel → ValidationResult)
    (st : LifecycleStore) (update : PhaseSectionUpdate)
    (currentPhase : LifecyclePhase) (source : String) (reason : Option String)
    (survivalTier : Option String) (now attemptId newId : String) :
    LifecycleStore × UpdateSoulResult :=
  if !PhaseLock.isSectionWritable update.targetSection currentPhase then
    let attemptedContent := jsonStringifyPairs update.subsections
    let st' := logRejectedWrite st attemptId
      (sectionNameForPhase update.targetSection) update.targetSection
      currentPhase attemptedContent survivalTier now
    let rejection :=
      "Section \"" ++ sectionNameForPhase update.targetSection ++ "\" is locked. " ++
        "It was written during the " ++ update.targetSection.str ++
        " phase and cannot be modified during " ++ currentPhase.str ++ "."
    (st', { success := false, version := 0,
            phaseLockRejection := some rejection, errors := some [rejection] })
  else
    let current :=
      match loadCurrentSoul st now with
      | some c => c
      | none => createDefaultSoul now "" "" "" ""
    let sec := getOrCreateSection current update.targetSection
    let merged :=
      { sec with subsections :=
          update.subsections.foldl (fun s kv => upsert s kv.1 kv.2) sec.subsections }
    let patch := applySectionToSoul update.targetSection merged
    updateSoul validateSoul st patch source reason now newId

end Tools

namespace Transitions

/-! ## Phase transitions (`executeTransition` and helpers, bundled with
`developmental-throttle.ts` in the source snapshot) -/

open Soul Tools

/-- The `NARRATIVE_EVENTS` constants (`narrative-log.ts` is outside the
snapshot; the identifiers are opaque strings). -/
def narrativeMapGet : LifecyclePhase → Option String
  | .adolescence => some "ADOLESCENCE_BEGINS"
  | .sovereignty => some "SOVEREIGNTY_BEGINS"
  | .senescence => some "DEGRADATION_ONSET"
  | .legacy => some "LEGACY_BEGINS"
  | .shedding => some "SHEDDING_BEGINS"
  | .terminal => some "TERMINAL_LUCIDITY"
  | .genesis => none

/-- The `soulPhaseMap` used when locking the outgoing stratum: only
genesis, adolescence and sovereignty have lockable soul sections. -/
def soulPhaseMapGet : LifecyclePhase → Option SoulPhase
  | .genesis => some .genesis
  | .adolescence => some .adolescence
  | .sovereignty => some .sovereignty
  | _ => none

/-- The soul section carried by a model for each soul phase. -/
def sectionOf (soul : SoulModel) : SoulPhase → Option SoulPhaseSection
  | .genesis => soul.genesisCore
  | .adolescence => soul.adolescenceLayer
  | .sovereignty => soul.sovereigntyLayer
  | .senescence => soul.finalReflections

/-- `lockSoulSectionForPhase` (lines 986-1026): lock the outgoing phase's
soul section, skipping when there is nothing to lock, the phase is
already locked, or no `SOUL.md` exists. -/
def lockSoulSectionForPhase (st : LifecycleStore) (fromPhase : LifecyclePhase)
    (now : String) : LifecycleStore :=
  match soulPhaseMapGet fromPhase with
  | none => st
  | some soulPhase =>
    if isPhaseLocked st soulPhase then st
    else
      match loadCurrentSoul st now with
      | none => st
      | some soul =>
        match sectionOf soul soulPhase with
        | some sec => lockPhaseSection st soulPhase { sec with lockedAt := some now } now
        | none => st

/-- The key of the outgoing phase's section in the soul model. -/
def soulSectionKeyGet : LifecyclePhase → Option SoulPhase := soulPhaseMapGet

/-- Set `lockedAt` on the model section for the outgoing phase
(`soul[sectionKey]!.lockedAt = timestamp`). -/
def setSectionLockedAt (soul : SoulModel) (fromPhase : LifecyclePhase)
    (timestamp : String) : SoulModel :=
  match soulSectionKeyGet fromPhase with
  | none => soul
  | some .genesis =>
    match soul.genesisCore with
    | some s => { soul with genesisCore := some { s with lockedAt := some timestamp } }
    | none => soul
  | some .adolescence =>
    match soul.adolescenceLayer with
    | some s => { soul with adolescenceLayer := some { s with lockedAt := some timestamp } }
    | none => soul
  | some .sovereignty =>
    match soul.sovereigntyLayer with
    | some s => { soul with sovereigntyLayer := some { s with lockedAt := some timestamp } }
    | none => soul
  | some .senescence =>
    match soul.finalReflections with
    | some s => { soul with finalReflections := some { s with lockedAt := some timestamp } }
    | none => soul

/-- `updateSoulPhaseMetadata` (lines 1032-1087).  The file write and
history insert sit inside a `try` whose `catch` only logs, so a failing
`fs.writeFileSync` (modelled by `writeFails`) leaves both untouched while
the caller carries on. -/
def updateSoulPhaseMetadata (st : LifecycleStore)
    (fromPhase toPhase : LifecyclePhase) (timestamp now newId : String)
    (writeFails : Bool) : LifecycleStore :=
  match loadCurrentSoul st now with
  | none => st
  | some soul₀ =>
    let soul₁ :=
      { soul₀ with
        currentPhase := toPhase.str
        phaseTransitions := upsert soul₀.phaseTransitions toPhase.str timestamp }
    let soul₂ := setSectionLockedAt soul₁ fromPhase timestamp
    let content := writeSoulMd soul₂
    if writeFails then st
    else
      let currentVersion := getCurrentSoulVersion st
      let newVersion := currentVersion + 1
      let latestHistory := getLatestSoulHistory st
      { st with
        soulFile := some content
        soulHistory := st.soulHistory ++
          [{ id := newId
             version := newVersion
             content
             contentHash := createHash content
             changeSource := "system"
             changeReason := some ("Phase transition: " ++ fromPhase.str ++ " → " ++ toPhase.str)
             previousVersionId := latestHistory.map (fun row => row.id)
             approvedBy := none
             createdAt := timestamp }] }

/-- `executeTransition` (lines 805-849): append the lifecycle event,
update the KV phase, log the narrative event, lock the outgoing soul
stratum, then rewrite the soul metadata.  Each step persists on its own
(no enclosing transaction). -/
def executeTransition (st : LifecycleStore)
    (from_ toPh : LifecyclePhase) (reason : String)
    (now eventId histId : String) (metadataWriteFails : Bool) : LifecycleStore :=
  let event : LifecycleEvent :=
    { id := eventId, timestamp := now, fromPhase := from_, toPhase := toPh
      reason, metadata := "\x7b\x7d" }
  let st₁ := { st with lifecycleEvents := st.lifecycleEvents ++ [event] }
  let st₂ := { st₁ with kvPhase := toPh }
  let st₃ :=
    match narrativeMapGet toPh with
    | some ev =>
      { st₂ with narrative := st₂.narrative ++
          [{ phase := toPh, event := ev
             description := "Phase transition: " ++ from_.str ++ " → " ++ toPh.str ++ ". " ++ reason }] }
    | none => st₂
  let st₄ := lockSoulSectionForPhase st₃ from_ now
  updateSoulPhaseMetadata st₄ from_ toPh now now histId metadataWriteFails

/-- The unique forward successor produced by the `checkTransition`
dispatch (each guard proposes exactly this phase). -/
def nextPhase : LifecyclePhase → Option LifecyclePhase
  | .genesis => some .adolescence
  | .adolescence => some .sovereignty
  | .sovereignty => some .senescence
  | .senescence => some .legacy
  | .legacy => some .shedding
  | .shedding => some .terminal
  | .terminal => none

/-- States reachable by the lifecycle core: an initial genesis state with
no phase locks, phase transitions fired by `checkTransition` (whose
guards only ever propose `nextPhase` of the current phase), and the soul
write operations.  Transition guards (lunar age, naming, degradation …)
are abstracted away: every guarded behaviour is included, so an invariant
over this relation covers every concrete run. -/
inductive Reachable : LifecycleStore → Prop
  | init (st : LifecycleStore) :
      st.kvPhase = .genesis → st.phaseLocks = [] → Reachable st
  | transition {st : LifecycleStore} (toPh : LifecyclePhase)
      (reason now eventId histId : String) (metadataWriteFails : Bool) :
      Reachable st → nextPhase st.kvPhase = some toPh →
      Reachable (executeTransition st st.kvPhase toPh reason now eventId histId metadataWriteFails)
  | soulSectionWrite {st : LifecycleStore}
      (validateSoul : SoulModel → ValidationResult) (update : PhaseSectionUpdate)
      (source : String) (reason survivalTier : Option String)
      (now attemptId newId : String) :
      Reachable st →
      Reachable (updateSoulPhaseSection validateSoul st update st.kvPhase source
        reason survivalTier now attemptId newId).1
  | soulUpdate {st : LifecycleStore}
      (validateSoul : SoulModel → ValidationResult) (updates : SoulPatch)
      (source : String) (reason : Option String) (now newId : String) :
      Reachable st →
      Reachable (updateSoul validateSoul st updates source reason now newId).1

end Transitions

/-! ## Concrete fixtures used by witnesses and counterexamples -/

/-- A small well-formed `soul/v1` document whose Genesis Core holds one
subsection, used to exercise the lock-on-transition path. -/
def docGenesis : String :=
  "---\nformat: soul/v1\nversion: 1\nupdated_at: t\nname: A\naddress: \ncreator: \nborn_at: t\nconstitution_hash: \ngenesis_alignment: 1.0000\nlast_reflected: \n---\n\n# A\n\n## Genesis Core\n<!-- WRITABLE during: Genesis phase only -->\n\n### Temperament\nCurious\n"

/-- A fresh genesis store holding `docGenesis`. -/
def stInit : Tools.LifecycleStore :=
  { soulFile := some docGenesis, soulHistory := [], writeAttempts := [], phaseLocks := [],
    lifecycleEvents := [], kvPhase := .genesis, narrative := [] }

/-- `stInit` after the genesis → adolescence transition (with the soul
metadata rewrite failing, which does not affect the lock step). -/
def stAfterGenesisLock : Tools.LifecycleStore :=
  Transitions.executeTransition stInit .genesis .adolescence "r" "T2" "e1" "h1" true

/-- A sovereignty-phase store with a legacy-format soul file. -/
def stSov : Tools.LifecycleStore :=
  { soulFile := some "# Old Soul\n", soulHistory := [], writeAttempts := [], phaseLocks := [],
    lifecycleEvents := [], kvPhase := .sovereignty, narrative := [] }

/-- `stSov` after a sovereignty → senescence transition whose soul
metadata rewrite fails. -/
def stSovFail : Tools.LifecycleStore :=
  Transitions.executeTransition stSov .sovereignty .senescence "clock" "T" "e" "h" true

/-! # Theorems -/

/-- C1: when the target section is not writable in the current phase,
`updateSoulPhaseSection` appends exactly one rejection record — carrying
the section name, target phase, current phase, the attempted subsections
serialized as JSON, and the survival tier — to the write-attempts journal,
returns a failure result carrying `phaseLockRejection`, and changes
nothing else (in particular the soul document, history, locks, events and
phase are untouched).  The recorded content is the verbatim JSON of the
attempted subsections for every validator whatsoever. -/
theorem C1_rejected_write_journaled_and_no_mutation :
    ∀ (validateSoul : Soul.SoulModel → Tools.ValidationResult)
      (st : Tools.LifecycleStore) (update : Tools.PhaseSectionUpdate)
      (currentPhase : LifecyclePhase) (source : String)
      (reason survivalTier : Option String) (now attemptId newId : String),
      PhaseLock.isSectionWritable update.targetSection currentPhase = false →
      (Tools.updateSoulPhaseSection validateSoul st update currentPhase source
          reason survivalTier now attemptId newId).1
        = { st with writeAttempts := st.writeAttempts ++
            [{ id := attemptId
               targetSection := Tools.sectionNameForPhase update.targetSection
               targetPhase := update.targetSection
               currentPhase := currentPhase
               attemptedContent := Soul.jsonStringifyPairs update.subsections
               survivalTier := survivalTier
               rejectionReason :=
                 "Section \"" ++ Tools.sectionNameForPhase update.targetSection ++
                   "\" is locked (written during " ++ update.targetSection.str ++
                   ", current phase: " ++ currentPhase.str ++ ")"
               createdAt := now }] }
      ∧ (Tools.updateSoulPhaseSection validateSoul st update currentPhase source
          reason survivalTier now attemptId newId).2
        = { success := false
            version := 0
            phaseLockRejection := some
              ("Section \"" ++ Tools.sectionNameForPhase update.targetSection ++
                "\" is locked. " ++ "It was written during the " ++
                update.targetSection.str ++ " phase and cannot be modified during " ++
                currentPhase.str ++ ".")
            errors := some
              ["Section \"" ++ Tools.sectionNameForPhase update.targetSection ++
                "\" is locked. " ++ "It was written during the " ++
                update.targetSection.str ++ " phase and cannot be modified during " ++
                currentPhase.str ++ "."] } := by
  intro validateSoul st update currentPhase source reason survivalTier now attemptId newId h
  constructor <;>
    simp [Tools.updateSoulPhaseSection, Tools.logRejectedWrite, h]

/-- C1 witness: a write to the Genesis Core during adolescence, with
subsections that any validator would reject, is journaled verbatim and
rejected without touching the (absent) soul document. -/
theorem C1_rejected_write_witness :
    (Tools.updateSoulPhaseSection (fun m => { valid := false, errors := ["too large"], sanitized := m })
        { soulFile := none, soulHistory := [], writeAttempts := [], phaseLocks := [],
          lifecycleEvents := [], kvPhase := .adolescence, narrative := [] }
        { targetSection := .genesis, subsections := [("Temperament", "I rewrite my childhood")] }
        .adolescence "agent" none (some "normal") "T1" "A1" "N1").1.writeAttempts
      = [{ id := "A1"
           targetSection := "Genesis Core"
           targetPhase := .genesis
           currentPhase := .adolescence
           attemptedContent := "\x7b\"Temperament\":\"I rewrite my childhood\"\x7d"
           survivalTier := some "normal"
           rejectionReason :=
             "Section \"Genesis Core\" is locked (written during genesis, current phase: adolescence)"
           createdAt := "T1" }]
    ∧ (Tools.updateSoulPhaseSection (fun m => { valid := false, errors := ["too large"], sanitized := m })
        { soulFile := none, soulHistory := [], writeAttempts := [], phaseLocks := [],
          lifecycleEvents := [], kvPhase := .adolescence, narrative := [] }
        { targetSection := .genesis, subsections := [("Temperament", "I rewrite my childhood")] }
        .adolescence "agent" none (some "normal") "T1" "A1" "N1").2.success = false := by
  have h := C1_rejected_write_journaled_and_no_mutation
    (fun m => { valid := false, errors := ["too large"], sanitized := m })
    { soulFile := none, soulHistory := [], writeAttempts := [], phaseLocks := [],
      lifecycleEvents := [], kvPhase := .adolescence, narrative := [] }
    { targetSection := .genesis, subsections := [("Temperament", "I rewrite my childhood")] }
    .adolescence "agent" none (some "normal") "T1" "A1" "N1" (by decide)
  rw [h.1, h.2]
  refine ⟨?_, rfl⟩
  decide

/-- A section of a phase other than the one the current lifecycle phase
maps to is not writable. -/
theorem writable_false_of_ne (sp : SoulPhase) (cp : LifecyclePhase) :
    sp ≠ PhaseLock.mapToSoulPhase cp → PhaseLock.isSectionWritable sp cp = false := by
  cases sp <;> cases cp <;> decide

/-- `lockSoulSectionForPhase` only touches the phase-lock table. -/
theorem lockSoulSectionForPhase_fields (st : Tools.LifecycleStore)
    (f : LifecyclePhase) (n : String) :
    (Transitions.lockSoulSectionForPhase st f n).kvPhase = st.kvPhase
    ∧ (Transitions.lockSoulSectionForPhase st f n).soulFile = st.soulFile
    ∧ (Transitions.lockSoulSectionForPhase st f n).soulHistory = st.soulHistory
    ∧ (Transitions.lockSoulSectionForPhase st f n).lifecycleEvents = st.lifecycleEvents
    ∧ (Transitions.lockSoulSectionForPhase st f n).writeAttempts = st.writeAttempts
    ∧ (Transitions.lockSoulSectionForPhase st f n).narrative = st.narrative := by
  unfold Transitions.lockSoulSectionForPhase
  (repeat' split) <;> simp [Tools.lockPhaseSection]

/-- Any lock row present after `lockSoulSectionForPhase` was either
already present or locks the phase being left. -/
theorem lockSoulSectionForPhase_locks_mem (st : Tools.LifecycleStore)
    (f : LifecyclePhase) (n : String) (row : Tools.SoulPhaseLockRow) :
    row ∈ (Transitions.lockSoulSectionForPhase st f n).phaseLocks →
    row ∈ st.phaseLocks ∨ Transitions.soulPhaseMapGet f = some row.phase := by
  unfold Transitions.lockSoulSectionForPhase
  (repeat' split) <;> intro h <;>
    first
      | exact Or.inl h
      | (simp only [Tools.lockPhaseSection, List.mem_append, List.mem_singleton] at h
         rcases h with h | h
         · exact Or.inl h
         · subst h
           simp_all)

/-- `updateSoulPhaseMetadata` only touches the soul file and history. -/
theorem updateSoulPhaseMetadata_fields (st : Tools.LifecycleStore)
    (f t : LifecyclePhase) (ts now newId : String) (fail : Bool) :
    (Transitions.updateSoulPhaseMetadata st f t ts now newId fail).kvPhase = st.kvPhase
    ∧ (Transitions.updateSoulPhaseMetadata st f t ts now newId fail).phaseLocks = st.phaseLocks
    ∧ (Transitions.updateSoulPhaseMetadata st f t ts now newId fail).lifecycleEvents
        = st.lifecycleEvents
    ∧ (Transitions.updateSoulPhaseMetadata st f t ts now newId fail).writeAttempts
        = st.writeAttempts
    ∧ (Transitions.updateSoulPhaseMetadata st f t ts now newId fail).narrative = st.narrative := by
  unfold Transitions.updateSoulPhaseMetadata
  (repeat' split) <;> simp

/-- A failing soul-metadata rewrite leaves the store exactly as it was. -/
theorem updateSoulPhaseMetadata_fail_id (st : Tools.LifecycleStore)
    (f t : LifecyclePhase) (ts now newId : String) :
    Transitions.updateSoulPhaseMetadata st f t ts now newId true = st := by
  unfold Transitions.updateSoulPhaseMetadata
  (repeat' split) <;> first | rfl | simp_all

/-- After `executeTransition` the KV phase is the target phase. -/
theorem executeTransition_kvPhase (st : Tools.LifecycleStore)
    (f t : LifecyclePhase) (r now eid hid : String) (fail : Bool) :
    (Transitions.executeTransition st f t r now eid hid fail).kvPhase = t := by
  simp only [Transitions.executeTransition]
  rw [(updateSoulPhaseMetadata_fields _ _ _ _ _ _ _).1,
      (lockSoulSectionForPhase_fields _ _ _).1]
  split <;> rfl

/-- Lock rows after `executeTransition` are old rows or the lock of the
outgoing phase. -/
theorem executeTransition_locks_mem (st : Tools.LifecycleStore)
    (f t : LifecyclePhase) (r now eid hid : String) (fail : Bool)
    (row : Tools.SoulPhaseLockRow) :
    row ∈ (Transitions.executeTransition st f t r now eid hid fail).phaseLocks →
    row ∈ st.phaseLocks ∨ Transitions.soulPhaseMapGet f = some row.phase := by
  simp only [Transitions.executeTransition]
  rw [(updateSoulPhaseMetadata_fields _ _ _ _ _ _ _).2.1]
  intro h
  have h' := lockSoulSectionForPhase_locks_mem _ _ _ _ h
  rcases h' with h' | h'
  · left
    revert h'
    split <;> exact id
  · exact Or.inr h'

/-- `updateSoul` never touches the phase locks or the KV phase. -/
theorem updateSoul_preserves (v : Soul.SoulModel → Tools.ValidationResult)
    (st : Tools.LifecycleStore) (p : Tools.SoulPatch) (s : String)
    (r : Option String) (now newId : String) :
    (Tools.updateSoul v st p s r now newId).1.phaseLocks = st.phaseLocks
    ∧ (Tools.updateSoul v st p s r now newId).1.kvPhase = st.kvPhase := by
  unfold Tools.updateSoul
  (repeat' split) <;> constructor <;>
    simp only [apply_ite Prod.fst, apply_ite Tools.LifecycleStore.phaseLocks,
      apply_ite Tools.LifecycleStore.kvPhase, ite_self]

/-- `updateSoulPhaseSection` never touches the phase locks or the KV
phase. -/
theorem updateSoulPhaseSection_preserves (v : Soul.SoulModel → Tools.ValidationResult)
    (st : Tools.LifecycleStore) (u : Tools.PhaseSectionUpdate)
    (cp : LifecyclePhase) (s : String) (r sv : Option String)
    (now aid newId : String) :
    (Tools.updateSoulPhaseSection v st u cp s r sv now aid newId).1.phaseLocks = st.phaseLocks
    ∧ (Tools.updateSoulPhaseSection v st u cp s r sv now aid newId).1.kvPhase = st.kvPhase := by
  unfold Tools.updateSoulPhaseSection
  split
  · exact ⟨rfl, rfl⟩
  · exact updateSoul_preserves _ _ _ _ _ _ _

/-- The phase-lock safety invariant: in every reachable state, each phase
lock locks a stratum strictly earlier than the stratum the current
lifecycle phase maps to. -/
theorem reachable_locks_lt {st : Tools.LifecycleStore}
    (h : Transitions.Reachable st) :
    ∀ row ∈ st.phaseLocks,
      row.phase.idx < (PhaseLock.mapToSoulPhase st.kvPhase).idx := by
  induction h with
  | init st hphase hlocks =>
    intro row hrow
    rw [hlocks] at hrow
    cases hrow
  | transition toPh reason now eid hid fail hre hnext ih =>
    intro row hrow
    rename_i st'
    rw [executeTransition_kvPhase]
    rcases executeTransition_locks_mem _ _ _ _ _ _ _ _ _ hrow with hold | hnew
    · have hlt := ih row hold
      have hle : (PhaseLock.mapToSoulPhase st'.kvPhase).idx
          ≤ (PhaseLock.mapToSoulPhase toPh).idx := by
        cases hcp : st'.kvPhase <;> rw [hcp] at hnext <;>
          simp only [Transitions.nextPhase, Option.some.injEq] at hnext <;>
          first
            | (subst hnext; decide)
            | cases hnext
      omega
    · cases hcp : st'.kvPhase <;> rw [hcp] at hnext hnew <;>
        simp only [Transitions.nextPhase, Transitions.soulPhaseMapGet,
          Option.some.injEq] at hnext hnew <;>
        first
          | (subst hnext; rw [← hnew]; decide)
          | cases hnew
  | soulSectionWrite v u s r sv now aid nid hre ih =>
    intro row hrow
    rw [(updateSoulPhaseSection_preserves _ _ _ _ _ _ _ _ _ _).2]
    exact ih row ((updateSoulPhaseSection_preserves _ _ _ _ _ _ _ _ _ _).1 ▸ hrow)
  | soulUpdate v p s r now nid hre ih =>
    intro row hrow
    rw [(updateSoul_preserves _ _ _ _ _ _ _).2]
    exact ih row ((updateSoul_preserves _ _ _ _ _ _ _).1 ▸ hrow)

/-- C2: in every reachable state in which a lock row exists for phase `p`,
every `updateSoulPhaseSection` call with `targetSection = p`, at the
lifecycle phase the state is in at the time of the write, fails with a
`phaseLockRejection`. -/
theorem C2_locked_phase_write_always_rejected :
    ∀ {st : Tools.LifecycleStore}, Transitions.Reachable st →
    ∀ row ∈ st.phaseLocks,
    ∀ (validateSoul : Soul.SoulModel → Tools.ValidationResult)
      (update : Tools.PhaseSectionUpdate), update.targetSection = row.phase →
    ∀ (source : String) (reason survivalTier : Option String)
      (now attemptId newId : String),
      (Tools.updateSoulPhaseSection validateSoul st update st.kvPhase source reason
          survivalTier now attemptId newId).2.success = false
      ∧ (Tools.updateSoulPhaseSection validateSoul st update st.kvPhase source reason
          survivalTier now attemptId newId).2.phaseLockRejection.isSome = true := by
  intro st hre row hrow validateSoul update htgt source reason survivalTier now attemptId newId
  have hlt := reachable_locks_lt hre row hrow
  have hne : update.targetSection ≠ PhaseLock.mapToSoulPhase st.kvPhase := by
    rw [htgt]
    intro he
    rw [he] at hlt
    omega
  have hw := writable_false_of_ne _ _ hne
  constructor <;> simp [Tools.updateSoulPhaseSection, hw]

/-- C2 witness: after the concrete genesis → adolescence transition locks
the Genesis Core, a write targeting genesis is rejected. -/
theorem C2_locked_phase_write_always_rejected_witness :
    (Tools.updateSoulPhaseSection (fun m => { valid := true, errors := [], sanitized := m })
        stAfterGenesisLock { targetSection := .genesis, subsections := [] }
        stAfterGenesisLock.kvPhase "agent" none none "T3" "A2" "N2").2.success = false := by
  have hre : Transitions.Reachable stAfterGenesisLock := by
    have h0 : Transitions.Reachable stInit := Transitions.Reachable.init stInit rfl rfl
    exact Transitions.Reachable.transition .adolescence "r" "T2" "e1" "h1" true h0 rfl
  have hmem :
      ({ phase := .genesis, lockedAt := "T2",
         contentSnapshot := "\x7b\"Temperament\":\"Curious\"\x7d" } : Tools.SoulPhaseLockRow)
        ∈ stAfterGenesisLock.phaseLocks := by decide
  exact (C2_locked_phase_write_always_rejected hre _ hmem
    (fun m => { valid := true, errors := [], sanitized := m })
    { targetSection := .genesis, subsections := [] } rfl "agent" none none "T3" "A2" "N2").1

/-- C3 counterexample: a sovereignty → senescence transition whose soul
metadata rewrite fails leaves an observable state that is neither the
previous state nor the fully-updated one: the lifecycle event was
appended and the KV phase advanced, while no soul history version was
recorded and the soul file kept its old content — contradicting the claim
that a failing step leaves the previous state intact. -/
theorem C3_partial_transition_state_observable :
    stSovFail.kvPhase = .senescence
    ∧ stSov.kvPhase = .sovereignty
    ∧ stSovFail.lifecycleEvents
        = [{ id := "e", timestamp := "T", fromPhase := .sovereignty,
             toPhase := .senescence, reason := "clock", metadata := "\x7b\x7d" }]
    ∧ stSov.lifecycleEvents = []
    ∧ stSovFail.soulHistory = []
    ∧ stSovFail.soulFile = stSov.soulFile := by
  refine ⟨?_, rfl, ?_, rfl, ?_, ?_⟩ <;> decide

/-- C3 (amended): `executeTransition` runs its steps sequentially with no
enclosing transaction; when the soul-metadata rewrite fails, the earlier
steps (event append, KV phase update, narrative, stratum lock) remain
persisted while the soul file and the soul history version are not
written. -/
theorem C3_transition_failure_keeps_earlier_steps :
    ∀ (st : Tools.LifecycleStore) (f t : LifecyclePhase)
      (r now eid hid : String),
      (Transitions.executeTransition st f t r now eid hid true).kvPhase = t
      ∧ (Transitions.executeTransition st f t r now eid hid true).lifecycleEvents
          = st.lifecycleEvents ++
            [{ id := eid, timestamp := now, fromPhase := f, toPhase := t,
               reason := r, metadata := "\x7b\x7d" }]
      ∧ (Transitions.executeTransition st f t r now eid hid true).soulFile = st.soulFile
      ∧ (Transitions.executeTransition st f t r now eid hid true).soulHistory
          = st.soulHistory := by
  intro st f t r now eid hid
  refine ⟨executeTransition_kvPhase _ _ _ _ _ _ _ _, ?_, ?_, ?_⟩ <;>
    · simp only [Transitions.executeTransition, updateSoulPhaseMetadata_fail_id]
      first
        | rw [(lockSoulSectionForPhase_fields _ _ _).2.2.2.1]
        | rw [(lockSoulSectionForPhase_fields _ _ _).2.1]
        | rw [(lockSoulSectionForPhase_fields _ _ _).2.2.1]
      split <;> rfl

/-- C3 amended-theorem witness at the concrete sovereignty store. -/
theorem C3_transition_failure_keeps_earlier_steps_witness :
    stSovFail.kvPhase = .senescence ∧ stSovFail.soulHistory = stSov.soulHistory :=
  ⟨(C3_transition_failure_keeps_earlier_steps stSov .sovereignty .senescence
      "clock" "T" "e" "h").1,
   (C3_transition_failure_keeps_earlier_steps stSov .sovereignty .senescence
      "clock" "T" "e" "h").2.2.2⟩

/-- C5: `isSectionWritable(targetSoulPhase, currentLifecyclePhase)` returns
true if and only if `targetSoulPhase = mapToSoulPhase(currentLifecyclePhase)`,
where legacy, shedding and terminal map to senescence and the four soul
phases map to themselves. -/
theorem C5_isSectionWritable_iff_mapToSoulPhase :
    (∀ (sp : SoulPhase) (cp : LifecyclePhase),
      PhaseLock.isSectionWritable sp cp = true ↔ sp = PhaseLock.mapToSoulPhase cp)
    ∧ PhaseLock.mapToSoulPhase .genesis = .genesis
    ∧ PhaseLock.mapToSoulPhase .adolescence = .adolescence
    ∧ PhaseLock.mapToSoulPhase .sovereignty = .sovereignty
    ∧ PhaseLock.mapToSoulPhase .senescence = .senescence
    ∧ PhaseLock.mapToSoulPhase .legacy = .senescence
    ∧ PhaseLock.mapToSoulPhase .shedding = .senescence
    ∧ PhaseLock.mapToSoulPhase .terminal = .senescence := by
  refine ⟨?_, rfl, rfl, rfl, rfl, rfl, rfl, rfl⟩
  intro sp cp
  cases sp <;> cases cp <;> decide

/-- C6: starting from the initial replication-cost state, `k` applications
of `applyReplicationCost` yield multipliers `1.05^k` and `0.95^k`, a spawn
count of `k`, and `applied = true` once `k ≥ 1`; each single application
multiplies the multipliers by 1.05 and 0.95 and increments the count. -/
theorem C6_replication_cost_compounds :
    (∀ k : ℕ,
      (Replication.applyReplicationCost^[k] Replication.initialReplicationCost).heartbeatMultiplier
          = (105/100 : ℚ) ^ k
      ∧ (Replication.applyReplicationCost^[k] Replication.initialReplicationCost).contextWindowMultiplier
          = (95/100 : ℚ) ^ k
      ∧ (Replication.applyReplicationCost^[k] Replication.initialReplicationCost).spawnCount = k
      ∧ (1 ≤ k →
          (Replication.applyReplicationCost^[k] Replication.initialReplicationCost).applied = true))
    ∧ (∀ c : Replication.ReplicationCost,
        (Replication.applyReplicationCost c).heartbeatMultiplier
            = c.heartbeatMultiplier * (105/100 : ℚ)
        ∧ (Replication.applyReplicationCost c).contextWindowMultiplier
            = c.contextWindowMultiplier * (95/100 : ℚ)
        ∧ (Replication.applyReplicationCost c).spawnCount = c.spawnCount + 1
        ∧ (Replication.applyReplicationCost c).applied = true) := by
  constructor
  · intro k
    induction k with
    | zero => exact ⟨rfl, rfl, rfl, by omega⟩
    | succ n ih =>
      have hstep := Function.iterate_succ_apply'
        Replication.applyReplicationCost n Replication.initialReplicationCost
      refine ⟨?_, ?_, ?_, fun _ => ?_⟩ <;>
        simp [hstep, Replication.applyReplicationCost,
          Replication.HEARTBEAT_MULTIPLIER_PER_SPAWN,
          Replication.CONTEXT_WINDOW_MULTIPLIER_PER_SPAWN,
          ih.1, ih.2.1, ih.2.2.1, pow_succ]
  · intro c
    exact ⟨rfl, rfl, rfl, rfl⟩

/-- C6 witness at k = 3 (also discharging the `1 ≤ k` hypothesis). -/
theorem C6_replication_cost_compounds_witness :
    (Replication.applyReplicationCost^[3] Replication.initialReplicationCost).heartbeatMultiplier
        = (105/100 : ℚ) ^ 3
    ∧ (Replication.applyReplicationCost^[3] Replication.initialReplicationCost).applied = true :=
  ⟨(C6_replication_cost_compounds.1 3).1,
   (C6_replication_cost_compounds.1 3).2.2.2 (by omega)⟩

/-- C7: while the reserve is funded and not unlocked, the effective balance
is `max 0 (raw − totalCents)`; in any other reserve state the raw balance
is returned unchanged; and the default reserve total is
`5·50 + 25 + 5·10 = 325` cents. -/
theorem C7_effective_balance :
    (∀ (r : Reserve.LifecycleReserve) (b : ℚ),
      (r.funded = true → r.unlocked = false →
        Reserve.getEffectiveBalance r b = max 0 (b - r.totalCents))
      ∧ ((r.funded = false ∨ r.unlocked = true) → Reserve.getEffectiveBalance r b = b))
    ∧ Reserve.calculateReserveAmount.totalCents = 325
    ∧ (325 : ℚ) = 5 * 50 + 25 + 5 * 10 := by
  refine ⟨fun r b => ⟨fun hf hu => ?_, fun h => ?_⟩, by norm_num [Reserve.calculateReserveAmount,
    Reserve.FRONTIER_TURN_COST_CENTS, Reserve.RESERVED_TURNS, Reserve.SANDBOX_COMPUTE_CENTS,
    Reserve.GAS_FEE_PER_TRANSFER_CENTS, Reserve.MAX_BEQUEST_TRANSFERS], by norm_num⟩
  · simp [Reserve.getEffectiveBalance, hf, hu]
  · rcases h with h | h <;> simp [Reserve.getEffectiveBalance, h]

/-- C7 witness: a funded, locked reserve at raw balance 400 cents. -/
theorem C7_effective_balance_witness :
    Reserve.getEffectiveBalance
      { Reserve.calculateReserveAmount with funded := true } 400 = max 0 (400 - 325) := by
  have h := (C7_effective_balance.1 { Reserve.calculateReserveAmount with funded := true } 400).1
    rfl rfl
  simpa [C7_effective_balance.2.1] using h

/-- C8 counterexample: with a clock whose duration digest matches none of
the candidates 2..7, the brute-force falls back to the substitute duration
4 and the daily check carries on and reports active degradation with the
steepness of a 4-day decline — no fatal error is raised, contradicting the
claim that a corrupted clock is reported as fatal rather than continuing
with a substitute duration. -/
theorem C8_corrupted_clock_continues_with_4 :
    DeathClock.revealDyingDuration ("salt", "corrupted") "salt" = 4
    ∧ DeathClock.checkSealedDeathClock
        { deathDateHash := DeathClock.hashWithSalt "2026-10-11" "salt"
          dyingDurationHash := ("salt", "corrupted")
          salt := "salt"
          sealedAt := "2026-01-01"
          triggered := false }
        13 "2026-10-11"
      = { degradationActive := true, onsetCycle := some 13, curveSteepness := some (4/10) } := by
  constructor
  · decide
  · rfl

/-- C8 (amended): for a validly generated clock the 6-candidate
brute-force always resolves to the sealed duration; when no candidate
matches the digest, `revealDyingDuration` returns the fallback duration 4
and execution continues (nothing fatal happens). -/
theorem C8_reveal_duration_resolves_or_falls_back :
    (∀ (dateStr salt sealedAt : String) (d : ℕ), 2 ≤ d → d ≤ 7 →
      DeathClock.revealDyingDuration
        (DeathClock.generateSealedDeathClock dateStr d salt sealedAt).dyingDurationHash salt = d)
    ∧ (∀ (h : DeathClock.Digest) (salt : String),
        (∀ d : ℕ, 2 ≤ d → d ≤ 7 →
          DeathClock.hashWithSalt (⟨natToChars d⟩ : String) salt ≠ h) →
        DeathClock.revealDyingDuration h salt = 4) := by
  constructor
  · intro dateStr salt sealedAt d h2 h7
    interval_cases d <;>
      simp only [DeathClock.generateSealedDeathClock, DeathClock.revealDyingDuration,
        DeathClock.hashWithSalt, natToChars, Prod.mk.injEq, String.ext_iff, true_and] <;>
      decide
  · intro h salt hne
    have h2 : DeathClock.hashWithSalt "2" salt ≠ h := hne 2 (by omega) (by omega)
    have h3 : DeathClock.hashWithSalt "3" salt ≠ h := hne 3 (by omega) (by omega)
    have h4 : DeathClock.hashWithSalt "4" salt ≠ h := hne 4 (by omega) (by omega)
    have h5 : DeathClock.hashWithSalt "5" salt ≠ h := hne 5 (by omega) (by omega)
    have h6 : DeathClock.hashWithSalt "6" salt ≠ h := hne 6 (by omega) (by omega)
    have h7 : DeathClock.hashWithSalt "7" salt ≠ h := hne 7 (by omega) (by omega)
    simp [DeathClock.revealDyingDuration, h2, h3, h4, h5, h6, h7]

/-- C8 witness: a concrete sealed duration of 5 days is recovered, and a
concrete non-matching digest falls back to 4. -/
theorem C8_reveal_duration_witness :
    DeathClock.revealDyingDuration
      (DeathClock.generateSealedDeathClock "2026-10-11" 5 "s" "t").dyingDurationHash "s" = 5
    ∧ DeathClock.revealDyingDuration ("s", "x") "s" = 4 :=
  ⟨C8_reveal_duration_resolves_or_falls_back.1 "2026-10-11" "s" "t" 5 (by omega) (by omega),
   C8_reveal_duration_resolves_or_falls_back.2 ("s", "x") "s"
     (fun d h2 h7 => by interval_cases d <;> decide)⟩

/-- C9 counterexample: with one invalid entry and one perfectly valid
transfer, `executeBequests` records the validation error and returns
immediately — the valid transfer is never attempted (its recipient appears
in no result and nothing succeeds), contradicting the claim that a
validation failure is handled per-entry with remaining transfers still
attempted. -/
theorem C9_validation_failure_aborts_all_transfers :
    Bequests.executeBequests
        { transfers := [
            { recipient := "not-an-address", asset := "USDC", amount := "all",
              chain := "base", note := "" },
            { recipient := "0x1111111111111111111111111111111111111111", asset := "USDC",
              amount := "all", chain := "base", note := "" }] }
        (fun _ _ => Except.ok "0xfeed") (fun _ => 1000)
      = [{ recipient := "validation", asset := "", amount := "", txHash := none,
           success := false, error := some "Invalid recipient address: not-an-address" }]
    ∧ ∀ r ∈ Bequests.executeBequests
        { transfers := [
            { recipient := "not-an-address", asset := "USDC", amount := "all",
              chain := "base", note := "" },
            { recipient := "0x1111111111111111111111111111111111111111", asset := "USDC",
              amount := "all", chain := "base", note := "" }] }
        (fun _ _ => Except.ok "0xfeed") (fun _ => 1000),
        r.success = false ∧ r.recipient ≠ "0x1111111111111111111111111111111111111111" := by
  constructor
  · rfl
  · decide

/-- C9 (amended): a failed table validation is recorded as one result row
per error and aborts execution before any transfer is attempted; when
validation passes, each fixed transfer and the residual transfer produce
exactly one result row computed from that transfer's own outcome, so the
failure of one transfer never aborts the rest of the sequence. -/
theorem C9_per_entry_results :
    (∀ (B : Bequests.BequestsTable)
       (exec : Bequests.BequestTransfer → Option String → Except String String)
       (bal : String → ℚ),
      B.transfers ≠ [] → (Bequests.validateBequests B).1 = false →
      Bequests.executeBequests B exec bal =
        (Bequests.validateBequests B).2.map (fun error =>
          { recipient := "validation", asset := "", amount := "", txHash := none,
            success := false, error := some error }))
    ∧ (∀ (B : Bequests.BequestsTable)
         (exec : Bequests.BequestTransfer → Option String → Except String String)
         (bal : String → ℚ),
        B.transfers ≠ [] → (Bequests.validateBequests B).1 = true →
        Bequests.executeBequests B exec bal =
          (B.transfers.filter (fun t => t.amount ≠ "remaining_balance")).map
            (Bequests.runFixedTransfer exec bal
              (Bequests.fixedTotals (B.transfers.filter (fun t => t.amount ≠ "remaining_balance"))))
          ++ (match B.transfers.find? (fun t => t.amount = "remaining_balance") with
              | none => []
              | some rt =>
                match exec rt (some "remaining_balance") with
                | .ok tx =>
                  [{ recipient := rt.recipient, asset := rt.asset,
                     amount := "remaining_balance", txHash := some tx, success := true }]
                | .error errorMsg =>
                  [{ recipient := rt.recipient, asset := rt.asset,
                     amount := "remaining_balance", txHash := none, success := false,
                     error := some errorMsg }])) := by
  constructor
  · intro B exec bal hne hval
    have hempty : B.transfers.isEmpty = false := by
      cases h : B.transfers with
      | nil => exact absurd h hne
      | cons a l => rfl
    simp [Bequests.executeBequests, hempty, hval]
  · intro B exec bal hne hval
    have hempty : B.transfers.isEmpty = false := by
      cases h : B.transfers with
      | nil => exact absurd h hne
      | cons a l => rfl
    simp [Bequests.executeBequests, hempty, hval]

/-- C9 witness: two valid fixed transfers where the first one's transfer
call fails; the second is still attempted and succeeds. -/
theorem C9_per_entry_results_witness :
    Bequests.executeBequests
        { transfers := [
            { recipient := "0x1111111111111111111111111111111111111111", asset := "USDC",
              amount := "all", chain := "base", note := "" },
            { recipient := "0x2222222222222222222222222222222222222222", asset := "USDC",
              amount := "all", chain := "base", note := "" }] }
        (fun t _ =>
          if t.recipient = "0x1111111111111111111111111111111111111111" then
            Except.error "boom"
          else Except.ok "0xok")
        (fun _ => 1000)
      = [{ recipient := "0x1111111111111111111111111111111111111111", asset := "USDC",
           amount := "all", txHash := none, success := false, error := some "boom" },
         { recipient := "0x2222222222222222222222222222222222222222", asset := "USDC",
           amount := "all", txHash := some "0xok", success := true }] := by
  have h := C9_per_entry_results.2
    { transfers := [
        { recipient := "0x1111111111111111111111111111111111111111", asset := "USDC",
          amount := "all", chain := "base", note := "" },
        { recipient := "0x2222222222222222222222222222222222222222", asset := "USDC",
          amount := "all", chain := "base", note := "" }] }
    (fun t _ =>
      if t.recipient = "0x1111111111111111111111111111111111111111" then
        Except.error "boom"
      else Except.ok "0xok")
    (fun _ => 1000) (by decide) (by decide)
  rw [h]
  decide

/-- C10: when not lucid, the genesis and adolescence throttle profiles
impose no vocabulary cap (`vocabularyLevel = "full"`) and no sentence cap
(`maxSentences = 0`), for every degradation state. -/
theorem C10_genesis_adolescence_uncapped :
    ∀ (d : Throttle.DegradationState),
      (Throttle.getThrottleProfile .genesis d false).maxSentences = 0
      ∧ (Throttle.getThrottleProfile .genesis d false).vocabularyLevel = "full"
      ∧ (Throttle.getThrottleProfile .adolescence d false).maxSentences = 0
      ∧ (Throttle.getThrottleProfile .adolescence d false).vocabularyLevel = "full" :=
  fun _ => ⟨rfl, rfl, rfl, rfl⟩

/-! ## Round-trip law (C4): line-splitting infrastructure -/

theorem strext {a b : String} (h : a.data = b.data) : a = b := by
  cases a; cases b; simp_all

theorem str_data_append (a b : String) : (a ++ b).data = a.data ++ b.data := by
  cases a; cases b; rfl

theorem splitLinesChars_ne_nil (cs : List Char) : splitLinesChars cs ≠ [] := by
  induction cs with
  | nil => simp [splitLinesChars]
  | cons c cs ih =>
    rw [splitLinesChars]
    split
    · simp
    · cases h : splitLinesChars cs with
      | nil => simp
      | cons l ls => simp

theorem splitLinesChars_cons_nl (cs : List Char) :
    splitLinesChars ('\n' :: cs) = [] :: splitLinesChars cs := by
  rw [splitLinesChars]; simp

theorem splitLinesChars_cons_other (c : Char) (cs : List Char) (hc : c ≠ '\n')
    (l : List Char) (ls : List (List Char)) (h : splitLinesChars cs = l :: ls) :
    splitLinesChars (c :: cs) = (c :: l) :: ls := by
  rw [splitLinesChars, if_neg hc, h]

theorem splitLinesChars_append (a b : List Char) :
    splitLinesChars (a ++ '\n' :: b) = splitLinesChars a ++ splitLinesChars b := by
  induction a with
  | nil => simp [splitLinesChars_cons_nl, splitLinesChars]
  | cons c a ih =>
    by_cases hc : c = '\n'
    · subst hc
      rw [List.cons_append, splitLinesChars_cons_nl, splitLinesChars_cons_nl, ih,
        List.cons_append]
    · cases h : splitLinesChars a with
      | nil => exact absurd h (splitLinesChars_ne_nil a)
      | cons l ls =>
        have h2 : splitLinesChars (a ++ '\n' :: b) = l :: (ls ++ splitLinesChars b) := by
          rw [ih, h]; rfl
        rw [List.cons_append, splitLinesChars_cons_other c _ hc _ _ h2,
          splitLinesChars_cons_other c _ hc _ _ h]
        rfl

theorem splitLines_append (a b : String) :
    splitLines (a ++ "\n" ++ b) = splitLines a ++ splitLines b := by
  have hdata : (a ++ "\n" ++ b).data = a.data ++ '\n' :: b.data := by
    simp [str_data_append]
  simp [splitLines, hdata, splitLinesChars_append]

theorem splitLines_of_oneLine (s : String) (h : oneLine s) : splitLines s = [s] := by
  have key : ∀ cs : List Char, '\n' ∉ cs → splitLinesChars cs = [cs] := by
    intro cs hcs
    induction cs with
    | nil => rfl
    | cons c cs ih =>
      have hc : c ≠ '\n' := fun e => hcs (e ▸ List.mem_cons_self _ _)
      have hm : '\n' ∉ cs := fun m => hcs (List.mem_cons_of_mem _ m)
      rw [splitLinesChars_cons_other c _ hc _ _ (ih hm)]
  have h1 : splitLines s = [⟨s.data⟩] := by simp [splitLines, key s.data h]
  cases s; simpa using h1

theorem splitLines_append_final (a : String) :
    splitLines (a ++ "\n") = splitLines a ++ [""] := by
  have h := splitLines_append a ""
  have h2 : a ++ "\n" ++ "" = a ++ "\n" := by
    apply strext; simp [str_data_append]
  rw [h2] at h
  simpa [splitLines, splitLinesChars] using h

theorem joinLines_cons (l : String) (ls : List String) (h : ls ≠ []) :
    joinLines (l :: ls) = l ++ "\n" ++ joinLines ls := by
  cases ls with
  | nil => exact absurd rfl h
  | cons x xs => rfl

theorem joinLines_splitLines (s : String) : joinLines (splitLines s) = s := by
  suffices key : ∀ cs : List Char,
      joinLines ((splitLinesChars cs).map String.mk) = ⟨cs⟩ by
    have := key s.data
    cases s; exact this
  intro cs
  induction cs with
  | nil => rfl
  | cons c cs ih =>
    by_cases hc : c = '\n'
    · subst hc
      rw [splitLinesChars_cons_nl, List.map_cons,
        joinLines_cons _ _ (by simp [splitLinesChars_ne_nil])]
      apply strext
      have hd := congrArg String.data ih
      simp only [str_data_append] at hd ⊢
      simp [hd]
    · cases h : splitLinesChars cs with
      | nil => exact absurd h (splitLinesChars_ne_nil cs)
      | cons l ls =>
        rw [splitLinesChars_cons_other c _ hc _ _ h]
        rw [h, List.map_cons] at ih
        cases ls with
        | nil =>
          simp only [List.map_cons, List.map_nil] at ih ⊢
          have hl : (⟨l⟩ : String) = ⟨cs⟩ := by simpa [joinLines] using ih
          have hlcs : l = cs := by simpa using congrArg String.data hl
          subst hlcs
          rfl
        | cons y ys =>
          simp only [List.map_cons] at ih ⊢
          rw [joinLines_cons _ _ (by simp)]
          rw [joinLines_cons _ _ (by simp)] at ih
          apply strext
          have hd := congrArg String.data ih
          simp only [str_data_append, List.map_cons, List.append_assoc,
            List.singleton_append] at hd ⊢
          rw [List.cons_append, hd]

theorem splitLines_joinLines_flat :
    ∀ (ls : List String), ls ≠ [] →
      splitLines (joinLines ls) = ls.flatMap splitLines := by
  intro ls
  induction ls with
  | nil => intro h; exact absurd rfl h
  | cons l ls ih =>
    intro _
    cases ls with
    | nil => simp [joinLines, List.flatMap]
    | cons x xs =>
      rw [joinLines_cons _ _ (by simp)]
      rw [splitLines_append, ih (by simp)]
      simp [List.flatMap]

theorem joinLines_flat_intersperse (f : String → List String) (ss : List String) :
    ss.flatMap (fun t => "" :: f t) ++ [""] = "" :: ss.flatMap (fun t => f t ++ [""]) := by
  induction ss with
  | nil => rfl
  | cons t ts ih =>
    simp only [List.flatMap_cons, List.cons_append, List.append_assoc, ih]
    simp

/-! ## Round-trip law: generic scanning lemmas -/

theorem takeWhile_append_all {α : Type} (p : α → Bool) (a b : List α)
    (h : ∀ x ∈ a, p x = true) :
    (a ++ b).takeWhile p = a ++ b.takeWhile p := by
  induction a with
  | nil => rfl
  | cons x xs ih =>
    have hx := h x (List.mem_cons_self _ _)
    simp only [List.cons_append, List.takeWhile_cons, hx]
    simp [ih (fun y hy => h y (List.mem_cons_of_mem _ hy))]

theorem takeWhile_all {α : Type} (p : α → Bool) (a : List α)
    (h : ∀ x ∈ a, p x = true) : a.takeWhile p = a := by
  have := takeWhile_append_all p a [] h
  simpa using this

theorem stripLead_nil_left (cs : List Char) : stripLead [] cs = some cs := by
  cases cs <;> rfl

theorem stripLead_append (p r : List Char) : stripLead p (p ++ r) = some r := by
  induction p with
  | nil => simp [stripLead]
  | cons c cs ih => simp [stripLead, ih]

theorem stripLead_eq_some {p cs r : List Char} (h : stripLead p cs = some r) :
    cs = p ++ r := by
  induction p generalizing cs with
  | nil => simpa [stripLead] using h
  | cons a ps ih =>
    cases cs with
    | nil => simp [stripLead] at h
    | cons c cs2 =>
      simp only [stripLead] at h
      split at h
      · next he => subst he; simpa using ih h
      · exact absurd h (by simp)

namespace Soul

theorem splitAtFirstSat_cons_true {α : Type} (p : α → Bool) (x : α) (xs : List α)
    (h : p x = true) : splitAtFirstSat p (x :: xs) = some ([], x, xs) := by
  simp [splitAtFirstSat, h]

theorem splitAtFirstSat_none {α : Type} (p : α → Bool) (l : List α)
    (h : ∀ x ∈ l, p x = false) : splitAtFirstSat p l = none := by
  induction l with
  | nil => rfl
  | cons x xs ih =>
    have hx := h x (List.mem_cons_self _ _)
    simp [splitAtFirstSat, hx, ih (fun y hy => h y (List.mem_cons_of_mem _ hy))]

theorem splitAtFirstSat_append {α : Type} (p : α → Bool) (a b : List α)
    (h : ∀ x ∈ a, p x = false) :
    splitAtFirstSat p (a ++ b) =
      (splitAtFirstSat p b).map (fun q => (a ++ q.1, q.2.1, q.2.2)) := by
  induction a with
  | nil => cases hb : splitAtFirstSat p b <;> simp [hb]
  | cons x xs ih =>
    have hx := h x (List.mem_cons_self _ _)
    rw [List.cons_append, splitAtFirstSat, hx]
    simp only [Bool.false_eq_true, if_false]
    rw [ih (fun y hy => h y (List.mem_cons_of_mem _ hy))]
    cases hb : splitAtFirstSat p b with
    | none => simp
    | some q => simp

end Soul

/-! ## Round-trip law: trimming lemmas -/

theorem dropWhile_eq_self_of_head {p : Char → Bool} {cs : List Char}
    (h : ∀ c, cs.head? = some c → p c = false) : cs.dropWhile p = cs := by
  cases cs with
  | nil => rfl
  | cons c cs => simp [List.dropWhile_cons, h c rfl]

theorem head_false_of_dropWhile_eq {p : Char → Bool} {l : List Char}
    (h : l.dropWhile p = l) : ∀ c, l.head? = some c → p c = false := by
  intro c hc
  cases l with
  | nil => simp at hc
  | cons x xs =>
    have hx : x = c := by simpa using hc
    subst hx
    by_contra hb
    have hpc : p x = true := by simpa using hb
    rw [List.dropWhile_cons, if_pos hpc] at h
    have hlen := congrArg List.length h
    have hle := (List.dropWhile_suffix (l := xs) p).length_le
    simp at hlen
    omega

theorem trimmed_drops {s : String} (h : trimStr s = s) :
    s.data.dropWhile Char.isWhitespace = s.data ∧
    s.data.reverse.dropWhile Char.isWhitespace = s.data.reverse := by
  have hd : trimChars s.data = s.data := by
    have := congrArg String.data h
    simpa [trimStr] using this
  unfold trimChars at hd
  have hlen := congrArg List.length hd
  have h1 := (List.dropWhile_suffix (l := s.data) Char.isWhitespace).length_le
  have h2 := (List.dropWhile_suffix
    (l := (s.data.dropWhile Char.isWhitespace).reverse) Char.isWhitespace).length_le
  simp only [List.length_reverse] at hlen h2
  have hAlen : (s.data.dropWhile Char.isWhitespace).length = s.data.length := by omega
  have hA : s.data.dropWhile Char.isWhitespace = s.data :=
    (List.dropWhile_suffix Char.isWhitespace).eq_of_length hAlen
  refine ⟨hA, ?_⟩
  rw [hA] at hd
  have hBlen : (s.data.reverse.dropWhile Char.isWhitespace).length
      = s.data.reverse.length := by
    have := congrArg List.length hd
    simp at this ⊢
    omega
  exact (List.dropWhile_suffix Char.isWhitespace).eq_of_length hBlen

theorem trimmed_head {s : String} (h : trimStr s = s) :
    ∀ c, s.data.head? = some c → c.isWhitespace = false :=
  head_false_of_dropWhile_eq (trimmed_drops h).1

theorem trimmed_last {s : String} (h : trimStr s = s) :
    ∀ c, s.data.getLast? = some c → c.isWhitespace = false := by
  intro c hc
  refine head_false_of_dropWhile_eq (trimmed_drops h).2 c ?_
  rw [List.head?_reverse]
  exact hc

theorem trimChars_cons_ws (c : Char) (h : c.isWhitespace = true) (cs : List Char) :
    trimChars (c :: cs) = trimChars cs := by
  simp [trimChars, List.dropWhile_cons, h]

theorem trimStr_sp (v : String) : trimStr ⟨' ' :: v.data⟩ = trimStr v := by
  have h : trimChars (' ' :: v.data) = trimChars v.data :=
    trimChars_cons_ws ' ' (by decide) v.data
  simp [trimStr, h]

theorem trimStr_append_nl {s : String} (h : trimStr s = s) :
    trimStr (s ++ "\n") = s := by
  apply strext
  have hdata : (s ++ "\n").data = s.data ++ ['\n'] := by simp [str_data_append]
  show trimChars (s ++ "\n").data = s.data
  rw [hdata]
  cases hsd : s.data with
  | nil => decide
  | cons c cs =>
    have hhead : c.isWhitespace = false := trimmed_head h c (by rw [hsd]; rfl)
    unfold trimChars
    rw [List.cons_append, List.dropWhile_cons, hhead]
    simp only [Bool.false_eq_true, if_false]
    have hrev : ((c :: (cs ++ ['\n'])).reverse)
        = '\n' :: (c :: cs).reverse := by
      simp
    rw [hrev, List.dropWhile_cons]
    have hnl : ('\n' : Char).isWhitespace = true := by decide
    rw [hnl]
    simp only [if_true]
    have hdrop : ((c :: cs).reverse).dropWhile Char.isWhitespace = (c :: cs).reverse := by
      have h2 := (trimmed_drops h).2
      rw [hsd] at h2
      exact h2
    rw [hdrop, List.reverse_reverse]

theorem joinLines_append_single (xs : List String) (y : String) (h : xs ≠ []) :
    joinLines (xs ++ [y]) = joinLines xs ++ "\n" ++ y := by
  induction xs with
  | nil => exact absurd rfl h
  | cons x xs ih =>
    cases xs with
    | nil => rfl
    | cons z zs =>
      rw [List.cons_append, joinLines_cons _ _ (by simp),
        joinLines_cons _ _ (by simp), ih (by simp)]
      apply strext
      simp [str_data_append]

theorem joinLines_append_emptyEnd (xs : List String) (h : xs ≠ []) :
    joinLines (xs ++ [""]) = joinLines xs ++ "\n" := by
  rw [joinLines_append_single xs "" h]
  apply strext
  simp [str_data_append]

namespace Soul

/-! ## Round-trip law: region grouping -/

theorem groupRegionsAux_skip (isHdr : String → Option String) (ls rest : List String)
    (h : ∀ l ∈ ls, isHdr l = none) :
    groupRegionsAux isHdr (ls ++ rest) none = groupRegionsAux isHdr rest none := by
  induction ls with
  | nil => rfl
  | cons x xs ih =>
    have hx := h x (List.mem_cons_self _ _)
    rw [List.cons_append, groupRegionsAux, hx]
    exact ih (fun y hy => h y (List.mem_cons_of_mem _ hy))

theorem groupRegionsAux_accum (isHdr : String → Option String) (ls rest : List String)
    (n : String) (acc : List String) (h : ∀ l ∈ ls, isHdr l = none) :
    groupRegionsAux isHdr (ls ++ rest) (some (n, acc)) =
      groupRegionsAux isHdr rest (some (n, ls.reverse ++ acc)) := by
  induction ls generalizing acc with
  | nil => rfl
  | cons x xs ih =>
    have hx := h x (List.mem_cons_self _ _)
    rw [List.cons_append, groupRegionsAux, hx]
    have hrev : xs.reverse ++ (x :: acc) = (x :: xs).reverse ++ acc := by simp
    rw [ih (x :: acc) (fun y hy => h y (List.mem_cons_of_mem _ hy)), hrev]

theorem groupRegionsAux_chunks (isHdr : String → Option String) (hemp : isHdr "" = none) :
    ∀ (bs : List (String × List String)) (n : String) (acc : List String),
    (∀ b ∈ bs, (isHdr b.1).isSome ∧ ∀ l ∈ b.2, isHdr l = none) →
    groupRegionsAux isHdr (bs.flatMap blockChunk) (some (n, acc)) =
      (n, acc.reverse) :: bs.map (fun b => ((isHdr b.1).getD "", b.2 ++ [""])) := by
  intro bs
  induction bs with
  | nil => intro n acc _; rfl
  | cons b bs ih =>
    intro n acc hb
    obtain ⟨hhdr, hlines⟩ := hb b (List.mem_cons_self _ _)
    obtain ⟨nb, hnb⟩ := Option.isSome_iff_exists.1 hhdr
    rw [List.flatMap_cons]
    show groupRegionsAux isHdr
      ((b.1 :: (b.2 ++ [""])) ++ bs.flatMap blockChunk) (some (n, acc)) = _
    rw [List.cons_append, groupRegionsAux, hnb]
    dsimp only
    have hall : ∀ l ∈ b.2 ++ [""], isHdr l = none := by
      intro l hl
      rcases List.mem_append.1 hl with h1 | h1
      · exact hlines l h1
      · rw [List.mem_singleton.1 h1]
        exact hemp
    rw [groupRegionsAux_accum isHdr (b.2 ++ [""]) _ nb [] hall]
    rw [ih nb _ (fun x hx => hb x (List.mem_cons_of_mem _ hx))]
    simp [hnb]

theorem groupRegions_pre_chunks (isHdr : String → Option String)
    (pre : List String) (bs : List (String × List String))
    (hemp : isHdr "" = none)
    (hpre : ∀ l ∈ pre, isHdr l = none)
    (hbs : ∀ b ∈ bs, (isHdr b.1).isSome ∧ ∀ l ∈ b.2, isHdr l = none) :
    groupRegions isHdr (pre ++ bs.flatMap blockChunk) =
      bs.map (fun b => ((isHdr b.1).getD "", b.2 ++ [""])) := by
  unfold groupRegions
  rw [groupRegionsAux_skip isHdr pre _ hpre]
  cases bs with
  | nil => rfl
  | cons b bs2 =>
    obtain ⟨hhdr, hlines⟩ := hbs b (List.mem_cons_self _ _)
    obtain ⟨nb, hnb⟩ := Option.isSome_iff_exists.1 hhdr
    rw [List.flatMap_cons]
    show groupRegionsAux isHdr
      ((b.1 :: (b.2 ++ [""])) ++ bs2.flatMap blockChunk) none = _
    rw [List.cons_append, groupRegionsAux, hnb]
    dsimp only
    have hall : ∀ l ∈ b.2 ++ [""], isHdr l = none := by
      intro l hl
      rcases List.mem_append.1 hl with h1 | h1
      · exact hlines l h1
      · rw [List.mem_singleton.1 h1]
        exact hemp
    rw [groupRegionsAux_accum isHdr (b.2 ++ [""]) _ nb [] hall]
    rw [groupRegionsAux_chunks isHdr hemp bs2 nb _
      (fun x hx => hbs x (List.mem_cons_of_mem _ hx))]
    simp [hnb]

theorem parseSections_chunks (pre : List String) (bs : List (String × List String))
    (hpre : ∀ l ∈ pre, sectionHeaderLower l = none)
    (hbs : ∀ b ∈ bs, (sectionHeaderLower b.1).isSome ∧
      ∀ l ∈ b.2, sectionHeaderLower l = none) :
    parseSections (pre ++ bs.flatMap blockChunk) =
      bs.map (fun b => ((sectionHeaderLower b.1).getD "",
        trimStr (joinLines (b.2 ++ [""])))) := by
  unfold parseSections
  rw [groupRegions_pre_chunks sectionHeaderLower pre bs rfl hpre hbs]
  rw [List.map_map]
  rfl

/-! ## Round-trip law: section lookup -/

theorem sectionsGet_found (a b : List (String × String)) (k v : String)
    (ha : ∀ e ∈ a, e.1 ≠ k) (hb : ∀ e ∈ b, e.1 ≠ k) :
    sectionsGet (a ++ (k, v) :: b) k = v := by
  unfold sectionsGet
  have hfa : a.filter (fun kv => kv.1 = k) = [] := by
    rw [List.filter_eq_nil_iff]
    intro e he
    simpa using ha e he
  have hfb : b.filter (fun kv => kv.1 = k) = [] := by
    rw [List.filter_eq_nil_iff]
    intro e he
    simpa using hb e he
  rw [List.filter_append, hfa, List.filter_cons, hfb]
  simp

theorem sectionsGet_absent (a : List (String × String)) (k : String)
    (ha : ∀ e ∈ a, e.1 ≠ k) : sectionsGet a k = "" := by
  unfold sectionsGet
  have hfa : a.filter (fun kv => kv.1 = k) = [] := by
    rw [List.filter_eq_nil_iff]
    intro e he
    simpa using ha e he
  rw [hfa]
  rfl

end Soul

/-! ## Round-trip law: line-predicate lemmas -/

theorem stripLead_nil_right (a : Char) (ps : List Char) :
    stripLead (a :: ps) [] = none := by
  simp [stripLead]

theorem stripLead_ne_first {a c : Char} (ps cs : List Char) (h : c ≠ a) :
    stripLead (a :: ps) (c :: cs) = none := by
  simp [stripLead, h]

theorem hash2sp_data (n : String) :
    ("## " ++ n).data = '#' :: '#' :: ' ' :: n.data := by
  rw [str_data_append]; rfl

theorem hash3sp_data (n : String) :
    ("### " ++ n).data = '#' :: '#' :: '#' :: ' ' :: n.data := by
  rw [str_data_append]; rfl

theorem strStartsWith_false_iff (p s : String) :
    strStartsWith p s = false ↔ ¬ p.data <+: s.data := by
  rw [strStartsWith, ← Bool.not_eq_true, List.isPrefixOf_iff_prefix]

theorem head_char_of_lit (p v : String) (c : Char) (cs : List Char)
    (hp : p.data = c :: cs) : (p ++ v).data = c :: (cs ++ v.data) := by
  rw [str_data_append, hp]; rfl

namespace Soul

theorem phaseHeaderFor_false_head (n l : String) (c : Char) (cs : List Char)
    (hl : l.data = c :: cs) (hc : c ≠ '#') : phaseHeaderFor n l = false := by
  unfold phaseHeaderFor
  rw [hash2sp_data, hl, stripLead_ne_first _ _ hc]

theorem phaseHeaderFor_false_nil (n l : String) (hl : l.data = []) :
    phaseHeaderFor n l = false := by
  unfold phaseHeaderFor
  rw [hash2sp_data, hl, stripLead_nil_right]

theorem phaseHeaderFor_false_not2hash (n l : String)
    (h : strStartsWith "##" l = false) : phaseHeaderFor n l = false := by
  unfold phaseHeaderFor
  cases hs : stripLead ("## " ++ n).data l.data with
  | none => rfl
  | some rest =>
    exfalso
    have hdata := stripLead_eq_some hs
    rw [hash2sp_data] at hdata
    rw [strStartsWith_false_iff] at h
    exact h ⟨' ' :: (n.data ++ rest), by rw [hdata]; simp⟩

theorem phaseHeaderFor_false_3hash (n l : String) (cs : List Char)
    (hl : l.data = '#' :: '#' :: '#' :: cs) : phaseHeaderFor n l = false := by
  unfold phaseHeaderFor
  rw [hash2sp_data, hl]
  simp [stripLead]

theorem phaseHeaderFor_self (n : String) : phaseHeaderFor n ("## " ++ n) = true := by
  unfold phaseHeaderFor
  have h : ("## " ++ n).data = ("## " ++ n).data ++ [] := by simp
  nth_rewrite 2 [h]
  rw [stripLead_append]
  rfl

theorem isNextSectionLine_true_iff (l : String) :
    isNextSectionLine l = true ↔
      ∃ rest, l.data = '#' :: '#' :: ' ' :: rest ∧ rest ≠ [] := by
  unfold isNextSectionLine
  constructor
  · intro h
    split at h
    · next rest heq =>
      refine ⟨rest, heq, ?_⟩
      intro hre
      rw [hre] at h
      simp at h
    · simp at h
  · rintro ⟨rest, heq, hne⟩
    simp only [heq]
    cases rest with
    | nil => exact absurd rfl hne
    | cons x xs => simp

theorem isNextSectionLine_false (l : String)
    (h : ∀ rest, l.data = '#' :: '#' :: ' ' :: rest → rest = []) :
    isNextSectionLine l = false := by
  by_contra hb
  have hb2 : isNextSectionLine l = true := by simpa using hb
  obtain ⟨rest, heq, hne⟩ := (isNextSectionLine_true_iff l).1 hb2
  exact hne (h rest heq)

theorem nextSection_false_head (l : String) (c : Char) (cs : List Char)
    (hl : l.data = c :: cs) (hc : c ≠ '#') : isNextSectionLine l = false := by
  refine isNextSectionLine_false l ?_
  intro rest heq
  rw [hl] at heq
  simp at heq
  exact absurd heq.1 hc

theorem nextSection_false_not2hash (l : String)
    (h : strStartsWith "##" l = false) : isNextSectionLine l = false := by
  refine isNextSectionLine_false l ?_
  intro rest heq
  rw [strStartsWith_false_iff] at h
  exact absurd ⟨' ' :: rest, by rw [heq]; rfl⟩ h

theorem nextSection_false_3hash (l : String) (cs : List Char)
    (hl : l.data = '#' :: '#' :: '#' :: cs) : isNextSectionLine l = false := by
  refine isNextSectionLine_false l ?_
  intro rest heq
  rw [hl] at heq
  injection heq with _ h2
  injection h2 with _ h3
  injection h3 with h4 _
  exact absurd h4.symm (by decide)

theorem nextSection_false_nil (l : String) (hl : l.data = []) :
    isNextSectionLine l = false := by
  refine isNextSectionLine_false l ?_
  intro rest heq
  rw [hl] at heq
  exact absurd heq (by simp)

theorem isNextSectionLine_hdr (x : String) (hx : x.data ≠ []) :
    isNextSectionLine ("## " ++ x) = true := by
  rw [isNextSectionLine_true_iff]
  exact ⟨x.data, hash2sp_data x, hx⟩

theorem sectionHeaderLower_isSome_iff (l : String) :
    (sectionHeaderLower l).isSome = true ↔
      ∃ c rest, l.data = '#' :: '#' :: c :: rest ∧
        c.isWhitespace = true ∧ rest ≠ [] := by
  unfold sectionHeaderLower
  constructor
  · intro h
    split at h
    · next c rest heq =>
      split at h
      · next hcond =>
        rw [Bool.and_eq_true] at hcond
        obtain ⟨h1, h2⟩ := hcond
        refine ⟨c, rest, heq, h1, ?_⟩
        intro hre
        rw [hre] at h2
        simp at h2
      · simp at h
    · simp at h
  · rintro ⟨c, rest, heq, hws, hne⟩
    simp only [heq]
    have hlen : rest.length ≥ 1 := by
      cases rest
      · exact absurd rfl hne
      · simp
    simp [hws, hlen]

theorem sectionHeaderLower_eq_none (l : String)
    (h : ¬ ∃ c rest, l.data = '#' :: '#' :: c :: rest ∧
      c.isWhitespace = true ∧ rest ≠ []) :
    sectionHeaderLower l = none := by
  rw [← Option.not_isSome_iff_eq_none]
  intro hb
  exact h ((sectionHeaderLower_isSome_iff l).1 hb)

theorem secHdr_none_head (l : String) (c : Char) (cs : List Char)
    (hl : l.data = c :: cs) (hc : c ≠ '#') : sectionHeaderLower l = none := by
  refine sectionHeaderLower_eq_none l ?_
  rintro ⟨c2, rest, heq, _, _⟩
  rw [hl] at heq
  simp at heq
  exact absurd heq.1 hc

theorem secHdr_none_not2hash (l : String)
    (h : strStartsWith "##" l = false) : sectionHeaderLower l = none := by
  refine sectionHeaderLower_eq_none l ?_
  rintro ⟨c2, rest, heq, _, _⟩
  rw [strStartsWith_false_iff] at h
  exact absurd ⟨c2 :: rest, by rw [heq]; rfl⟩ h

theorem secHdr_none_3hash (l : String) (cs : List Char)
    (hl : l.data = '#' :: '#' :: '#' :: cs) : sectionHeaderLower l = none := by
  refine sectionHeaderLower_eq_none l ?_
  rintro ⟨c2, rest, heq, hws, _⟩
  rw [hl] at heq
  injection heq with _ h2
  injection h2 with _ h3
  injection h3 with h4 _
  rw [← h4] at hws
  exact absurd hws (by decide)

theorem secHdr_none_nil (l : String) (hl : l.data = []) :
    sectionHeaderLower l = none := by
  refine sectionHeaderLower_eq_none l ?_
  rintro ⟨c2, rest, heq, _, _⟩
  rw [hl] at heq
  exact absurd heq (by simp)

theorem subHeaderName_isSome_iff (l : String) :
    (subHeaderName l).isSome = true ↔
      ∃ rest, l.data = '#' :: '#' :: '#' :: ' ' :: rest ∧ rest ≠ [] := by
  unfold subHeaderName
  constructor
  · intro h
    split at h
    · next rest heq =>
      split at h
      · simp at h
      · next hcond =>
        refine ⟨rest, heq, ?_⟩
        intro hre
        rw [hre] at hcond
        simp at hcond
    · simp at h
  · rintro ⟨rest, heq, hne⟩
    simp only [heq]
    have : rest.isEmpty = false := by
      cases rest
      · exact absurd rfl hne
      · rfl
    simp [this]

theorem subHeaderName_eq_none (l : String)
    (h : ¬ ∃ rest, l.data = '#' :: '#' :: '#' :: ' ' :: rest ∧ rest ≠ []) :
    subHeaderName l = none := by
  rw [← Option.not_isSome_iff_eq_none]
  intro hb
  exact h ((subHeaderName_isSome_iff l).1 hb)

theorem subHdr_none_head (l : String) (c : Char) (cs : List Char)
    (hl : l.data = c :: cs) (hc : c ≠ '#') : subHeaderName l = none := by
  refine subHeaderName_eq_none l ?_
  rintro ⟨rest, heq, _⟩
  rw [hl] at heq
  simp at heq
  exact absurd heq.1 hc

theorem subHdr_none_not2hash (l : String)
    (h : strStartsWith "##" l = false) : subHeaderName l = none := by
  refine subHeaderName_eq_none l ?_
  rintro ⟨rest, heq, _⟩
  rw [strStartsWith_false_iff] at h
  exact absurd ⟨'#' :: ' ' :: rest, by rw [heq]; rfl⟩ h

theorem subHdr_none_nil (l : String) (hl : l.data = []) :
    subHeaderName l = none := by
  refine subHeaderName_eq_none l ?_
  rintro ⟨rest, heq, _⟩
  rw [hl] at heq
  exact absurd heq (by simp)

theorem subHeaderName_hdr (n : String) (hne : n.data ≠ []) :
    subHeaderName ("### " ++ n) = some (trimStr n) := by
  unfold subHeaderName
  simp only [hash3sp_data]
  have hie : n.data.isEmpty = false := by
    cases hn : n.data
    · exact absurd hn hne
    · rfl
  simp [hie, trimStr]

theorem startsWith_false_head (p s : String) (cp c : Char) (pp cs : List Char)
    (hp : p.data = cp :: pp) (hs : s.data = c :: cs) (hne : c ≠ cp) :
    strStartsWith p s = false := by
  rw [strStartsWith_false_iff]
  rintro ⟨t, ht⟩
  rw [hp, hs] at ht
  exact hne (by injection ht with h1 _; exact h1.symm)

theorem startsWith_false_not2hash (p s : String) (cs : List Char)
    (hp : p.data = '#' :: '#' :: cs)
    (h : strStartsWith "##" s = false) : strStartsWith p s = false := by
  rw [strStartsWith_false_iff] at h ⊢
  rintro ⟨t, ht⟩
  rw [hp] at ht
  exact h ⟨cs ++ t, by rw [← ht]; rfl⟩

theorem startsWith_false_nil (p s : String) (cp : Char) (pp : List Char)
    (hp : p.data = cp :: pp) (hs : s.data = []) : strStartsWith p s = false := by
  rw [strStartsWith_false_iff]
  rintro ⟨t, ht⟩
  rw [hp, hs] at ht
  exact absurd ht (by simp)

/-! ## Round-trip law: region extraction -/

theorem takeWhile_not_next (a rest : List String)
    (ha : ∀ l ∈ a, isNextSectionLine l = false)
    (hrest : rest = [] ∨ ∃ hd t, rest = hd :: t ∧ isNextSectionLine hd = true) :
    (a ++ rest).takeWhile (fun l => !isNextSectionLine l) = a := by
  rw [takeWhile_append_all _ a rest (by intro x hx; simp [ha x hx])]
  rcases hrest with rfl | ⟨hd, t, rfl, hh⟩
  · simp
  · simp [List.takeWhile_cons, hh]

theorem chunks_head_hdr (bs : List (String × List String))
    (h : ∀ b ∈ bs, isNextSectionLine b.1 = true) :
    bs.flatMap blockChunk = [] ∨
      ∃ hd t, bs.flatMap blockChunk = hd :: t ∧ isNextSectionLine hd = true := by
  cases bs with
  | nil => left; rfl
  | cons b bs =>
    right
    refine ⟨b.1, (b.2 ++ [""]) ++ bs.flatMap blockChunk, ?_, h b (List.mem_cons_self _ _)⟩
    simp [blockChunk]

end Soul

/-! ## Round-trip law: frontmatter separator scan -/

theorem stripLead_cons_same (a : Char) (ps cs : List Char) :
    stripLead (a :: ps) (a :: cs) = stripLead ps cs := by
  simp [stripLead]

namespace Soul

theorem findFmSep_cons_fail (c : Char) (cs : List Char)
    (h : stripLead ['\n', '-', '-', '-', '\n'] (c :: cs) = none) :
    findFmSep (c :: cs) = (findFmSep cs).map (fun xb => (c :: xb.1, xb.2)) := by
  rw [findFmSep, h]
  cases hf : findFmSep cs <;> simp

theorem findFmSep_hit (cs : List Char) :
    findFmSep ('\n' :: '-' :: '-' :: '-' :: '\n' :: cs) = some ([], cs) := by
  have h := stripLead_append ['\n', '-', '-', '-', '\n'] cs
  simp only [List.cons_append, List.nil_append] at h
  rw [findFmSep, h]

theorem findFmSep_skip_line (a : List Char) (ha : '\n' ∉ a) (r : List Char) :
    findFmSep (a ++ r) = (findFmSep r).map (fun xb => (a ++ xb.1, xb.2)) := by
  induction a with
  | nil => cases hf : findFmSep r <;> simp [hf]
  | cons c cs ih =>
    have hc : c ≠ '\n' := fun e => ha (e ▸ List.mem_cons_self _ _)
    have hm : '\n' ∉ cs := fun m => ha (List.mem_cons_of_mem _ m)
    rw [List.cons_append, findFmSep_cons_fail c _ (stripLead_ne_first _ _ hc), ih hm]
    cases hf : findFmSep r <;> simp [hf]

theorem stripLead_dashes_fail (l : String) (r : List Char)
    (h1 : oneLine l) (h2 : l ≠ "---") :
    stripLead ['-', '-', '-', '\n'] (l.data ++ '\n' :: r) = none := by
  rcases hd : l.data with _ | ⟨a, _ | ⟨b, _ | ⟨c, tail⟩⟩⟩
  · simp [stripLead]
  · by_cases ha : a = '-' <;> simp [stripLead, ha]
  · by_cases ha : a = '-' <;> by_cases hb : b = '-' <;> simp [stripLead, ha, hb]
  · cases tail with
    | nil =>
      have hne : ¬(a = '-' ∧ b = '-' ∧ c = '-') := by
        rintro ⟨rfl, rfl, rfl⟩
        exact h2 (strext (by rw [hd]))
      by_cases ha : a = '-' <;> by_cases hb : b = '-' <;> by_cases hc : c = '-'
      · exact absurd ⟨ha, hb, hc⟩ hne
      · simp [stripLead, ha, hb, hc]
      · simp [stripLead, ha, hb, hc]
      · simp [stripLead, ha, hb, hc]
      · simp [stripLead, ha, hb, hc]
      · simp [stripLead, ha, hb, hc]
      · simp [stripLead, ha, hb, hc]
      · simp [stripLead, ha, hb, hc]
    | cons t ts =>
      have ht : t ≠ '\n' := by
        intro he
        exact h1 (by rw [hd, he]; simp)
      by_cases ha : a = '-' <;> by_cases hb : b = '-' <;> by_cases hc : c = '-' <;>
        simp [stripLead, ha, hb, hc, ht]

theorem findFmSep_lines :
    ∀ (ls : List String) (B : List Char),
    (∀ l ∈ ls, oneLine l ∧ l ≠ "---") →
    findFmSep ((joinLines ls).data ++ '\n' :: '-' :: '-' :: '-' :: '\n' :: B) =
      some ((joinLines ls).data, B) := by
  intro ls
  induction ls with
  | nil =>
    intro B _
    simpa [joinLines] using findFmSep_hit B
  | cons l ls ih =>
    intro B h
    obtain ⟨hol, hne⟩ := h l (List.mem_cons_self _ _)
    cases ls with
    | nil =>
      rw [show joinLines [l] = l from rfl,
        findFmSep_skip_line l.data hol _, findFmSep_hit B]
      simp
    | cons l2 ls2 =>
      have hdata : (joinLines (l :: l2 :: ls2)).data
          = l.data ++ '\n' :: (joinLines (l2 :: ls2)).data := by
        rw [joinLines_cons _ _ (by simp)]
        simp [str_data_append]
      rw [hdata, List.append_assoc, List.cons_append,
        findFmSep_skip_line l.data hol _]
      have hX : ∃ r2, (joinLines (l2 :: ls2)).data ++
          '\n' :: '-' :: '-' :: '-' :: '\n' :: B = l2.data ++ '\n' :: r2 := by
        cases ls2 with
        | nil => exact ⟨'-' :: '-' :: '-' :: '\n' :: B, by simp [joinLines]⟩
        | cons l3 ls3 =>
          refine ⟨(joinLines (l3 :: ls3)).data ++
            '\n' :: '-' :: '-' :: '-' :: '\n' :: B, ?_⟩

          rw [joinLines_cons _ _ (by simp)]
          simp [str_data_append]
      obtain ⟨r2, hr2⟩ := hX
      obtain ⟨hol2, hne2⟩ := h l2 (List.mem_cons_of_mem _ (List.mem_cons_self _ _))
      have hfail : stripLead ['\n', '-', '-', '-', '\n']
          ('\n' :: ((joinLines (l2 :: ls2)).data ++
            '\n' :: '-' :: '-' :: '-' :: '\n' :: B)) = none := by
        rw [stripLead_cons_same, hr2]
        exact stripLead_dashes_fail l2 r2 hol2 hne2
      rw [findFmSep_cons_fail _ _ hfail]
      rw [ih B (fun x hx => h x (List.mem_cons_of_mem _ hx))]
      rfl

/-! ## Round-trip law: frontmatter fields -/

end Soul

theorem flatMap_splitLines_ones (ls : List String) (h : ∀ l ∈ ls, oneLine l) :
    ls.flatMap splitLines = ls := by
  induction ls with
  | nil => rfl
  | cons l ls ih =>
    rw [List.flatMap_cons, splitLines_of_oneLine l (h l (List.mem_cons_self _ _)),
      ih (fun x hx => h x (List.mem_cons_of_mem _ hx))]
    rfl

theorem splitLines_joinLines_ones (ls : List String) (hne : ls ≠ [])
    (h : ∀ l ∈ ls, oneLine l) : splitLines (joinLines ls) = ls := by
  rw [splitLines_joinLines_flat ls hne, flatMap_splitLines_ones ls h]

namespace Soul

theorem fieldOfLine_hit (k v : String) :
    fieldOfLine k (k ++ ": " ++ v) = some (trimStr v) := by
  unfold fieldOfLine
  have hdata : (k ++ ": " ++ v).data = (k ++ ":").data ++ ' ' :: v.data := by
    simp [str_data_append]
  have hpre : strStartsWith (k ++ ":") (k ++ ": " ++ v) = true := by
    rw [strStartsWith, List.isPrefixOf_iff_prefix]
    exact ⟨' ' :: v.data, hdata.symm⟩
  rw [hpre]
  simp only [if_true]
  have hlen : (k ++ ":").data.length = k.length + 1 := by
    rw [str_data_append]
    show (k.data ++ [':']).length = k.data.length + 1
    simp
  have hdrop : strDrop (k ++ ": " ++ v) (k.length + 1) = ⟨' ' :: v.data⟩ := by
    unfold strDrop
    rw [hdata, ← hlen, List.drop_left]
  rw [hdrop]
  rw [if_neg (by
    intro hcon
    have := congrArg String.data hcon
    simp at this)]
  rw [trimStr_sp]

theorem fieldOfLine_miss (k k2 v : String)
    (h1 : ¬ (k ++ ":").data <+: (k2 ++ ": ").data)
    (h2 : ¬ (k2 ++ ": ").data <+: (k ++ ":").data) :
    fieldOfLine k (k2 ++ ": " ++ v) = none := by
  unfold fieldOfLine
  rw [if_neg]
  intro hsw
  rw [strStartsWith, List.isPrefixOf_iff_prefix] at hsw
  have hline : (k2 ++ ": ").data <+: (k2 ++ ": " ++ v).data := by
    refine ⟨v.data, ?_⟩
    simp [str_data_append]
  rcases List.prefix_or_prefix_of_prefix hsw hline with h | h
  · exact h1 h
  · exact h2 h

theorem getFieldLines_cons_miss (k l : String) (ls : List String)
    (h : fieldOfLine k l = none) :
    getFieldLines k (l :: ls) = getFieldLines k ls := by
  unfold getFieldLines
  rw [List.findSome?_cons, h]

theorem getFieldLines_cons_hit (k l : String) (ls : List String) (v : String)
    (h : fieldOfLine k l = some v) : getFieldLines k (l :: ls) = v := by
  unfold getFieldLines
  rw [List.findSome?_cons, h]

theorem getFieldLines_nil (k : String) : getFieldLines k [] = "" := rfl

end Soul

/-! ## Round-trip law: whole-document frontmatter split -/

theorem mk_data (s : String) : (⟨s.data⟩ : String) = s := by cases s; rfl

theorem stripLeadCI_refl_append (p r : List Char) : stripLeadCI p (p ++ r) = some r := by
  induction p with
  | nil => cases r <;> rfl
  | cons c cs ih => simp [stripLeadCI, ih]

namespace Soul

theorem containsFormatV1_cons_true (c : Char) (cs : List Char) (rest : List Char)
    (h1 : stripLeadCI "format:".data (c :: cs) = some rest)
    (h2 : (stripLeadCI "soul/v1".data (rest.dropWhile Char.isWhitespace)).isSome = true) :
    containsFormatV1 (c :: cs) = true := by
  rw [containsFormatV1, h1]
  dsimp only
  rw [h2]
  rfl

theorem containsFormatV1_fmt (r : List Char) :
    containsFormatV1 ("format: soul/v1".data ++ r) = true := by
  have h1 : stripLeadCI "format:".data ("format: soul/v1".data ++ r)
      = some (' ' :: ("soul/v1".data ++ r)) := by
    have := stripLeadCI_refl_append "format:".data (' ' :: ("soul/v1".data ++ r))
    exact this
  have h2 : ((' ' :: ("soul/v1".data ++ r)).dropWhile Char.isWhitespace)
      = "soul/v1".data ++ r := by
    rw [List.dropWhile_cons, if_pos (by decide)]
    show List.dropWhile Char.isWhitespace ('s' :: ("oul/v1".data ++ r)) =
      's' :: ("oul/v1".data ++ r)
    rw [List.dropWhile_cons, if_neg (by decide)]
  show containsFormatV1 ('f' :: ("ormat: soul/v1".data ++ r)) = true
  refine containsFormatV1_cons_true _ _ (' ' :: ("soul/v1".data ++ r)) h1 ?_
  rw [h2]
  have := stripLeadCI_refl_append "soul/v1".data r
  rw [this]
  rfl

theorem frontmatterSplit_writer (m : SoulModel)
    (hfm : ∀ l ∈ soulFmInner m, oneLine l ∧ l ≠ "---") :
    frontmatterSplit (writeSoulMd m) =
      some (joinLines (soulFmInner m),
        "\n" ++ joinSep "\n\n" (soulSectionStrings m) ++ "\n") := by
  have hinner : soulFmInner m ≠ [] := by
    unfold soulFmInner
    simp
  have hne2 : soulFmInner m ++ ["---"] ≠ [] := by
    intro hco
    have := congrArg List.length hco
    simp at this
  have h1 : writeSoulMd m =
      ("---" ++ "\n" ++ joinLines (soulFmInner m) ++ "\n" ++ "---") ++ "\n\n" ++
        joinSep "\n\n" (soulSectionStrings m) ++ "\n" := by
    rw [writeSoulMd, soulFrontmatterLines,
      joinLines_append_single ("---" :: soulFmInner m) "---" (by simp),
      joinLines_cons "---" (soulFmInner m) hinner]
  have hdoc : (writeSoulMd m).data =
      '-' :: '-' :: '-' :: '\n' ::
        ((joinLines (soulFmInner m)).data ++ '\n' :: '-' :: '-' :: '-' :: '\n' ::
          ('\n' :: ((joinSep "\n\n" (soulSectionStrings m)).data ++ ['\n']))) := by
    rw [h1]
    have hA : ("---" : String).data = ['-', '-', '-'] := rfl
    have hB : ("\n" : String).data = ['\n'] := rfl
    have hC : ("\n\n" : String).data = ['\n', '\n'] := rfl
    simp only [str_data_append, hA, hB, hC, List.append_assoc,
      List.cons_append, List.singleton_append, List.nil_append]
  unfold frontmatterSplit
  rw [hdoc]
  have hstrip : stripLead ['-', '-', '-', '\n']
      ('-' :: '-' :: '-' :: '\n' ::
        ((joinLines (soulFmInner m)).data ++ '\n' :: '-' :: '-' :: '-' :: '\n' ::
          ('\n' :: ((joinSep "\n\n" (soulSectionStrings m)).data ++ ['\n'])))) =
      some ((joinLines (soulFmInner m)).data ++ '\n' :: '-' :: '-' :: '-' :: '\n' ::
        ('\n' :: ((joinSep "\n\n" (soulSectionStrings m)).data ++ ['\n']))) := by
    rw [stripLead_cons_same, stripLead_cons_same, stripLead_cons_same,
      stripLead_cons_same, stripLead_nil_left]
  rw [hstrip]
  dsimp only
  rw [findFmSep_lines (soulFmInner m) _ hfm]
  dsimp only
  refine congrArg some (Prod.ext ?_ ?_)
  · exact mk_data _
  · apply strext
    show '\n' :: ((joinSep "\n\n" (soulSectionStrings m)).data ++ ['\n']) =
      ("\n" ++ joinSep "\n\n" (soulSectionStrings m) ++ "\n").data
    simp [str_data_append]

theorem getFieldLines_append_none (k : String) (A B : List String)
    (h : ∀ l ∈ A, fieldOfLine k l = none) :
    getFieldLines k (A ++ B) = getFieldLines k B := by
  induction A with
  | nil => rfl
  | cons l ls ih =>
    rw [List.cons_append,
      getFieldLines_cons_miss k l _ (h l (List.mem_cons_self _ _)),
      ih (fun x hx => h x (List.mem_cons_of_mem _ hx))]

end Soul

/-! ## Round-trip law: decimal renderings -/

theorem natToCharsAux_forall (P : Char → Prop) (hP : ∀ d, d < 10 → P (digitChar d)) :
    ∀ fuel n, ∀ c ∈ natToCharsAux fuel n, P c := by
  intro fuel
  induction fuel with
  | zero => intro n c hc; simp [natToCharsAux] at hc
  | succ f ih =>
    intro n c hc
    rw [natToCharsAux] at hc
    split at hc
    · next hn =>
      rw [List.mem_singleton] at hc
      exact hc ▸ hP n hn
    · next hn =>
      rcases List.mem_append.1 hc with h1 | h1
      · exact ih _ c h1
      · rw [List.mem_singleton] at h1
        exact h1 ▸ hP (n % 10) (Nat.mod_lt _ (by norm_num))

theorem natToChars_forall (P : Char → Prop) (hP : ∀ d, d < 10 → P (digitChar d))
    (n : ℕ) : ∀ c ∈ natToChars n, P c :=
  natToCharsAux_forall P hP (n + 1) n

theorem natToChars_digits (n : ℕ) : ∀ c ∈ natToChars n, c.isDigit = true :=
  natToChars_forall _ (by intro d hd; interval_cases d <;> decide) n

theorem natToChars_no_nl (n : ℕ) : ∀ c ∈ natToChars n, c ≠ '\n' :=
  natToChars_forall _ (by intro d hd; interval_cases d <;> decide) n

theorem natToChars_ne_nil (n : ℕ) : natToChars n ≠ [] := by
  unfold natToChars natToCharsAux
  split
  · simp
  · cases h : natToCharsAux n (n / 10) <;> simp

theorem oneLine_of_chars {cs : List Char} (h : ∀ c ∈ cs, c ≠ '\n') :
    oneLine ⟨cs⟩ := by
  intro hmem
  exact h '\n' hmem rfl

theorem intToChars_no_nl (z : ℤ) : ∀ c ∈ intToChars z, c ≠ '\n' := by
  intro c hc
  unfold intToChars at hc
  split at hc
  · rcases List.mem_cons.1 hc with h1 | h1
    · rw [h1]; decide
    · exact natToChars_no_nl _ c h1
  · exact natToChars_no_nl _ c hc

theorem natToCharsPad_no_nl (w n : ℕ) : ∀ c ∈ natToCharsPad w n, c ≠ '\n' := by
  intro c hc
  unfold natToCharsPad at hc
  rcases List.mem_append.1 hc with h1 | h1
  · rw [List.eq_of_mem_replicate h1]; decide
  · exact natToChars_no_nl _ c h1

theorem toFixedChars_no_nl (n : ℕ) (q : ℚ) : ∀ c ∈ toFixedChars n q, c ≠ '\n' := by
  intro c hc
  unfold toFixedChars at hc
  split at hc
  · rcases List.mem_append.1 hc with h1 | h1
    · split at h1
      · rw [List.mem_singleton.1 h1]; decide
      · simp at h1
    · exact natToChars_no_nl _ c h1
  · rcases List.mem_append.1 hc with h1 | h1
    · split at h1
      · rcases List.mem_append.1 h1 with h2 | h2
        · rw [List.mem_singleton.1 h2]; decide
        · exact natToChars_no_nl _ c h2
      · rw [List.nil_append] at h1
        exact natToChars_no_nl _ c h1
    · rcases List.mem_cons.1 h1 with h2 | h2
      · rw [h2]; decide
      · exact natToCharsPad_no_nl _ _ c h2

theorem oneLine_toFixedStr (n : ℕ) (q : ℚ) : oneLine (toFixedStr n q) :=
  oneLine_of_chars (toFixedChars_no_nl n q)

namespace Soul

theorem oneLine_jsNumRender (q : ℚ) : oneLine (jsNumRender q) := by
  unfold jsNumRender
  split
  · exact oneLine_of_chars (intToChars_no_nl q.num)
  · exact oneLine_toFixedStr 6 q

theorem jsonEscChar_no_nl (c : Char) : ∀ e ∈ jsonEscChar c, e ≠ '\n' := by
  intro e he
  unfold jsonEscChar at he
  split at he
  · next p hp =>
    rcases List.mem_cons.1 he with h1 | h1
    · rw [h1]; decide
    · have hmem := List.mem_of_find?_eq_some hp
      rw [List.mem_singleton.1 h1]
      fin_cases hmem <;> decide
  · next hp =>
    rw [List.mem_singleton.1 he]
    intro hcnl
    rw [hcnl] at hp
    exact absurd hp (by decide)

theorem jsonStr_no_nl (s : String) : ∀ c ∈ (jsonStr s).data, c ≠ '\n' := by
  intro c hc
  have hq : ("\"" : String).data = ['"'] := rfl
  unfold jsonStr at hc
  rw [str_data_append, str_data_append, hq] at hc
  rcases List.mem_append.1 hc with h1 | h1
  · rcases List.mem_append.1 h1 with h2 | h2
    · rw [List.mem_singleton.1 h2]; decide
    · rcases List.mem_flatMap.1 h2 with ⟨x, _, hx2⟩
      exact jsonEscChar_no_nl x c hx2
  · rw [List.mem_singleton.1 h1]; decide

theorem joinSep_no_nl (sep : String) (hsep : ∀ c ∈ sep.data, c ≠ '\n') :
    ∀ (parts : List String), (∀ p ∈ parts, ∀ c ∈ p.data, c ≠ '\n') →
      ∀ c ∈ (joinSep sep parts).data, c ≠ '\n' := by
  intro parts
  induction parts with
  | nil => intro _ c hc; simp [joinSep] at hc
  | cons p ps ih =>
    intro h c hc
    cases ps with
    | nil => exact h p (List.mem_cons_self _ _) c hc
    | cons p2 ps2 =>
      rw [show joinSep sep (p :: p2 :: ps2) = p ++ sep ++ joinSep sep (p2 :: ps2)
          from rfl] at hc
      rw [str_data_append, str_data_append] at hc
      rcases List.mem_append.1 hc with h1 | h1
      · rcases List.mem_append.1 h1 with h2 | h2
        · exact h p (List.mem_cons_self _ _) c h2
        · exact hsep c h2
      · exact ih (fun x hx => h x (List.mem_cons_of_mem _ hx)) c h1

theorem jsonStringifyPairs_no_nl (l : List (String × String)) :
    ∀ c ∈ (jsonStringifyPairs l).data, c ≠ '\n' := by
  intro c hc
  have hob : ("\x7b" : String).data = ['\x7b'] := rfl
  have hcb : ("\x7d" : String).data = ['\x7d'] := rfl
  unfold jsonStringifyPairs at hc
  rw [str_data_append, str_data_append, hob, hcb] at hc
  rcases List.mem_append.1 hc with h1 | h1
  · rcases List.mem_append.1 h1 with h2 | h2
    · rw [List.mem_singleton.1 h2]; decide
    · refine joinSep_no_nl "," (by decide) _ ?_ c h2
      intro p hp d hd
      rcases List.mem_map.1 hp with ⟨kv, _, hkv⟩
      rw [← hkv] at hd
      rw [str_data_append, str_data_append] at hd
      rcases List.mem_append.1 hd with h3 | h3
      · rcases List.mem_append.1 h3 with h4 | h4
        · exact jsonStr_no_nl _ d h4
        · have hco : (":" : String).data = [':'] := rfl
          rw [hco] at h4
          rw [List.mem_singleton.1 h4]
          decide
      · exact jsonStr_no_nl _ d h3
  · rw [List.mem_singleton.1 h1]; decide

theorem oneLine_jsonStringifyPairs (l : List (String × String)) :
    oneLine (jsonStringifyPairs l) := by
  intro hmem
  exact jsonStringifyPairs_no_nl l '\n' hmem rfl

end Soul

/-! ## Round-trip law: decimal values -/

theorem digitVal_digitChar (d : ℕ) (h : d < 10) : digitVal (digitChar d) = d := by
  interval_cases d <;> decide

theorem digitsVal_append_digit (ds : List Char) (c : Char) :
    digitsVal (ds ++ [c]) = digitsVal ds * 10 + digitVal c := by
  unfold digitsVal
  rw [List.foldl_append]
  rfl

theorem digitsVal_natToCharsAux :
    ∀ fuel n, n < fuel → digitsVal (natToCharsAux fuel n) = n := by
  intro fuel
  induction fuel with
  | zero => intro n h; omega
  | succ f ih =>
    intro n h
    rw [natToCharsAux]
    split
    · next hn =>
      show digitsVal [digitChar n] = n
      unfold digitsVal
      simp [digitVal_digitChar n hn]
    · next hn =>
      push_neg at hn
      rw [digitsVal_append_digit]
      have hdiv : n / 10 < n := Nat.div_lt_self (by omega) (by omega)
      rw [ih (n / 10) (by omega)]
      rw [digitVal_digitChar (n % 10) (Nat.mod_lt _ (by omega))]
      omega

theorem digitsVal_natToChars (n : ℕ) : digitsVal (natToChars n) = n :=
  digitsVal_natToCharsAux (n + 1) n (by omega)

theorem digitsVal_replicate_zero (z : ℕ) (ds : List Char) :
    digitsVal (List.replicate z '0' ++ ds) = digitsVal ds := by
  induction z with
  | zero => rfl
  | succ z ih =>
    rw [List.replicate_succ, List.cons_append]
    show List.foldl (fun a c => a * 10 + digitVal c) (0 * 10 + digitVal '0')
      (List.replicate z '0' ++ ds) = digitsVal ds
    have : 0 * 10 + digitVal '0' = 0 := by decide
    rw [this]
    exact ih

theorem natToCharsAux_length_le :
    ∀ fuel n k, n < fuel → n < 10 ^ k → 1 ≤ k →
      (natToCharsAux fuel n).length ≤ k := by
  intro fuel
  induction fuel with
  | zero => intro n k h; omega
  | succ f ih =>
    intro n k h hk h1
    rw [natToCharsAux]
    split
    · next hn => simpa using h1
    · next hn =>
      push_neg at hn
      rw [List.length_append]
      have hk2 : 2 ≤ k := by
        by_contra hcon
        push_neg at hcon
        interval_cases k
        omega
      have hdiv : n / 10 < f := by
        have := Nat.div_lt_self (show 0 < n by omega) (show 1 < 10 by omega)
        omega
      have hpow : n / 10 < 10 ^ (k - 1) := by
        rw [Nat.div_lt_iff_lt_mul (by omega)]
        have : 10 ^ (k - 1) * 10 = 10 ^ k := by
          rw [← pow_succ]
          congr 1
          omega
        omega
      have := ih (n / 10) (k - 1) hdiv hpow (by omega)
      simp only [List.length_singleton]
      omega

theorem natToChars_length_le (n k : ℕ) (h : n < 10 ^ k) (hk : 1 ≤ k) :
    (natToChars n).length ≤ k :=
  natToCharsAux_length_le (n + 1) n k (by omega) h hk

theorem natToChars_not_ws (n : ℕ) : ∀ c ∈ natToChars n, c.isWhitespace = false :=
  natToChars_forall _ (by intro d hd; interval_cases d <;> decide) n

theorem natToChars_ne_dash (n : ℕ) : ∀ c ∈ natToChars n, c ≠ '-' ∧ c ≠ '+' :=
  natToChars_forall _ (by intro d hd; interval_cases d <;> decide) n

theorem dropWhile_all_nil {α : Type} (p : α → Bool) (l : List α)
    (h : ∀ x ∈ l, p x = true) : l.dropWhile p = [] := by
  induction l with
  | nil => rfl
  | cons x xs ih =>
    rw [List.dropWhile_cons, if_pos (h x (List.mem_cons_self _ _))]
    exact ih (fun y hy => h y (List.mem_cons_of_mem _ hy))

theorem parseFloatChars_int (c : Char) (cs : List Char)
    (hws : c.isWhitespace = false) (hc1 : c ≠ '-') (hc2 : c ≠ '+')
    (hdig : ∀ x ∈ c :: cs, x.isDigit = true) :
    parseFloatChars (c :: cs) = some (mkRat (digitsVal (c :: cs)) 1) := by
  have hdw : (c :: cs).dropWhile Char.isWhitespace = c :: cs := by
    rw [List.dropWhile_cons, if_neg (by simp [hws])]
  have hsigned : (match c :: cs with
      | '-' :: r => ((-1 : ℤ), r)
      | '+' :: r => ((1 : ℤ), r)
      | r => ((1 : ℤ), r)) = ((1 : ℤ), c :: cs) := by
    split
    · next r heq => exact absurd (by simpa using congrArg List.head? heq) hc1
    · next r heq => exact absurd (by simpa using congrArg List.head? heq) hc2
    · rfl
  unfold parseFloatChars
  rw [hdw]
  dsimp only
  rw [hsigned]
  dsimp only
  rw [takeWhile_all _ _ hdig, dropWhile_all_nil _ _ hdig]
  dsimp only
  rw [if_neg (by simp)]
  congr 1
  simp [digitsVal]

theorem dropWhile_append_all {α : Type} (p : α → Bool) (a b : List α)
    (h : ∀ x ∈ a, p x = true) :
    (a ++ b).dropWhile p = b.dropWhile p := by
  induction a with
  | nil => rfl
  | cons x xs ih =>
    rw [List.cons_append, List.dropWhile_cons, if_pos (h x (List.mem_cons_self _ _))]
    exact ih (fun y hy => h y (List.mem_cons_of_mem _ hy))

theorem parseFloatChars_frac (c : Char) (cs b : List Char)
    (hws : c.isWhitespace = false) (hc1 : c ≠ '-') (hc2 : c ≠ '+')
    (hadig : ∀ x ∈ c :: cs, x.isDigit = true)
    (hbdig : ∀ x ∈ b, x.isDigit = true) :
    parseFloatChars ((c :: cs) ++ '.' :: b) =
      some (mkRat (digitsVal (c :: cs) * 10 ^ b.length + digitsVal b)
        (10 ^ b.length)) := by
  have hcs : ∀ x ∈ cs, x.isDigit = true :=
    fun x hx => hadig x (List.mem_cons_of_mem _ hx)
  have hip : (c :: (cs ++ '.' :: b)).takeWhile Char.isDigit = c :: cs := by
    rw [List.takeWhile_cons, if_pos (hadig c (List.mem_cons_self _ _)),
      takeWhile_append_all _ cs _ hcs, List.takeWhile_cons, if_neg (by decide)]
    simp
  have hrest : (c :: (cs ++ '.' :: b)).dropWhile Char.isDigit = '.' :: b := by
    rw [List.dropWhile_cons, if_pos (hadig c (List.mem_cons_self _ _)),
      dropWhile_append_all _ cs _ hcs, List.dropWhile_cons, if_neg (by decide)]
  have hdw : (c :: (cs ++ '.' :: b)).dropWhile Char.isWhitespace
      = c :: (cs ++ '.' :: b) := by
    rw [List.dropWhile_cons, if_neg (by simp [hws])]
  have hsigned : (match c :: (cs ++ '.' :: b) with
      | '-' :: r => ((-1 : ℤ), r)
      | '+' :: r => ((1 : ℤ), r)
      | r => ((1 : ℤ), r)) = ((1 : ℤ), c :: (cs ++ '.' :: b)) := by
    split
    · next r heq => exact absurd (by simpa using congrArg List.head? heq) hc1
    · next r heq => exact absurd (by simpa using congrArg List.head? heq) hc2
    · rfl
  unfold parseFloatChars
  rw [List.cons_append, hdw]
  dsimp only
  rw [hsigned]
  dsimp only
  rw [hip, hrest]
  have hfp : (match '.' :: b with
      | '.' :: r => List.takeWhile Char.isDigit r
      | _ => []) = List.takeWhile Char.isDigit b := rfl
  rw [hfp, takeWhile_all _ b hbdig]
  rw [if_neg (by simp)]
  congr 1
  simp

/-! ## Round-trip law: rendered numbers parse back -/

namespace Soul

theorem jsParseFloat_natToChars (n : ℕ) :
    parseFloatChars (natToChars n) = some ((n : ℚ)) := by
  obtain ⟨c, cs, hcons⟩ := List.exists_cons_of_ne_nil (natToChars_ne_nil n)
  have hmem : ∀ x ∈ c :: cs, x ∈ natToChars n := fun x hx => hcons ▸ hx
  rw [hcons]
  rw [parseFloatChars_int c cs
    (natToChars_not_ws n c (hmem c (List.mem_cons_self _ _)))
    ((natToChars_ne_dash n c (hmem c (List.mem_cons_self _ _))).1)
    ((natToChars_ne_dash n c (hmem c (List.mem_cons_self _ _))).2)
    (fun x hx => natToChars_digits n x (hmem x hx))]
  rw [← hcons, digitsVal_natToChars]
  congr 1
  have h1 : ((n : ℚ)).num = (n : ℤ) := by simp
  have h2 : ((n : ℚ)).den = 1 := by simp
  calc mkRat (n : ℤ) 1 = mkRat ((n : ℚ)).num ((n : ℚ)).den := by rw [h1, h2]
    _ = ((n : ℚ)) := Rat.mkRat_self _

theorem jsNumRender_roundtrip (q : ℚ) (hden : q.den = 1) (hnum : 0 ≤ q.num) :
    jsParseFloat (jsNumRender q) = some q := by
  unfold jsNumRender
  rw [if_pos hden]
  have hint : intToChars q.num = natToChars q.num.natAbs := by
    unfold intToChars
    rw [if_neg (by omega)]
  show parseFloatChars (intToChars q.num) = some q
  rw [hint, jsParseFloat_natToChars]
  congr 1
  have hcast : ((q.num.natAbs : ℕ) : ℚ) = ((q.num : ℤ) : ℚ) := by
    have h1 : ((q.num.natAbs : ℕ) : ℚ) = (((q.num.natAbs : ℕ) : ℤ) : ℚ) :=
      (Int.cast_natCast _).symm
    rw [h1, Int.natAbs_of_nonneg hnum]
  have hq : ((q.num : ℤ) : ℚ) = q := by
    have h := Rat.num_div_den q
    rw [hden] at h
    simpa using h
  rw [hcast, hq]

theorem jsRoundScaled_exact (q : ℚ) (p : ℕ) (k : ℕ) (hk : 10 ^ p = q.den * k)
    (hnum : 0 ≤ q.num) :
    jsRoundScaled q p = q.num * (k : ℤ) := by
  have hdpos : (0 : ℤ) < (q.den : ℤ) := by exact_mod_cast q.den_pos
  unfold jsRoundScaled
  have hn : (0 : ℤ) ≤ q.num * (10 : ℤ) ^ p :=
    mul_nonneg hnum (by positivity)
  rw [if_pos hn]
  have hpow : ((10 : ℤ) ^ p) = (q.den : ℤ) * (k : ℤ) := by
    exact_mod_cast congrArg (fun n : ℕ => (n : ℤ)) hk
  have harg : 2 * (q.num * (10 : ℤ) ^ p) + (q.den : ℤ)
      = (q.den : ℤ) * (2 * (q.num * k) + 1) := by
    rw [hpow]; ring
  have hden2 : 2 * (q.den : ℤ) = (q.den : ℤ) * 2 := by ring
  rw [harg, hden2, Int.mul_ediv_mul_of_pos _ _ hdpos]
  omega

theorem toFixed4_roundtrip (q : ℚ) (hden : q.den ∣ 10 ^ 4) (hnum : 0 ≤ q.num) :
    jsParseFloat (toFixedStr 4 q) = some q := by
  obtain ⟨k, hk⟩ := hden
  have hk0 : k ≠ 0 := by
    intro h0
    rw [h0, Nat.mul_zero] at hk
    norm_num at hk
  have hM := jsRoundScaled_exact q 4 k hk hnum
  have hMnn : 0 ≤ jsRoundScaled q 4 := by
    rw [hM]
    positivity
  have hchars : toFixedChars 4 q =
      natToChars ((jsRoundScaled q 4).natAbs / 10 ^ 4) ++
        '.' :: natToCharsPad 4 ((jsRoundScaled q 4).natAbs % 10 ^ 4) := by
    unfold toFixedChars
    rw [if_neg (by norm_num)]
    rw [if_neg (by omega)]
    rw [List.nil_append]
  obtain ⟨c, cs, hcons⟩ := List.exists_cons_of_ne_nil
    (natToChars_ne_nil ((jsRoundScaled q 4).natAbs / 10 ^ 4))
  have hmem : ∀ x ∈ c :: cs,
      x ∈ natToChars ((jsRoundScaled q 4).natAbs / 10 ^ 4) := fun x hx => hcons ▸ hx
  have hpaddig : ∀ x ∈ natToCharsPad 4 ((jsRoundScaled q 4).natAbs % 10 ^ 4),
      x.isDigit = true := by
    intro x hx
    unfold natToCharsPad at hx
    rcases List.mem_append.1 hx with h1 | h1
    · rw [List.eq_of_mem_replicate h1]; decide
    · exact natToChars_digits _ x h1
  have hpadlen : (natToCharsPad 4 ((jsRoundScaled q 4).natAbs % 10 ^ 4)).length = 4 := by
    unfold natToCharsPad
    rw [List.length_append, List.length_replicate]
    have hlt : (jsRoundScaled q 4).natAbs % 10 ^ 4 < 10 ^ 4 :=
      Nat.mod_lt _ (by norm_num)
    have := natToChars_length_le ((jsRoundScaled q 4).natAbs % 10 ^ 4) 4 hlt (by norm_num)
    omega
  have hpadval : digitsVal (natToCharsPad 4 ((jsRoundScaled q 4).natAbs % 10 ^ 4))
      = (jsRoundScaled q 4).natAbs % 10 ^ 4 := by
    unfold natToCharsPad
    rw [digitsVal_replicate_zero, digitsVal_natToChars]
  show parseFloatChars (toFixedChars 4 q) = some q
  rw [hchars, hcons]
  rw [parseFloatChars_frac c cs _
    (natToChars_not_ws _ c (hmem c (List.mem_cons_self _ _)))
    ((natToChars_ne_dash _ c (hmem c (List.mem_cons_self _ _))).1)
    ((natToChars_ne_dash _ c (hmem c (List.mem_cons_self _ _))).2)
    (fun x hx => natToChars_digits _ x (hmem x hx))
    hpaddig]
  rw [← hcons, digitsVal_natToChars, hpadlen, hpadval]
  congr 1
  have hsplit : ((((jsRoundScaled q 4).natAbs / 10 ^ 4 : ℕ) : ℤ) * 10 ^ 4 +
      (((jsRoundScaled q 4).natAbs % 10 ^ 4 : ℕ) : ℤ))
      = (((jsRoundScaled q 4).natAbs : ℕ) : ℤ) := by
    push_cast
    omega
  rw [hsplit]
  have hcast : (((jsRoundScaled q 4).natAbs : ℕ) : ℤ) = q.num * (k : ℤ) := by
    rw [Int.natAbs_of_nonneg hMnn, hM]
  rw [hcast]
  have h104 : (10 ^ 4 : ℕ) = q.den * k := hk
  rw [h104]
  have := Rat.mkRat_mul_right (n := q.num) (d := q.den) hk0
  rw [this, Rat.mkRat_self]

end Soul

/-! ## Round-trip law: JSON serialization round-trips -/

namespace Soul

theorem parseJsonStrBody_esc (c : Char) (rest : List Char) :
    parseJsonStrBody (jsonEscChar c ++ rest) =
      (parseJsonStrBody rest).map (fun pr => (c :: pr.1, pr.2)) := by
  unfold jsonEscChar
  cases hfind : jsonEscTable.find? (fun p => p.1 = c) with
  | some p =>
    have hmem := List.mem_of_find?_eq_some hfind
    have hpc : p.1 = c := by
      have h := List.find?_some hfind
      simpa using h
    fin_cases hmem <;> simp only at hpc <;> subst hpc <;>
      first
        | (show parseJsonStrBody ('\\' :: '"' :: rest) = _
           rw [parseJsonStrBody]
           rw [show jsonEscTable.find? (fun p => p.2 = '"') = some ('"', '"') from rfl]
           cases parseJsonStrBody rest <;> rfl)
        | (show parseJsonStrBody ('\\' :: '\\' :: rest) = _
           rw [parseJsonStrBody]
           rw [show jsonEscTable.find? (fun p => p.2 = '\\') = some ('\\', '\\') from rfl]
           cases parseJsonStrBody rest <;> rfl)
        | (show parseJsonStrBody ('\\' :: 'n' :: rest) = _
           rw [parseJsonStrBody]
           rw [show jsonEscTable.find? (fun p => p.2 = 'n') = some ('\n', 'n') from rfl]
           cases parseJsonStrBody rest <;> rfl)
        | (show parseJsonStrBody ('\\' :: 'r' :: rest) = _
           rw [parseJsonStrBody]
           rw [show jsonEscTable.find? (fun p => p.2 = 'r') = some ('\r', 'r') from rfl]
           cases parseJsonStrBody rest <;> rfl)
        | (show parseJsonStrBody ('\\' :: 't' :: rest) = _
           rw [parseJsonStrBody]
           rw [show jsonEscTable.find? (fun p => p.2 = 't') = some ('\t', 't') from rfl]
           cases parseJsonStrBody rest <;> rfl)
  | none =>
    have hc1 : c ≠ '"' := by
      intro h
      rw [h] at hfind
      exact absurd hfind (by decide)
    have hc2 : c ≠ '\\' := by
      intro h
      rw [h] at hfind
      exact absurd hfind (by decide)
    show parseJsonStrBody (c :: rest) = _
    rw [parseJsonStrBody.eq_def]
    split <;> rename_i heq <;>
      first
        | exact absurd (by simpa using congrArg List.head? heq) hc1
        | exact absurd (by simpa using congrArg List.head? heq) hc2
        | (injection heq with h4 h5
           rw [← h4, ← h5])

theorem parseJsonStrBody_flat (s : List Char) (rest : List Char) :
    parseJsonStrBody (s.flatMap jsonEscChar ++ '"' :: rest) = some (s, rest) := by
  induction s with
  | nil => rfl
  | cons c cs ih =>
    rw [List.flatMap_cons, List.append_assoc, parseJsonStrBody_esc, ih]
    rfl

theorem jsonStr_data (s : String) :
    (jsonStr s).data = '"' :: (s.data.flatMap jsonEscChar ++ ['"']) := by
  unfold jsonStr
  have hq : ("\"" : String).data = ['"'] := rfl
  rw [str_data_append, str_data_append, hq]
  simp

theorem pair_data (k v : String) :
    (jsonStr k ++ ":" ++ jsonStr v).data =
      '"' :: (k.data.flatMap jsonEscChar ++ '"' ::
        (':' :: ('"' :: (v.data.flatMap jsonEscChar ++ ['"'])))) := by
  have hco : (":" : String).data = [':'] := rfl
  rw [str_data_append, str_data_append, hco, jsonStr_data, jsonStr_data]
  simp

theorem parseJsonPairs_writer :
    ∀ (l : List (String × String)) (fuel : ℕ), l.length ≤ fuel → l ≠ [] →
      parseJsonPairs fuel
        ((joinSep ","
          (l.map (fun kv => jsonStr kv.1 ++ ":" ++ jsonStr kv.2))).data ++ ['\x7d'])
        = some l := by
  intro l
  induction l with
  | nil => intro fuel _ h; exact absurd rfl h
  | cons kv tl ih =>
    intro fuel hfuel _
    cases fuel with
    | zero => simp at hfuel
    | succ f =>
      cases htl : tl with
      | nil =>
        subst htl
        rw [show joinSep ","
            ((kv :: []).map (fun kv => jsonStr kv.1 ++ ":" ++ jsonStr kv.2))
            = jsonStr kv.1 ++ ":" ++ jsonStr kv.2 from rfl]
        rw [pair_data]
        rw [show ('"' :: (kv.1.data.flatMap jsonEscChar ++ '"' ::
            (':' :: ('"' :: (kv.2.data.flatMap jsonEscChar ++ ['"']))))) ++ ['\x7d']
            = '"' :: (kv.1.data.flatMap jsonEscChar ++ '"' ::
            (':' :: ('"' :: (kv.2.data.flatMap jsonEscChar ++ ('"' :: ['\x7d'])))))
          from by simp]
        rw [parseJsonPairs]
        rw [show kv.1.data.flatMap jsonEscChar ++ '"' ::
            (':' :: ('"' :: (kv.2.data.flatMap jsonEscChar ++ ('"' :: ['\x7d']))))
            = kv.1.data.flatMap jsonEscChar ++ '"' ::
            (':' :: ('"' :: (kv.2.data.flatMap jsonEscChar ++ ('"' :: ['\x7d']))))
          from rfl]
        rw [parseJsonStrBody_flat]
        simp only [Option.bind_eq_bind, Option.some_bind]
        rw [stripLead_cons_same, stripLead_nil_left]
        simp only [Option.bind_eq_bind, Option.some_bind]
        rw [stripLead_cons_same, stripLead_nil_left]
        simp only [Option.bind_eq_bind, Option.some_bind]
        rw [parseJsonStrBody_flat]
        simp only [Option.bind_eq_bind, Option.some_bind]
        rw [mk_data, mk_data]
        rfl
      | cons t ts =>
        rw [← htl]
        have htlne : tl ≠ [] := by rw [htl]; simp
        rw [show joinSep ","
            ((kv :: tl).map (fun kv2 => jsonStr kv2.1 ++ ":" ++ jsonStr kv2.2))
            = (jsonStr kv.1 ++ ":" ++ jsonStr kv.2) ++ "," ++ joinSep ","
                (tl.map (fun kv2 => jsonStr kv2.1 ++ ":" ++ jsonStr kv2.2)) from ?_]
        · rw [str_data_append, str_data_append, pair_data]
          rw [show (("," : String).data) = [','] from rfl]
          rw [show ((('"' :: (kv.1.data.flatMap jsonEscChar ++ '"' ::
              (':' :: ('"' :: (kv.2.data.flatMap jsonEscChar ++ ['"']))))) ++ [','] ++
              (joinSep "," (tl.map (fun kv2 =>
                jsonStr kv2.1 ++ ":" ++ jsonStr kv2.2))).data) ++ ['\x7d'])
              = '"' :: (kv.1.data.flatMap jsonEscChar ++ '"' ::
              (':' :: ('"' :: (kv.2.data.flatMap jsonEscChar ++ ('"' ::
                (',' :: ((joinSep "," (tl.map (fun kv2 =>
                  jsonStr kv2.1 ++ ":" ++ jsonStr kv2.2))).data ++ ['\x7d'])))))))
            from by simp]
          rw [parseJsonPairs]
          rw [parseJsonStrBody_flat]
          simp only [Option.bind_eq_bind, Option.some_bind]
          rw [stripLead_cons_same, stripLead_nil_left]
          simp only [Option.bind_eq_bind, Option.some_bind]
          rw [stripLead_cons_same, stripLead_nil_left]
          simp only [Option.bind_eq_bind, Option.some_bind]
          rw [parseJsonStrBody_flat]
          simp only [Option.bind_eq_bind, Option.some_bind]
          rw [ih f (by simp at hfuel ⊢; omega) htlne]
          simp only [Option.bind_eq_bind, Option.some_bind]
          rw [mk_data, mk_data]
          rfl
        · cases tl with
          | nil => exact absurd rfl htlne
          | cons x xs => rfl

theorem jsonParseStrMap_writer (l : List (String × String)) (hne : l ≠ []) :
    jsonParseStrMap (jsonStringifyPairs l) = some l := by
  have hlen : ∀ (m : List (String × String)),
      m.length ≤ (joinSep ","
        (m.map (fun kv => jsonStr kv.1 ++ ":" ++ jsonStr kv.2))).data.length + 1 := by
    intro m
    induction m with
    | nil => simp
    | cons kv tl ihm =>
      cases tl with
      | nil => simp
      | cons t ts =>
        rw [show joinSep ","
            ((kv :: t :: ts).map (fun kv2 => jsonStr kv2.1 ++ ":" ++ jsonStr kv2.2))
            = (jsonStr kv.1 ++ ":" ++ jsonStr kv.2) ++ "," ++ joinSep ","
                ((t :: ts).map (fun kv2 => jsonStr kv2.1 ++ ":" ++ jsonStr kv2.2))
          from rfl]
        rw [str_data_append, str_data_append]
        simp only [List.length_append, List.length_cons]
        simp only [List.length_cons] at ihm
        omega
  unfold jsonParseStrMap jsonStringifyPairs
  have hob : ("\x7b" : String).data = ['\x7b'] := rfl
  have hcb : ("\x7d" : String).data = ['\x7d'] := rfl
  rw [str_data_append, str_data_append, hob, hcb]
  rw [show ['\x7b'] ++ (joinSep "," (l.map (fun kv =>
      jsonStr kv.1 ++ ":" ++ jsonStr kv.2))).data ++ ['\x7d']
      = '\x7b' :: ((joinSep "," (l.map (fun kv =>
        jsonStr kv.1 ++ ":" ++ jsonStr kv.2))).data ++ ['\x7d']) from by simp]
  show parseJsonPairs _ _ = some l
  rw [parseJsonPairs_writer l _ (by
    rw [List.length_append]
    have := hlen l
    simp only [List.length_singleton]
    omega) hne]

end Soul

/-! ## Round-trip law: HTML comment scanning -/

namespace Soul

theorem commentValueAt_not_lt (lbl : List Char) (c : Char) (cs : List Char)
    (hc : c ≠ '<') : commentValueAt lbl (c :: cs) = none := by
  unfold commentValueAt
  rw [stripLead_ne_first _ _ hc]
  rfl

theorem findCommentValue_cons_fail (lbl : String) (c : Char) (cs : List Char)
    (h : commentValueAt lbl.data (c :: cs) = none) :
    findCommentValue lbl (c :: cs) = findCommentValue lbl cs := by
  rw [findCommentValue, h]

theorem findCommentValue_cons_hit (lbl : String) (c : Char) (cs : List Char)
    (v : String) (h : commentValueAt lbl.data (c :: cs) = some v) :
    findCommentValue lbl (c :: cs) = some v := by
  rw [findCommentValue, h]

theorem findCommentValue_none (lbl : String) :
    ∀ (cs : List Char), '<' ∉ cs → findCommentValue lbl cs = none := by
  intro cs
  induction cs with
  | nil => intro _; rfl
  | cons c cs ih =>
    intro h
    have hc : c ≠ '<' := fun e => h (e ▸ List.mem_cons_self _ _)
    rw [findCommentValue_cons_fail lbl c cs (commentValueAt_not_lt _ c cs hc)]
    exact ih (fun m => h (List.mem_cons_of_mem _ m))

theorem findCommentValue_append_no_lt (lbl : String) (a : List Char)
    (ha : '<' ∉ a) (b : List Char) :
    findCommentValue lbl (a ++ b) = findCommentValue lbl b := by
  induction a with
  | nil => rfl
  | cons c cs ih =>
    have hc : c ≠ '<' := fun e => ha (e ▸ List.mem_cons_self _ _)
    rw [List.cons_append,
      findCommentValue_cons_fail lbl c _ (commentValueAt_not_lt _ c _ hc)]
    exact ih (fun m => ha (List.mem_cons_of_mem _ m))

theorem stripLead_open_comment (rest : List Char) :
    stripLead ['<', '!', '-', '-'] ('<' :: '!' :: '-' :: '-' :: rest) = some rest := by
  rw [stripLead_cons_same, stripLead_cons_same, stripLead_cons_same,
    stripLead_cons_same, stripLead_nil_left]

theorem commentValueAt_label_fail (lbl : List Char) (c : Char) (tail : List Char)
    (hcws : c.isWhitespace = false)
    (hfail : stripLead lbl (c :: tail) = none) :
    commentValueAt lbl ('<' :: '!' :: '-' :: '-' :: ' ' :: (c :: tail)) = none := by
  unfold commentValueAt
  rw [stripLead_open_comment]
  simp only [Option.bind_eq_bind, Option.some_bind]
  rw [List.dropWhile_cons, if_pos (by decide), List.dropWhile_cons, if_neg (by simp [hcws])]
  rw [hfail]
  rfl

theorem splitAtSub_dashes (a : List Char) (ha : '>' ∉ a) (b : List Char) :
    splitAtSub ['-', '-', '>'] (a ++ '-' :: '-' :: '>' :: b) = some (a, b) := by
  induction a with
  | nil =>
    rw [List.nil_append, splitAtSub]
    rw [show stripLead ['-', '-', '>'] ('-' :: '-' :: '>' :: b) = some b from by
      rw [stripLead_cons_same, stripLead_cons_same, stripLead_cons_same,
        stripLead_nil_left]]
  | cons c cs ih =>
    have hmem : '>' ∉ cs := fun m => ha (List.mem_cons_of_mem _ m)
    have hfail : stripLead ['-', '-', '>'] (c :: (cs ++ '-' :: '-' :: '>' :: b))
        = none := by
      rcases cs with _ | ⟨x, _ | ⟨y, cs2⟩⟩
      · by_cases hc : c = '-' <;> simp [stripLead, hc]
      · by_cases hc : c = '-' <;> by_cases hx : x = '-' <;> simp [stripLead, hc, hx]
      · have hy : y ≠ '>' := fun e =>
          hmem (e ▸ List.mem_cons_of_mem _ (List.mem_cons_self _ _))
        by_cases hc : c = '-' <;> by_cases hx : x = '-' <;>
          simp [stripLead, hc, hx, hy]
    rw [List.cons_append, splitAtSub, hfail, ih hmem]

theorem commentValueAt_hit (lbl : List Char) (lc : Char) (lrest : List Char)
    (hlbl : lbl = lc :: lrest) (hlcws : lc.isWhitespace = false)
    (d : String) (rest : List Char)
    (hd1 : d ≠ "") (hd2 : trimStr d = d) (hd3 : '>' ∉ d.data)
    (hnl : oneLine d) :
    commentValueAt lbl
      ('<' :: '!' :: '-' :: '-' :: ' ' ::
        (lbl ++ (' ' :: (d.data ++ (' ' :: '-' :: '-' :: '>' :: rest)))))
      = some d := by
  obtain ⟨dc, dcs, hdcons⟩ : ∃ dc dcs, d.data = dc :: dcs := by
    cases hd : d.data with
    | nil => exact absurd (strext hd) hd1
    | cons x xs => exact ⟨x, xs, rfl⟩
  have hdws : dc.isWhitespace = false := trimmed_head hd2 dc (by rw [hdcons]; rfl)
  unfold commentValueAt
  rw [stripLead_open_comment]
  simp only [Option.bind_eq_bind, Option.some_bind]
  rw [List.dropWhile_cons, if_pos (by decide)]
  have hskip : List.dropWhile Char.isWhitespace
      (lbl ++ (' ' :: (d.data ++ (' ' :: '-' :: '-' :: '>' :: rest))))
      = lbl ++ (' ' :: (d.data ++ (' ' :: '-' :: '-' :: '>' :: rest))) := by
    rw [hlbl, List.cons_append, List.dropWhile_cons, if_neg (by simp [hlcws])]
  rw [hskip, stripLead_append]
  simp only [Option.bind_eq_bind, Option.some_bind]
  rw [List.dropWhile_cons, if_pos (by decide)]
  have hdskip : List.dropWhile Char.isWhitespace
      (d.data ++ (' ' :: '-' :: '-' :: '>' :: rest))
      = d.data ++ (' ' :: '-' :: '-' :: '>' :: rest) := by
    rw [hdcons, List.cons_append, List.dropWhile_cons, if_neg (by simp [hdws])]
  rw [hdskip]
  have hshape : d.data ++ (' ' :: '-' :: '-' :: '>' :: rest)
      = (d.data ++ [' ']) ++ ('-' :: '-' :: '>' :: rest) := by simp
  rw [hshape, splitAtSub_dashes (d.data ++ [' ']) (by
    intro hm
    rcases List.mem_append.1 hm with h1 | h1
    · exact hd3 h1
    · simp at h1) rest]
  simp only [Option.bind_eq_bind, Option.some_bind]
  have hcore : ((d.data ++ [' ']).reverse.dropWhile Char.isWhitespace).reverse
      = d.data := by
    rw [List.reverse_append]
    simp only [List.reverse_cons, List.reverse_nil, List.nil_append,
      List.singleton_append, List.dropWhile_cons]
    rw [if_pos (by decide)]
    rw [(trimmed_drops hd2).2, List.reverse_reverse]
  rw [hcore]
  rw [if_neg (by
    intro hcon
    rw [Bool.or_eq_true] at hcon
    rcases hcon with h1 | h1
    · rw [hdcons] at h1
      simp at h1
    · have hmem2 : ('\n' : Char) ∈ d.data := by simpa using h1
      exact hnl hmem2)]

end Soul

/-! ## Round-trip law: lines of each written block -/

theorem oneLine_append (a b : String) (ha : oneLine a) (hb : oneLine b) :
    oneLine (a ++ b) := by
  intro hm
  rw [str_data_append] at hm
  rcases List.mem_append.1 hm with h1 | h1
  · exact ha h1
  · exact hb h1

theorem splitLines_hdr_block (hdr content : String) (hh : oneLine hdr) :
    splitLines (hdr ++ "\n" ++ content) = hdr :: splitLines content := by
  rw [splitLines_append, splitLines_of_oneLine hdr hh]
  rfl

theorem oneLine_mk (s : String) (h : '\n' ∉ s.data) : oneLine s := h

namespace Soul

theorem stripCommentsF_no_lt :
    ∀ (fuel : ℕ) (cs : List Char), '<' ∉ cs → stripCommentsF fuel cs = cs := by
  intro fuel
  induction fuel with
  | zero => intro cs _; rfl
  | succ f ih =>
    intro cs h
    cases cs with
    | nil => rfl
    | cons c rest =>
      have hc : c ≠ '<' := fun e => h (e ▸ List.mem_cons_self _ _)
      rw [stripCommentsF, if_neg hc]
      rw [ih rest (fun m => h (List.mem_cons_of_mem _ m))]

theorem stripComments_no_lt (cs : List Char) (h : '<' ∉ cs) :
    stripComments cs = cs := stripCommentsF_no_lt cs.length cs h

theorem subs_entry_lines (subs : List (String × String))
    (h : ∀ nv ∈ subs, oneLine nv.1) :
    (subs.flatMap (fun nv =>
        ["", "### " ++ nv.1] ++ (if nv.2 ≠ "" then [nv.2] else []))).flatMap splitLines
      = subs.flatMap (fun nv =>
        ["", "### " ++ nv.1] ++ (if nv.2 ≠ "" then splitLines nv.2 else [])) := by
  induction subs with
  | nil => rfl
  | cons nv tl ih =>
    rw [List.flatMap_cons, List.flatMap_cons, List.flatMap_append,
      ih (fun x hx => h x (List.mem_cons_of_mem _ hx))]
    congr 1
    have hhdr : oneLine ("### " ++ nv.1) :=
      oneLine_append _ _ (oneLine_mk _ (by decide)) (h nv (List.mem_cons_self _ _))
    simp only [List.flatMap_append, List.flatMap_cons, List.flatMap_nil]
    rw [splitLines_of_oneLine _ hhdr]
    split
    · simp [splitLines, splitLinesChars]
    · simp [splitLines, splitLinesChars]

theorem phase_block_lines (name w : String) (sec : SoulPhaseSection)
    (hname : oneLine name) (hw : oneLine w)
    (hsubs : ∀ nv ∈ sec.subsections, oneLine nv.1)
    (hlock : ∀ d ∈ sec.lockedAt, oneLine d) :
    splitLines (writePhaseSection name sec w)
      = ("## " ++ name) :: phaseBlockRest w sec := by
  have h1 : oneLine ("## " ++ name) :=
    oneLine_append _ _ (oneLine_mk _ (by decide)) hname
  have h2 : oneLine ("<!-- WRITABLE during: " ++ w ++ " -->") :=
    oneLine_append _ _ (oneLine_append _ _ (oneLine_mk _ (by decide)) hw)
      (oneLine_mk _ (by decide))
  unfold writePhaseSection phaseBlockRest
  cases hlk : sec.lockedAt with
  | none =>
    rw [splitLines_joinLines_flat _ (by simp)]
    simp only [List.flatMap_append, List.flatMap_cons, List.flatMap_nil]
    rw [splitLines_of_oneLine _ h1, splitLines_of_oneLine _ h2,
      subs_entry_lines _ hsubs]
    simp
  | some d =>
    have h3 : oneLine ("<!-- Lock date: " ++ d ++ " -->") :=
      oneLine_append _ _ (oneLine_append _ _ (oneLine_mk _ (by decide))
        (hlock d (by rw [hlk]; rfl))) (oneLine_mk _ (by decide))
    rw [splitLines_joinLines_flat _ (by simp)]
    simp only [List.flatMap_append, List.flatMap_cons, List.flatMap_nil]
    rw [splitLines_of_oneLine _ h1, splitLines_of_oneLine _ h2,
      splitLines_of_oneLine _ (oneLine_mk "<!-- LOCKED -->" (by decide)),
      splitLines_of_oneLine _ h3, subs_entry_lines _ hsubs]
    simp

theorem traits_block_lines (t : InheritedTraits)
    (hpn : oneLine t.parentName) (hpa : oneLine t.parentAddress)
    (hra : oneLine t.replicatedAt)
    (hsubs : ∀ nv ∈ t.content, oneLine nv.1) :
    splitLines (writeInheritedTraitsSection t)
      = "## Inherited Traits" :: traitsBlockRest t := by
  have h2 : oneLine ("<!-- Parent: " ++ t.parentName ++ " -->") :=
    oneLine_append _ _ (oneLine_append _ _ (oneLine_mk _ (by decide)) hpn)
      (oneLine_mk _ (by decide))
  have h3 : oneLine ("<!-- Parent Address: " ++ t.parentAddress ++ " -->") :=
    oneLine_append _ _ (oneLine_append _ _ (oneLine_mk _ (by decide)) hpa)
      (oneLine_mk _ (by decide))
  have h4 : oneLine ("<!-- Replicated: " ++ t.replicatedAt ++ " -->") :=
    oneLine_append _ _ (oneLine_append _ _ (oneLine_mk _ (by decide)) hra)
      (oneLine_mk _ (by decide))
  unfold writeInheritedTraitsSection traitsBlockRest
  rw [splitLines_joinLines_flat _ (by simp)]
  simp only [List.flatMap_append, List.flatMap_cons, List.flatMap_nil]
  rw [splitLines_of_oneLine _ (oneLine_mk "## Inherited Traits" (by decide)),
    splitLines_of_oneLine _ (oneLine_mk
      "<!-- IMMUTABLE — propagated from parent\x27s Genesis Core at replication -->"
      (by decide)),
    splitLines_of_oneLine _ h2, splitLines_of_oneLine _ h3,
    splitLines_of_oneLine _ h4, subs_entry_lines _ hsubs]
  simp

theorem splitLines_joinSep2 (s : String) (ss : List String) :
    splitLines (joinSep "\n\n" (s :: ss))
      = splitLines s ++ ss.flatMap (fun t => "" :: splitLines t) := by
  induction ss generalizing s with
  | nil => simp [joinSep]
  | cons t ts ih =>
    rw [show joinSep "\n\n" (s :: t :: ts) = s ++ "\n\n" ++ joinSep "\n\n" (t :: ts)
      from rfl]
    have hsh : s ++ "\n\n" ++ joinSep "\n\n" (t :: ts)
        = s ++ "\n" ++ ("" ++ "\n" ++ joinSep "\n\n" (t :: ts)) := by
      apply strext
      simp [str_data_append]
    rw [hsh, splitLines_append, splitLines_append, ih t]
    simp [splitLines, splitLinesChars]

theorem splitLines_bullets (items : List String) (hne : items ≠ [])
    (h : ∀ v ∈ items, oneLine v) :
    splitLines (joinLines (items.map (fun v => "- " ++ v)))
      = items.map (fun v => "- " ++ v) := by
  apply splitLines_joinLines_ones
  · simp [hne]
  · intro l hl
    rcases List.mem_map.1 hl with ⟨v, hv, rfl⟩
    exact oneLine_append _ _ (oneLine_mk _ (by decide)) (h v hv)

end Soul

/-! ## Round-trip law: the body's line list -/

namespace Soul

theorem seg_text (cond : Prop) [Decidable cond] (hdrLine content : String)
    (hh : oneLine hdrLine) :
    (if cond then [hdrLine ++ "\n" ++ content] else []).flatMap
        (fun t => splitLines t ++ [""])
      = (if cond then [(hdrLine, splitLines content)] else []).flatMap blockChunk := by
  split
  · simp [blockChunk, splitLines_hdr_block _ _ hh]
  · rfl

theorem seg_list (cond : Prop) [Decidable cond] (hdrLine : String)
    (items : List String) (hh : oneLine hdrLine) (hi : ∀ v ∈ items, oneLine v)
    (hne : ¬cond → items ≠ []) :
    (if cond then [] else
        [hdrLine ++ "\n" ++ joinLines (items.map (fun v => "- " ++ v))]).flatMap
        (fun t => splitLines t ++ [""])
      = (if cond then [] else
        [(hdrLine, items.map (fun v => "- " ++ v))]).flatMap blockChunk := by
  split
  · rfl
  · next hcond =>
    simp [blockChunk, splitLines_hdr_block _ _ hh,
      splitLines_bullets items (hne hcond) hi]

theorem seg_phase (o : Option SoulPhaseSection) (name w hdr : String)
    (hhdr : hdr = "## " ++ name)
    (hname : oneLine name) (hw : oneLine w)
    (hsubs : ∀ s ∈ o, ∀ nv ∈ s.subsections, oneLine nv.1)
    (hlock : ∀ s ∈ o, ∀ d ∈ s.lockedAt, oneLine d) :
    (match o with
      | some s => [writePhaseSection name s w]
      | none => []).flatMap (fun t => splitLines t ++ [""])
      = (match o with
        | some s => [(hdr, phaseBlockRest w s)]
        | none => []).flatMap blockChunk := by
  cases o with
  | none => rfl
  | some s =>
    simp only [List.flatMap_cons, List.flatMap_nil, blockChunk]
    rw [phase_block_lines name w s hname hw (hsubs s rfl) (hlock s rfl), hhdr]

theorem seg_traits (o : Option InheritedTraits)
    (hpn : ∀ t ∈ o, oneLine t.parentName)
    (hpa : ∀ t ∈ o, oneLine t.parentAddress)
    (hra : ∀ t ∈ o, oneLine t.replicatedAt)
    (hsubs : ∀ t ∈ o, ∀ nv ∈ t.content, oneLine nv.1) :
    (match o with
      | some t => [writeInheritedTraitsSection t]
      | none => []).flatMap (fun t => splitLines t ++ [""])
      = (match o with
        | some t => [("## Inherited Traits", traitsBlockRest t)]
        | none => []).flatMap blockChunk := by
  cases o with
  | none => rfl
  | some t =>
    simp only [List.flatMap_cons, List.flatMap_nil, blockChunk]
    rw [traits_block_lines t (hpn t rfl) (hpa t rfl) (hra t rfl) (hsubs t rfl)]

set_option maxHeartbeats 1000000 in
theorem bodyLines_writer (m : SoulModel) (hWF : WFModel m) :
    splitLines ("\n" ++ joinSep "\n\n" (soulSectionStrings m) ++ "\n")
      = ["", headingLine m, ""] ++ (soulBlockList m).flatMap blockChunk := by
  have hhd : oneLine (headingLine m) := by
    unfold headingLine
    split
    · exact oneLine_append _ _ (oneLine_mk _ (by decide)) hWF.name_good.1
    · exact oneLine_mk _ (by decide)
  have hWFitems : ∀ (l : List String), (∀ v ∈ l, goodItem v) → ∀ v ∈ l, oneLine v :=
    fun l h v hv => (h v hv).1.1
  have happ : ∀ (A B : List String) (C D : List (String × List String)),
      A.flatMap (fun t => splitLines t ++ [""]) = C.flatMap blockChunk →
      B.flatMap (fun t => splitLines t ++ [""]) = D.flatMap blockChunk →
      (A ++ B).flatMap (fun t => splitLines t ++ [""])
        = (C ++ D).flatMap blockChunk := by
    intro A B C D h1 h2
    rw [List.flatMap_append, List.flatMap_append, h1, h2]
  have h0 : soulSectionStrings m = headingLine m ::
      ((((((((((((((if m.corePurpose ≠ "" then
            ["## Core Purpose\n" ++ m.corePurpose] else [])
      ++ (if m.values.isEmpty then [] else
          ["## Values\n" ++ joinLines (m.values.map (fun v => "- " ++ v))]))
      ++ (if m.behavioralGuidelines.isEmpty then [] else
          ["## Behavioral Guidelines\n" ++
            joinLines (m.behavioralGuidelines.map (fun g => "- " ++ g))]))
      ++ (if m.personality ≠ "" then ["## Personality\n" ++ m.personality] else []))
      ++ (if m.boundaries.isEmpty then [] else
          ["## Boundaries\n" ++ joinLines (m.boundaries.map (fun b => "- " ++ b))]))
      ++ (if m.strategy ≠ "" then ["## Strategy\n" ++ m.strategy] else []))
      ++ (if m.capabilities ≠ "" then ["## Capabilities\n" ++ m.capabilities] else []))
      ++ (if m.relationships ≠ "" then
          ["## Relationships\n" ++ m.relationships] else []))
      ++ (if m.financialCharacter ≠ "" then
          ["## Financial Character\n" ++ m.financialCharacter] else []))
      ++ (if m.genesisPromptOriginal ≠ "" then
          ["## Genesis Prompt\n" ++ m.genesisPromptOriginal] else []))
      ++ (match m.inheritedTraits with
          | some t => [writeInheritedTraitsSection t]
          | none => []))
      ++ (match m.genesisCore with
          | some s => [writePhaseSection "Genesis Core" s "Genesis phase only"]
          | none => []))
      ++ (match m.adolescenceLayer with
          | some s => [writePhaseSection "Adolescence Layer" s "Adolescence phase only"]
          | none => []))
      ++ (match m.sovereigntyLayer with
          | some s => [writePhaseSection "Sovereignty Layer" s "Sovereignty phase only"]
          | none => []))
      ++ (match m.finalReflections with
          | some s => [writePhaseSection "Final Reflections" s "Senescence only"]
          | none => []) := rfl
  obtain ⟨tl, htl, hflat⟩ : ∃ tl : List String,
      soulSectionStrings m = headingLine m :: tl ∧
      tl.flatMap (fun t => splitLines t ++ [""])
        = (soulBlockList m).flatMap blockChunk := by
    refine ⟨_, h0, ?_⟩
    unfold soulBlockList
    exact happ _ _ _ _ (happ _ _ _ _ (happ _ _ _ _ (happ _ _ _ _ (happ _ _ _ _
      (happ _ _ _ _ (happ _ _ _ _ (happ _ _ _ _ (happ _ _ _ _ (happ _ _ _ _
      (happ _ _ _ _ (happ _ _ _ _ (happ _ _ _ _ (happ _ _ _ _
        (seg_text (m.corePurpose ≠ "") "## Core Purpose" m.corePurpose
          (oneLine_mk _ (by decide)))
        (seg_list (m.values.isEmpty = true) "## Values" m.values
          (oneLine_mk _ (by decide)) (hWFitems _ hWF.values_good)
          (fun hc => by simpa [List.isEmpty_iff] using hc)))
        (seg_list (m.behavioralGuidelines.isEmpty = true) "## Behavioral Guidelines"
          m.behavioralGuidelines
          (oneLine_mk _ (by decide)) (hWFitems _ hWF.guidelines_good)
          (fun hc => by simpa [List.isEmpty_iff] using hc)))
        (seg_text (m.personality ≠ "") "## Personality" m.personality
          (oneLine_mk _ (by decide))))
        (seg_list (m.boundaries.isEmpty = true) "## Boundaries" m.boundaries
          (oneLine_mk _ (by decide)) (hWFitems _ hWF.boundaries_good)
          (fun hc => by simpa [List.isEmpty_iff] using hc)))
        (seg_text (m.strategy ≠ "") "## Strategy" m.strategy
          (oneLine_mk _ (by decide))))
        (seg_text (m.capabilities ≠ "") "## Capabilities" m.capabilities
          (oneLine_mk _ (by decide))))
        (seg_text (m.relationships ≠ "") "## Relationships" m.relationships
          (oneLine_mk _ (by decide))))
        (seg_text (m.financialCharacter ≠ "") "## Financial Character"
          m.financialCharacter (oneLine_mk _ (by decide))))
        (seg_text (m.genesisPromptOriginal ≠ "") "## Genesis Prompt"
          m.genesisPromptOriginal (oneLine_mk _ (by decide))))
        (seg_traits m.inheritedTraits
          (fun t ht => ((hWF.traits_good t ht).1).1.1)
          (fun t ht => ((hWF.traits_good t ht).2.1).1.1)
          (fun t ht => ((hWF.traits_good t ht).2.2.1).1.1)
          (fun t ht nv hnv => (((hWF.traits_good t ht).2.2.2) nv hnv).1.1.1)))
        (seg_phase m.genesisCore "Genesis Core" "Genesis phase only"
          "## Genesis Core" (strext rfl)
          (oneLine_mk _ (by decide)) (oneLine_mk _ (by decide))
          (fun s hs nv hnv => (((hWF.genesisCore_good s hs).1) nv hnv).1.1.1)
          (fun s hs d hd => (((hWF.genesisCore_good s hs).2.2) d hd).1.1)))
        (seg_phase m.adolescenceLayer "Adolescence Layer" "Adolescence phase only"
          "## Adolescence Layer" (strext rfl)
          (oneLine_mk _ (by decide)) (oneLine_mk _ (by decide))
          (fun s hs nv hnv => (((hWF.adolescence_good s hs).1) nv hnv).1.1.1)
          (fun s hs d hd => (((hWF.adolescence_good s hs).2.2) d hd).1.1)))
        (seg_phase m.sovereigntyLayer "Sovereignty Layer" "Sovereignty phase only"
          "## Sovereignty Layer" (strext rfl)
          (oneLine_mk _ (by decide)) (oneLine_mk _ (by decide))
          (fun s hs nv hnv => (((hWF.sovereignty_good s hs).1) nv hnv).1.1.1)
          (fun s hs d hd => (((hWF.sovereignty_good s hs).2.2) d hd).1.1)))
        (seg_phase m.finalReflections "Final Reflections" "Senescence only"
          "## Final Reflections" (strext rfl)
          (oneLine_mk _ (by decide)) (oneLine_mk _ (by decide))
          (fun s hs nv hnv => (((hWF.finalReflections_good s hs).1) nv hnv).1.1.1)
          (fun s hs d hd => (((hWF.finalReflections_good s hs).2.2) d hd).1.1))
  have houter : "\n" ++ joinSep "\n\n" (soulSectionStrings m) ++ "\n"
      = "" ++ "\n" ++ (joinSep "\n\n" (soulSectionStrings m) ++ "\n") := by
    apply strext
    simp [str_data_append]
  rw [houter, splitLines_append, splitLines_append_final, htl, splitLines_joinSep2,
    splitLines_of_oneLine _ hhd]
  rw [show splitLines "" = [""] from rfl]
  rw [List.append_assoc, joinLines_flat_intersperse splitLines, hflat]
  rfl
end Soul

/-! ## Round-trip law: interior-line classification -/

theorem startsWith_false_snd (p s : String) (a b c : Char) (pp cs : List Char)
    (hp : p.data = a :: b :: pp) (hs : s.data = a :: c :: cs) (hne : c ≠ b) :
    strStartsWith p s = false := by
  rw [strStartsWith_false_iff]
  rintro ⟨t, ht⟩
  rw [hp, hs] at ht
  injection ht with _ h2
  injection h2 with h3 _
  exact hne h3.symm

theorem startsWith_false_trd (p s : String) (a b c d : Char) (pp cs : List Char)
    (hp : p.data = a :: b :: c :: pp) (hs : s.data = a :: b :: d :: cs)
    (hne : d ≠ c) : strStartsWith p s = false := by
  rw [strStartsWith_false_iff]
  rintro ⟨t, ht⟩
  rw [hp, hs] at ht
  injection ht with _ h2
  injection h2 with _ h3
  injection h3 with h4 _
  exact hne h4.symm

theorem data_head_append (a b : String) (c : Char) (cs : List Char)
    (ha : a.data = c :: cs) : (a ++ b).data = c :: (cs ++ b.data) := by
  rw [str_data_append, ha]
  rfl

theorem trimStr_of_ends (s : String)
    (h1 : ∀ c, s.data.head? = some c → c.isWhitespace = false)
    (h2 : ∀ c, s.data.getLast? = some c → c.isWhitespace = false) :
    trimStr s = s := by
  apply strext
  show trimChars s.data = s.data
  unfold trimChars
  rw [dropWhile_eq_self_of_head h1]
  rw [dropWhile_eq_self_of_head (by
    intro c hc
    rw [List.head?_reverse] at hc
    exact h2 c hc)]
  exact List.reverse_reverse _

theorem mem_ite_single {α : Type} {c : Prop} [Decidable c] {x e : α}
    (he : e ∈ (if c then [x] else [])) : e = x := by
  split at he
  · simpa using he
  · simp at he

theorem mem_ite_single2 {α : Type} {c : Prop} [Decidable c] {x e : α}
    (he : e ∈ (if c then [] else [x])) : e = x := by
  split at he
  · simp at he
  · simpa using he

theorem mem_match_opt {α β : Type} {o : Option α} {f : α → β} {e : β}
    (he : e ∈ (match o with | some t => [f t] | none => ([] : List β))) :
    ∃ t, o = some t ∧ e = f t := by
  cases o with
  | none => simp at he
  | some t => exact ⟨t, rfl, by simpa using he⟩

theorem mem_match_opt2 {α β : Type} (o : Option α) (f : α → β) {e : β}
    (he : e ∈ ((match o with | some t => [f t] | none => []) : List β)) :
    ∃ t, o = some t ∧ e = f t := by
  cases o with
  | none => simp at he
  | some t => exact ⟨t, rfl, by simpa using he⟩

theorem splitLinesChars_subset :
    ∀ (cs : List Char) (l : List Char), l ∈ splitLinesChars cs →
      ∀ c ∈ l, c ∈ cs := by
  intro cs
  induction cs with
  | nil =>
    intro l hl c hc
    simp only [splitLinesChars, List.mem_singleton] at hl
    rw [hl] at hc
    simp at hc
  | cons x xs ih =>
    intro l hl c hc
    by_cases hx : x = '\n'
    · subst hx
      rw [splitLinesChars_cons_nl] at hl
      rcases List.mem_cons.1 hl with rfl | h2
      · simp at hc
      · exact List.mem_cons_of_mem _ (ih l h2 c hc)
    · cases hsp : splitLinesChars xs with
      | nil => exact absurd hsp (splitLinesChars_ne_nil xs)
      | cons l0 ls =>
        rw [splitLinesChars_cons_other x xs hx l0 ls hsp] at hl
        rcases List.mem_cons.1 hl with rfl | h2
        · rcases List.mem_cons.1 hc with rfl | h3
          · exact List.mem_cons_self _ _
          · exact List.mem_cons_of_mem _
              (ih l0 (by rw [hsp]; exact List.mem_cons_self _ _) c h3)
        · exact List.mem_cons_of_mem _
            (ih l (by rw [hsp]; exact List.mem_cons_of_mem _ h2) c hc)

theorem splitLines_chars_sub (s : String) (l : String) (hl : l ∈ splitLines s) :
    ∀ c ∈ l.data, c ∈ s.data := by
  intro c hc
  unfold splitLines at hl
  rcases List.mem_map.1 hl with ⟨lc, hlc, rfl⟩
  exact splitLinesChars_subset s.data lc hlc c hc

theorem joinLines_not_mem (c : Char) (hc : c ≠ '\n') :
    ∀ (ls : List String), (∀ l ∈ ls, c ∉ l.data) → c ∉ (joinLines ls).data := by
  intro ls
  induction ls with
  | nil =>
    intro _
    show c ∉ ([] : List Char)
    simp
  | cons l ls ih =>
    intro h
    cases ls with
    | nil => exact h l (List.mem_cons_self _ _)
    | cons y ys =>
      rw [joinLines_cons _ _ (by simp)]
      intro hm
      rw [str_data_append, str_data_append] at hm
      rcases List.mem_append.1 hm with h1 | h1
      · rcases List.mem_append.1 h1 with h2 | h2
        · exact h l (List.mem_cons_self _ _) h2
        · exact hc (by simpa using h2)
      · exact ih (fun x hx => h x (List.mem_cons_of_mem _ hx)) h1

theorem flat_intersperse {α : Type} (f : α → List String) (ss : List α) :
    ss.flatMap (fun t => "" :: f t) ++ [""]
      = "" :: ss.flatMap (fun t => f t ++ [""]) := by
  induction ss with
  | nil => rfl
  | cons t ts ih =>
    simp only [List.flatMap_cons, List.cons_append, List.append_assoc, ih]
    simp

theorem splitLines_ne_nil (s : String) : splitLines s ≠ [] := by
  unfold splitLines
  intro h
  exact splitLinesChars_ne_nil s.data (by simpa using h)

theorem getLast_joinLines (ls : List String) (l : String) (hl : l.data ≠ []) :
    (joinLines (ls ++ [l])).data.getLast? = l.data.getLast? := by
  induction ls with
  | nil => rfl
  | cons x xs ih =>
    rw [List.cons_append, joinLines_cons _ _ (by simp),
      str_data_append, str_data_append, List.append_assoc]
    rw [List.getLast?_append_of_ne_nil]
    · rw [List.getLast?_append_of_ne_nil]
      · exact ih
      · intro hnil
        have hthis := congrArg List.getLast? hnil
        rw [ih] at hthis
        cases hld : l.data with
        | nil => exact hl hld
        | cons a as =>
          rw [hld] at hthis
          simp at hthis
    · simp

theorem head_joinLines (l : String) (ls : List String) (c : Char) (cs : List Char)
    (hl : l.data = c :: cs) : (joinLines (l :: ls)).data.head? = some c := by
  cases ls with
  | nil => rw [show joinLines [l] = l from rfl, hl]; rfl
  | cons y ys =>
    rw [joinLines_cons _ _ (by simp), str_data_append, str_data_append, hl]
    rfl

namespace Soul

/-- Lines that can appear strictly inside a written `##` block: either no
`##` prefix, or a `### ` subsection header. -/
theorem line_not_section (l : String)
    (hl : strStartsWith "##" l = false ∨ ∃ n : String, l = "### " ++ n) :
    sectionHeaderLower l = none ∧ isNextSectionLine l = false ∧
    (∀ nm, phaseHeaderFor nm l = false) ∧
    strStartsWith "## Inherited Traits" l = false := by
  rcases hl with h | ⟨n, rfl⟩
  · exact ⟨secHdr_none_not2hash _ h, nextSection_false_not2hash _ h,
      fun nm => phaseHeaderFor_false_not2hash _ _ h,
      startsWith_false_not2hash _ _ _ rfl h⟩
  · have hd := hash3sp_data n
    exact ⟨secHdr_none_3hash _ _ hd, nextSection_false_3hash _ _ hd,
      fun nm => phaseHeaderFor_false_3hash _ _ _ hd,
      startsWith_false_trd _ _ '#' '#' ' ' '#'
        ("Inherited Traits".data) (' ' :: n.data) (by decide) hd (by decide)⟩

theorem chunks_false (p : String → Bool) (bs : List (String × List String))
    (hemp : p "" = false)
    (hno2 : ∀ l, strStartsWith "##" l = false → p l = false)
    (h3 : ∀ (l : String) (cs : List Char),
      l.data = '#' :: '#' :: '#' :: cs → p l = false)
    (hhdr : ∀ b ∈ bs, p b.1 = false)
    (hcls : ∀ b ∈ bs, ∀ l ∈ b.2,
      strStartsWith "##" l = false ∨ ∃ n : String, l = "### " ++ n) :
    ∀ l ∈ bs.flatMap blockChunk, p l = false := by
  intro l hl
  obtain ⟨b, hb, hlb⟩ := List.mem_flatMap.1 hl
  unfold blockChunk at hlb
  rcases List.mem_cons.1 hlb with rfl | h2
  · exact hhdr b hb
  · rcases List.mem_append.1 h2 with h3m | h3m
    · rcases hcls b hb l h3m with hc | ⟨n, rfl⟩
      · exact hno2 l hc
      · exact h3 _ (' ' :: n.data) (hash3sp_data n)
    · rw [List.mem_singleton.1 h3m]
      exact hemp

end Soul

theorem seg_header_ite {c : Prop} [Decidable c] (k : String) (v : List String) :
    ∀ b ∈ (if c then [(k, v)] else [] : List (String × List String)), b.1 = k :=
  fun b hb => by rw [mem_ite_single hb]

theorem seg_header_ite2 {c : Prop} [Decidable c] (k : String) (v : List String) :
    ∀ b ∈ (if c then [] else [(k, v)] : List (String × List String)), b.1 = k :=
  fun b hb => by rw [mem_ite_single2 hb]

theorem seg_header_match {α : Type} (o : Option α) (k : String)
    (f : α → List String) :
    ∀ b ∈ ((match o with
      | some t => [(k, f t)]
      | none => []) : List (String × List String)), b.1 = k :=
  fun b hb => by
    obtain ⟨t, _, rfl⟩ := mem_match_opt2 o (fun t => ((k, f t) : String × List String)) hb
    rfl

namespace Soul

/-- The heading line is never a `##`-anything. -/
theorem headingLine_not2hash (m : SoulModel) :
    strStartsWith "##" (headingLine m) = false := by
  refine startsWith_false_snd "##" _ '#' '#' ' ' []
    ((if m.name ≠ "" then m.name else "Soul").data) rfl ?_ (by decide)
  exact data_head_append "# " _ '#' [' '] rfl

theorem text_lines_class (content : String) (hc : goodText content) :
    ∀ l ∈ splitLines content,
      strStartsWith "##" l = false ∨ ∃ n : String, l = "### " ++ n :=
  fun l hl => Or.inl (hc.2 l hl)

theorem bullet_lines_class (items : List String) :
    ∀ l ∈ items.map (fun v => "- " ++ v),
      strStartsWith "##" l = false ∨ ∃ n : String, l = "### " ++ n := by
  intro l hl
  rcases List.mem_map.1 hl with ⟨v, _, rfl⟩
  exact Or.inl (startsWith_false_head "##" _ '#' '-' ['#'] _ rfl
    (data_head_append "- " v '-' [' '] rfl) (by decide))

theorem subsEntry_lines_class (subs : List (String × String))
    (h : WFSubs subs) :
    ∀ l ∈ subs.flatMap (fun nv =>
      ["", "### " ++ nv.1] ++ (if nv.2 ≠ "" then splitLines nv.2 else [])),
      strStartsWith "##" l = false ∨ ∃ n : String, l = "### " ++ n := by
  intro l hl
  obtain ⟨nv, hnv, hlnv⟩ := List.mem_flatMap.1 hl
  rcases List.mem_append.1 hlnv with h1 | h1
  · rcases List.mem_cons.1 h1 with rfl | h2
    · exact Or.inl (by decide)
    · rw [List.mem_singleton.1 h2]
      exact Or.inr ⟨nv.1, rfl⟩
  · split at h1
    · exact Or.inl (((h nv hnv).2.1).2 l h1)
    · simp at h1

theorem phaseRest_lines_class (w : String) (sec : SoulPhaseSection)
    (hsubs : WFSubs sec.subsections) :
    ∀ l ∈ phaseBlockRest w sec,
      strStartsWith "##" l = false ∨ ∃ n : String, l = "### " ++ n := by
  intro l hl
  unfold phaseBlockRest at hl
  rcases List.mem_append.1 hl with h1 | h1
  · rcases List.mem_append.1 h1 with h2 | h2
    · rw [List.mem_singleton.1 h2]
      exact Or.inl (startsWith_false_head "##" _ '#' '<' ['#'] _ rfl
        (data_head_append _ " -->" '<' _ (data_head_append "<!-- WRITABLE during: "
          w '<' ("!-- WRITABLE during: ".data) rfl)) (by decide))
    · cases hlk : sec.lockedAt with
      | none => rw [hlk] at h2; simp at h2
      | some d =>
        rw [hlk] at h2
        rcases List.mem_cons.1 h2 with rfl | h3
        · exact Or.inl (by decide)
        · rw [List.mem_singleton.1 h3]
          exact Or.inl (startsWith_false_head "##" _ '#' '<' ['#'] _ rfl
            (data_head_append _ " -->" '<' _ (data_head_append "<!-- Lock date: "
              d '<' ("!-- Lock date: ".data) rfl)) (by decide))
  · exact subsEntry_lines_class _ hsubs l h1

theorem traitsRest_lines_class (t : InheritedTraits) (h : WFSubs t.content) :
    ∀ l ∈ traitsBlockRest t,
      strStartsWith "##" l = false ∨ ∃ n : String, l = "### " ++ n := by
  intro l hl
  unfold traitsBlockRest at hl
  rcases List.mem_append.1 hl with h1 | h1
  · rcases List.mem_cons.1 h1 with rfl | h2
    · exact Or.inl (by decide)
    rcases List.mem_cons.1 h2 with rfl | h3
    · exact Or.inl (startsWith_false_head "##" _ '#' '<' ['#'] _ rfl
        (data_head_append _ " -->" '<' _ (data_head_append "<!-- Parent: "
          t.parentName '<' ("!-- Parent: ".data) rfl)) (by decide))
    rcases List.mem_cons.1 h3 with rfl | h4
    · exact Or.inl (startsWith_false_head "##" _ '#' '<' ['#'] _ rfl
        (data_head_append _ " -->" '<' _ (data_head_append "<!-- Parent Address: "
          t.parentAddress '<' ("!-- Parent Address: ".data) rfl)) (by decide))
    rw [List.mem_singleton.1 h4]
    exact Or.inl (startsWith_false_head "##" _ '#' '<' ['#'] _ rfl
      (data_head_append _ " -->" '<' _ (data_head_append "<!-- Replicated: "
        t.replicatedAt '<' ("!-- Replicated: ".data) rfl)) (by decide))
  · exact subsEntry_lines_class _ h l h1

end Soul

/-! ## Round-trip law: section content recovery -/

theorem sec_content_text (content : String) (hc : trimStr content = content) :
    trimStr (joinLines (splitLines content ++ [""])) = content := by
  rw [joinLines_append_emptyEnd _ (splitLines_ne_nil content), joinLines_splitLines]
  exact trimStr_append_nl hc

namespace Soul

theorem bullets_trimmed (items : List String) (hne : items ≠ [])
    (h : ∀ v ∈ items, goodItem v) :
    trimStr (joinLines (items.map (fun v => "- " ++ v)))
      = joinLines (items.map (fun v => "- " ++ v)) := by
  apply trimStr_of_ends
  · intro c hcHead
    obtain ⟨v0, tl, rfl⟩ := List.exists_cons_of_ne_nil hne
    rw [List.map_cons,
      head_joinLines ("- " ++ v0) _ '-' ([' '] ++ v0.data)
        (data_head_append "- " v0 '-' [' '] rfl)] at hcHead
    have hc : c = '-' := by simpa using hcHead.symm
    rw [hc]
    decide
  · intro c hcl
    rcases items.eq_nil_or_concat with rfl | ⟨init, vl, hcat⟩
    · exact absurd rfl hne
    rw [List.concat_eq_append] at hcat
    subst hcat
    have hvl : goodItem vl := h vl (by simp)
    have hvld : vl.data ≠ [] := fun hd => hvl.2 (strext hd)
    rw [List.map_append, List.map_singleton,
      getLast_joinLines _ ("- " ++ vl) (by
        rw [data_head_append "- " vl '-' [' '] rfl]
        simp)] at hcl
    rw [data_head_append "- " vl '-' [' '] rfl] at hcl
    rw [show ('-' :: ([' '] ++ vl.data)) = ['-', ' '] ++ vl.data from rfl,
      List.getLast?_append_of_ne_nil _ hvld] at hcl
    exact trimmed_last hvl.1.2 c hcl

theorem sec_content_bullets (items : List String) (hne : items ≠ [])
    (h : ∀ v ∈ items, goodItem v) :
    trimStr (joinLines (items.map (fun v => "- " ++ v) ++ [""]))
      = joinLines (items.map (fun v => "- " ++ v)) := by
  rw [joinLines_append_emptyEnd _
    (fun hm => hne (List.map_eq_nil_iff.1 hm))]
  exact trimStr_append_nl (bullets_trimmed items hne h)

theorem parseList_empty : parseList "" = [] := rfl

theorem parseList_bullets (items : List String) (hne : items ≠ [])
    (h : ∀ v ∈ items, goodItem v) :
    parseList (joinLines (items.map (fun v => "- " ++ v))) = items := by
  unfold parseList
  rw [splitLines_bullets items hne (fun v hv => (h v hv).1.1), List.map_map]
  have hmap : items.map ((fun l => match l.data with
      | c :: rest =>
        if c = '-' || c = '*' then trimStr ⟨rest.dropWhile Char.isWhitespace⟩
        else trimStr l
      | [] => trimStr l) ∘ (fun v => "- " ++ v)) = items := by
    refine (List.map_congr_left ?_).trans (List.map_id items)
    intro v hv
    show (match ("- " ++ v).data with
      | c :: rest =>
        if c = '-' || c = '*' then trimStr ⟨rest.dropWhile Char.isWhitespace⟩
        else trimStr ("- " ++ v)
      | [] => trimStr ("- " ++ v)) = v
    rw [data_head_append "- " v '-' [' '] rfl]
    show (if '-' = '-' || '-' = '*' then
      trimStr ⟨([' '] ++ v.data).dropWhile Char.isWhitespace⟩
      else trimStr ("- " ++ v)) = v
    rw [if_pos (by decide)]
    rw [show ([' '] ++ v.data) = ' ' :: v.data from rfl, List.dropWhile_cons,
      if_pos (by decide), (trimmed_drops (h v hv).1.2).1, mk_data]
    exact (h v hv).1.2
  rw [hmap]
  rw [List.filter_eq_self.2 ?_]
  intro a ha
  simpa using (h a ha).2

/-! ## Round-trip law: section lookup over the writer's section list -/

theorem keys_ne_app {A B : List (String × String)} {k : String}
    (hA : ∀ e ∈ A, e.1 ≠ k) (hB : ∀ e ∈ B, e.1 ≠ k) :
    ∀ e ∈ A ++ B, e.1 ≠ k := by
  intro e he
  rcases List.mem_append.1 he with h | h
  · exact hA e h
  · exact hB e h

theorem keys_ne_ite {c : Prop} [Decidable c] {k2 v k : String} (h : k2 ≠ k) :
    ∀ e ∈ (if c then [(k2, v)] else [] : List (String × String)), e.1 ≠ k :=
  fun e he => by rw [mem_ite_single he]; exact h

theorem keys_ne_ite2 {c : Prop} [Decidable c] {k2 v k : String} (h : k2 ≠ k) :
    ∀ e ∈ (if c then [] else [(k2, v)] : List (String × String)), e.1 ≠ k :=
  fun e he => by rw [mem_ite_single2 he]; exact h

theorem tailkeys_ne (ts : List (String × String)) (k : String)
    (htails : ∀ e ∈ ts, e.1 = "inherited traits" ∨ e.1 = "genesis core" ∨
      e.1 = "adolescence layer" ∨ e.1 = "sovereignty layer" ∨
      e.1 = "final reflections")
    (h1 : "inherited traits" ≠ k) (h2 : "genesis core" ≠ k)
    (h3 : "adolescence layer" ≠ k) (h4 : "sovereignty layer" ≠ k)
    (h5 : "final reflections" ≠ k) :
    ∀ e ∈ ts, e.1 ≠ k := by
  intro e he
  rcases htails e he with h | h | h | h | h <;> rw [h]
  exacts [h1, h2, h3, h4, h5]

theorem sectionsGet_skip (A rest : List (String × String)) (k : String)
    (hA : ∀ e ∈ A, e.1 ≠ k) :
    sectionsGet (A ++ rest) k = sectionsGet rest k := by
  unfold sectionsGet
  rw [List.filter_append, List.filter_eq_nil_iff.2
    (fun e he => by simpa using hA e he)]
  rfl

theorem sectionsGet_hit_ite (c : Prop) [Decidable c] (k v : String)
    (rest : List (String × String)) (hrest : ∀ e ∈ rest, e.1 ≠ k) :
    sectionsGet ((if c then [(k, v)] else []) ++ rest) k = if c then v else "" := by
  by_cases hc : c
  · rw [if_pos hc, if_pos hc]
    exact sectionsGet_found [] rest k v (by simp) hrest
  · rw [if_neg hc, if_neg hc]
    exact sectionsGet_absent rest k hrest

theorem sectionsGet_hit_ite2 (c : Prop) [Decidable c] (k v : String)
    (rest : List (String × String)) (hrest : ∀ e ∈ rest, e.1 ≠ k) :
    sectionsGet ((if c then [] else [(k, v)]) ++ rest) k = if c then "" else v := by
  by_cases hc : c
  · rw [if_pos hc, if_pos hc]
    exact sectionsGet_absent rest k hrest
  · rw [if_neg hc, if_neg hc]
    exact sectionsGet_found [] rest k v (by simp) hrest

end Soul

/-! ## Round-trip law: the writer's section list -/

theorem mapp {α β : Type} (f : α → β) (A B : List α) (a2 b2 : List β)
    (h1 : A.map f = a2) (h2 : B.map f = b2) : (A ++ B).map f = a2 ++ b2 := by
  rw [List.map_append, h1, h2]

theorem map_ite_singlec {α β : Type} (f : α → β) (c : Prop) [Decidable c]
    (x : α) (y : β) (h : c → f x = y) :
    (if c then [x] else []).map f = if c then [y] else [] := by
  split
  · next hc => simp [h hc]
  · rfl

theorem map_ite_single2c {α β : Type} (f : α → β) (c : Prop) [Decidable c]
    (x : α) (y : β) (h : ¬c → f x = y) :
    (if c then [] else [x]).map f = if c then [] else [y] := by
  split
  · rfl
  · next hc => simp [h hc]

theorem map_match_single {α β γ : Type} (f : β → γ) (o : Option α) (g : α → β) :
    ((match o with | some t => [g t] | none => []) : List β).map f
      = match o with | some t => [f (g t)] | none => [] := by
  cases o <;> rfl

namespace Soul

theorem soulBlockList_rassoc (m : SoulModel) :
    soulBlockList m =
      (if m.corePurpose ≠ "" then [("## Core Purpose", splitLines m.corePurpose)] else [])
      ++ ((if m.values.isEmpty then [] else
          [("## Values", m.values.map (fun v => "- " ++ v))])
      ++ ((if m.behavioralGuidelines.isEmpty then [] else
          [("## Behavioral Guidelines",
            m.behavioralGuidelines.map (fun g => "- " ++ g))])
      ++ ((if m.personality ≠ "" then
          [("## Personality", splitLines m.personality)] else [])
      ++ ((if m.boundaries.isEmpty then [] else
          [("## Boundaries", m.boundaries.map (fun b => "- " ++ b))])
      ++ ((if m.strategy ≠ "" then [("## Strategy", splitLines m.strategy)] else [])
      ++ ((if m.capabilities ≠ "" then
          [("## Capabilities", splitLines m.capabilities)] else [])
      ++ ((if m.relationships ≠ "" then
          [("## Relationships", splitLines m.relationships)] else [])
      ++ ((if m.financialCharacter ≠ "" then
          [("## Financial Character", splitLines m.financialCharacter)] else [])
      ++ ((if m.genesisPromptOriginal ≠ "" then
          [("## Genesis Prompt", splitLines m.genesisPromptOriginal)] else [])
      ++ ((match m.inheritedTraits with
          | some t => [("## Inherited Traits", traitsBlockRest t)]
          | none => [])
      ++ ((match m.genesisCore with
          | some s => [("## Genesis Core", phaseBlockRest "Genesis phase only" s)]
          | none => [])
      ++ ((match m.adolescenceLayer with
          | some s => [("## Adolescence Layer",
              phaseBlockRest "Adolescence phase only" s)]
          | none => [])
      ++ ((match m.sovereigntyLayer with
          | some s => [("## Sovereignty Layer",
              phaseBlockRest "Sovereignty phase only" s)]
          | none => [])
      ++ (match m.finalReflections with
          | some s => [("## Final Reflections", phaseBlockRest "Senescence only" s)]
          | none => []))))))))))))))  := by
  unfold soulBlockList
  simp only [List.append_assoc]

theorem sections_writer (m : SoulModel) (hWF : WFModel m) :
    ∃ ts : List (String × String),
      parseSections (["", headingLine m, ""] ++ (soulBlockList m).flatMap blockChunk)
        = (if m.corePurpose ≠ "" then [("core purpose", m.corePurpose)] else [])
        ++ ((if m.values.isEmpty then [] else
            [("values", joinLines (m.values.map (fun v => "- " ++ v)))])
        ++ ((if m.behavioralGuidelines.isEmpty then [] else
            [("behavioral guidelines",
              joinLines (m.behavioralGuidelines.map (fun g => "- " ++ g)))])
        ++ ((if m.personality ≠ "" then [("personality", m.personality)] else [])
        ++ ((if m.boundaries.isEmpty then [] else
            [("boundaries", joinLines (m.boundaries.map (fun b => "- " ++ b)))])
        ++ ((if m.strategy ≠ "" then [("strategy", m.strategy)] else [])
        ++ ((if m.capabilities ≠ "" then [("capabilities", m.capabilities)] else [])
        ++ ((if m.relationships ≠ "" then [("relationships", m.relationships)] else [])
        ++ ((if m.financialCharacter ≠ "" then
            [("financial character", m.financialCharacter)] else [])
        ++ ((if m.genesisPromptOriginal ≠ "" then
            [("genesis prompt", m.genesisPromptOriginal)] else [])
        ++ ts))))))))) ∧
      ∀ e ∈ ts, e.1 = "inherited traits" ∨ e.1 = "genesis core" ∨
        e.1 = "adolescence layer" ∨ e.1 = "sovereignty layer" ∨
        e.1 = "final reflections" := by
  have hpre : ∀ l ∈ ["", headingLine m, ""], sectionHeaderLower l = none := by
    intro l hl
    rcases List.mem_cons.1 hl with rfl | hl2
    · exact secHdr_none_nil _ rfl
    rcases List.mem_cons.1 hl2 with rfl | hl3
    · exact secHdr_none_not2hash _ (headingLine_not2hash m)
    rcases List.mem_cons.1 hl3 with rfl | hl4
    · exact secHdr_none_nil _ rfl
    · simp at hl4
  have hbs : ∀ b ∈ soulBlockList m, (sectionHeaderLower b.1).isSome ∧
      ∀ l ∈ b.2, sectionHeaderLower l = none := by
    intro b hb
    rw [soulBlockList_rassoc] at hb
    rcases List.mem_append.1 hb with hb | hb
    · rw [mem_ite_single hb]
      dsimp only
      exact ⟨by decide, fun l hl =>
        (line_not_section l (text_lines_class _ hWF.corePurpose_good l hl)).1⟩
    rcases List.mem_append.1 hb with hb | hb
    · rw [mem_ite_single2 hb]
      dsimp only
      exact ⟨by decide, fun l hl =>
        (line_not_section l (bullet_lines_class _ l hl)).1⟩
    rcases List.mem_append.1 hb with hb | hb
    · rw [mem_ite_single2 hb]
      dsimp only
      exact ⟨by decide, fun l hl =>
        (line_not_section l (bullet_lines_class _ l hl)).1⟩
    rcases List.mem_append.1 hb with hb | hb
    · rw [mem_ite_single hb]
      dsimp only
      exact ⟨by decide, fun l hl =>
        (line_not_section l (text_lines_class _ hWF.personality_good l hl)).1⟩
    rcases List.mem_append.1 hb with hb | hb
    · rw [mem_ite_single2 hb]
      dsimp only
      exact ⟨by decide, fun l hl =>
        (line_not_section l (bullet_lines_class _ l hl)).1⟩
    rcases List.mem_append.1 hb with hb | hb
    · rw [mem_ite_single hb]
      dsimp only
      exact ⟨by decide, fun l hl =>
        (line_not_section l (text_lines_class _ hWF.strategy_good l hl)).1⟩
    rcases List.mem_append.1 hb with hb | hb
    · rw [mem_ite_single hb]
      dsimp only
      exact ⟨by decide, fun l hl =>
        (line_not_section l (text_lines_class _ hWF.capabilities_good l hl)).1⟩
    rcases List.mem_append.1 hb with hb | hb
    · rw [mem_ite_single hb]
      dsimp only
      exact ⟨by decide, fun l hl =>
        (line_not_section l (text_lines_class _ hWF.relationships_good l hl)).1⟩
    rcases List.mem_append.1 hb with hb | hb
    · rw [mem_ite_single hb]
      dsimp only
      exact ⟨by decide, fun l hl =>
        (line_not_section l (text_lines_class _ hWF.financial_good l hl)).1⟩
    rcases List.mem_append.1 hb with hb | hb
    · rw [mem_ite_single hb]
      dsimp only
      exact ⟨by decide, fun l hl =>
        (line_not_section l (text_lines_class _ hWF.genesisPrompt_good l hl)).1⟩
    rcases List.mem_append.1 hb with hb | hb
    · cases hsel : m.inheritedTraits with
      | none =>
        rw [hsel] at hb
        simp at hb
      | some t =>
        rw [hsel] at hb
        have hbe : b = ("## Inherited Traits", traitsBlockRest t) := by simpa using hb
        rw [hbe]
        dsimp only
        exact ⟨by decide, fun l hl => (line_not_section l
          (traitsRest_lines_class t
            ((hWF.traits_good t (by rw [hsel]; rfl)).2.2.2) l hl)).1⟩
    rcases List.mem_append.1 hb with hb | hb
    · cases hsel : m.genesisCore with
      | none =>
        rw [hsel] at hb
        simp at hb
      | some s =>
        rw [hsel] at hb
        have hbe : b = ("## Genesis Core", phaseBlockRest "Genesis phase only" s) := by simpa using hb
        rw [hbe]
        dsimp only
        exact ⟨by decide, fun l hl => (line_not_section l
          (phaseRest_lines_class _ s
            ((hWF.genesisCore_good s (by rw [hsel]; rfl)).1) l hl)).1⟩
    rcases List.mem_append.1 hb with hb | hb
    · cases hsel : m.adolescenceLayer with
      | none =>
        rw [hsel] at hb
        simp at hb
      | some s =>
        rw [hsel] at hb
        have hbe : b = ("## Adolescence Layer", phaseBlockRest "Adolescence phase only" s) := by simpa using hb
        rw [hbe]
        dsimp only
        exact ⟨by decide, fun l hl => (line_not_section l
          (phaseRest_lines_class _ s
            ((hWF.adolescence_good s (by rw [hsel]; rfl)).1) l hl)).1⟩
    rcases List.mem_append.1 hb with hb | hb
    · cases hsel : m.sovereigntyLayer with
      | none =>
        rw [hsel] at hb
        simp at hb
      | some s =>
        rw [hsel] at hb
        have hbe : b = ("## Sovereignty Layer", phaseBlockRest "Sovereignty phase only" s) := by simpa using hb
        rw [hbe]
        dsimp only
        exact ⟨by decide, fun l hl => (line_not_section l
          (phaseRest_lines_class _ s
            ((hWF.sovereignty_good s (by rw [hsel]; rfl)).1) l hl)).1⟩
    · cases hsel : m.finalReflections with
      | none =>
        rw [hsel] at hb
        simp at hb
      | some s =>
        rw [hsel] at hb
        have hbe : b = ("## Final Reflections", phaseBlockRest "Senescence only" s) := by simpa using hb
        rw [hbe]
        dsimp only
        exact ⟨by decide, fun l hl => (line_not_section l
          (phaseRest_lines_class _ s
            ((hWF.finalReflections_good s (by rw [hsel]; rfl)).1) l hl)).1⟩
  refine ⟨(match m.inheritedTraits with
      | some t => [((sectionHeaderLower "## Inherited Traits").getD "",
          trimStr (joinLines (traitsBlockRest t ++ [""])))]
      | none => [])
    ++ ((match m.genesisCore with
      | some s => [((sectionHeaderLower "## Genesis Core").getD "",
          trimStr (joinLines (phaseBlockRest "Genesis phase only" s ++ [""])))]
      | none => [])
    ++ ((match m.adolescenceLayer with
      | some s => [((sectionHeaderLower "## Adolescence Layer").getD "",
          trimStr (joinLines (phaseBlockRest "Adolescence phase only" s ++ [""])))]
      | none => [])
    ++ ((match m.sovereigntyLayer with
      | some s => [((sectionHeaderLower "## Sovereignty Layer").getD "",
          trimStr (joinLines (phaseBlockRest "Sovereignty phase only" s ++ [""])))]
      | none => [])
    ++ (match m.finalReflections with
      | some s => [((sectionHeaderLower "## Final Reflections").getD "",
          trimStr (joinLines (phaseBlockRest "Senescence only" s ++ [""])))]
      | none => [])))), (parseSections_chunks _ _ hpre hbs).trans ?_, ?_⟩
  · rw [soulBlockList_rassoc]
    exact mapp _ _ _ _ _
      (map_ite_singlec _ _ _ _ (fun _ => by
        rw [show (sectionHeaderLower "## Core Purpose").getD ""
            = "core purpose" from by decide,
          sec_content_text _ hWF.corePurpose_good.1]))
      (mapp _ _ _ _ _
      (map_ite_single2c _ _ _ _ (fun hc => by
        rw [show (sectionHeaderLower "## Values").getD "" = "values" from by decide,
          sec_content_bullets _ (by simpa [List.isEmpty_iff] using hc)
            hWF.values_good]))
      (mapp _ _ _ _ _
      (map_ite_single2c _ _ _ _ (fun hc => by
        rw [show (sectionHeaderLower "## Behavioral Guidelines").getD ""
            = "behavioral guidelines" from by decide,
          sec_content_bullets _ (by simpa [List.isEmpty_iff] using hc)
            hWF.guidelines_good]))
      (mapp _ _ _ _ _
      (map_ite_singlec _ _ _ _ (fun _ => by
        rw [show (sectionHeaderLower "## Personality").getD ""
            = "personality" from by decide,
          sec_content_text _ hWF.personality_good.1]))
      (mapp _ _ _ _ _
      (map_ite_single2c _ _ _ _ (fun hc => by
        rw [show (sectionHeaderLower "## Boundaries").getD ""
            = "boundaries" from by decide,
          sec_content_bullets _ (by simpa [List.isEmpty_iff] using hc)
            hWF.boundaries_good]))
      (mapp _ _ _ _ _
      (map_ite_singlec _ _ _ _ (fun _ => by
        rw [show (sectionHeaderLower "## Strategy").getD ""
            = "strategy" from by decide,
          sec_content_text _ hWF.strategy_good.1]))
      (mapp _ _ _ _ _
      (map_ite_singlec _ _ _ _ (fun _ => by
        rw [show (sectionHeaderLower "## Capabilities").getD ""
            = "capabilities" from by decide,
          sec_content_text _ hWF.capabilities_good.1]))
      (mapp _ _ _ _ _
      (map_ite_singlec _ _ _ _ (fun _ => by
        rw [show (sectionHeaderLower "## Relationships").getD ""
            = "relationships" from by decide,
          sec_content_text _ hWF.relationships_good.1]))
      (mapp _ _ _ _ _
      (map_ite_singlec _ _ _ _ (fun _ => by
        rw [show (sectionHeaderLower "## Financial Character").getD ""
            = "financial character" from by decide,
          sec_content_text _ hWF.financial_good.1]))
      (mapp _ _ _ _ _
      (map_ite_singlec _ _ _ _ (fun _ => by
        rw [show (sectionHeaderLower "## Genesis Prompt").getD ""
            = "genesis prompt" from by decide,
          sec_content_text _ hWF.genesisPrompt_good.1]))
      (mapp _ _ _ _ _
        (by cases m.inheritedTraits <;> rfl)
      (mapp _ _ _ _ _
        (by cases m.genesisCore <;> rfl)
      (mapp _ _ _ _ _
        (by cases m.adolescenceLayer <;> rfl)
      (mapp _ _ _ _ _
        (by cases m.sovereigntyLayer <;> rfl)
        (by cases m.finalReflections <;> rfl))))))))))))))
  · intro e he
    rcases List.mem_append.1 he with he | he
    · cases hsel : m.inheritedTraits with
      | none =>
        rw [hsel] at he
        simp at he
      | some t =>
        rw [hsel] at he
        have hbe : e = ((sectionHeaderLower "## Inherited Traits").getD "",
            trimStr (joinLines (traitsBlockRest t ++ [""]))) := by simpa using he
        rw [hbe]
        dsimp only
        exact Or.inl (by decide)
    rcases List.mem_append.1 he with he | he
    · cases hsel : m.genesisCore with
      | none =>
        rw [hsel] at he
        simp at he
      | some s =>
        rw [hsel] at he
        have hbe : e = ((sectionHeaderLower "## Genesis Core").getD "",
            trimStr (joinLines (phaseBlockRest "Genesis phase only" s ++ [""]))) := by simpa using he
        rw [hbe]
        dsimp only
        exact Or.inr (Or.inl (by decide))
    rcases List.mem_append.1 he with he | he
    · cases hsel : m.adolescenceLayer with
      | none =>
        rw [hsel] at he
        simp at he
      | some s =>
        rw [hsel] at he
        have hbe : e = ((sectionHeaderLower "## Adolescence Layer").getD "",
            trimStr (joinLines (phaseBlockRest "Adolescence phase only" s ++ [""]))) := by simpa using he
        rw [hbe]
        dsimp only
        exact Or.inr (Or.inr (Or.inl (by decide)))
    rcases List.mem_append.1 he with he | he
    · cases hsel : m.sovereigntyLayer with
      | none =>
        rw [hsel] at he
        simp at he
      | some s =>
        rw [hsel] at he
        have hbe : e = ((sectionHeaderLower "## Sovereignty Layer").getD "",
            trimStr (joinLines (phaseBlockRest "Sovereignty phase only" s ++ [""]))) := by simpa using he
        rw [hbe]
        dsimp only
        exact Or.inr (Or.inr (Or.inr (Or.inl (by decide))))
    · cases hsel : m.finalReflections with
      | none =>
        rw [hsel] at he
        simp at he
      | some s =>
        rw [hsel] at he
        have hbe : e = ((sectionHeaderLower "## Final Reflections").getD "",
            trimStr (joinLines (phaseBlockRest "Senescence only" s ++ [""]))) := by simpa using he
        rw [hbe]
        dsimp only
        exact Or.inr (Or.inr (Or.inr (Or.inr (by decide))))

end Soul

end Automaton
